import Mathlib

/-!
# FAT16 reader: a shallow embedding of `file_reader.c`

Bytes, characters and machine integers are natural numbers (or integers where
the C type is signed); the places where the C arithmetic wraps are written
with an explicit modulus.  Memory blocks are lists of bytes and every access
is bounds checked: an access outside its block is C undefined behaviour and is
reported as `Outcome.undefined`.  All heap allocations are taken to succeed.
-/

namespace Fat16

/-! ## Outcomes of a C computation -/

/-- Result of running a piece of C code: undefined behaviour (an out-of-bounds
access, a division by zero), a loop that is still running when the step budget
is used up, or a normal return. -/
inductive Outcome (α : Type) where
  | undefined : Outcome α
  | timeout : Outcome α
  | ret : α → Outcome α
  deriving DecidableEq, Repr

/-- Sequencing of C statements: the first abnormal outcome wins. -/
def Outcome.bind {α β : Type} (x : Outcome α) (f : α → Outcome β) : Outcome β :=
  match x with
  | .undefined => .undefined
  | .timeout => .timeout
  | .ret a => f a

instance : Monad Outcome where
  pure := Outcome.ret
  bind := Outcome.bind

/-! ## Constants of `file_reader.h` and `errno.h` -/

def SECTOR_SIZE : Nat := 512
def FIRST_CLUSTER_OFFSET : Nat := 2
def MAX_NUM_OF_SECTORS_IN_FAT16 : Nat := 65535
def SIGNATURE_VALUE : Nat := 0xAA55
def NOT_DIR_FILE_LENGTH : Nat := 10
def FILE_NAME_LENGTH : Nat := 11
def EXTENSION_LENGTH : Nat := 3
def EXTENSION_LENGTH_WITH_DOT : Nat := 4
def FILE_LENGTH_TO_DOT : Nat := 7
def FILE_DELETED : Nat := 0xe5
def LAST_ENTRY : Nat := 0x00
def DIR_ATTR_VALUE : Nat := 16
def VOLUME_LABEL_ATTR_VALUE : Nat := 8
def IS_NOT_DIR : Nat := 0
def DOT_OFFSET : Nat := 8
def END_OF_FULL_FILE_NAME : Nat := 12
def READ_ONLY : Nat := 0
def IS_HIDDEN : Nat := 1
def IS_SYSTEM : Nat := 2
def IS_VOLUME_LABEL : Nat := 3
def IS_DIRECTORY : Nat := 4
def IS_ARCHIVED : Nat := 5

def SEEK_SET : Int := 0
def SEEK_CUR : Int := 1
def SEEK_END : Int := 2

def EIO : Nat := 5
def ENXIO : Nat := 6
def ENOENT : Nat := 2
def ENOMEM : Nat := 12
def EFAULT : Nat := 14
def ENOTDIR : Nat := 20
def EISDIR : Nat := 21
def EINVAL : Nat := 22
def ERANGE : Nat := 34

/-- The character `' '`. -/
def SPACE : Nat := 32
/-- The character `'.'`. -/
def DOT : Nat := 46
/-- The character `'\\'`. -/
def BACKSLASH : Nat := 92

/-! ## Memory and C strings -/

/-- Load of one byte at index `i` of a block. -/
def loadByte (mem : List Nat) (i : Nat) : Outcome Nat :=
  match mem[i]? with
  | some b => .ret b
  | none => .undefined

/-- Load of element `i` of an array of 16-bit values. -/
def loadElem (arr : List Nat) (i : Nat) : Outcome Nat :=
  match arr[i]? with
  | some c => .ret c
  | none => .undefined

/-- Store of one byte at index `i` of a block. -/
def storeByte (mem : List Nat) (i : Nat) (b : Nat) : Outcome (List Nat) :=
  if i < mem.length then .ret (mem.set i b) else .undefined

/-- Character `i` of a C string given by its characters before the
terminator: the terminator itself sits at index `length`, and nothing is known
to be readable behind it. -/
def cstrAt (s : List Nat) (i : Nat) : Outcome Nat :=
  if i < s.length then loadByte s i
  else if i = s.length then .ret 0
  else .undefined

/-- The C library `strcpy(dst, src)`: bytes `0 .. strlen(src)` of `dst`
receive the characters of `src` and the terminator. -/
def strcpy (dst : List Nat) (src : List Nat) : Outcome (List Nat) :=
  if src.length + 1 ≤ dst.length then .ret (src ++ 0 :: dst.drop (src.length + 1))
  else .undefined

/-- The loop `for (i = from; i < from + count; ++i) buf[i] = ' ';`. -/
def padSpaces (buf : List Nat) : (count : Nat) → (i : Nat) → Outcome (List Nat)
  | 0, _ => .ret buf
  | count + 1, i =>
    match storeByte buf i SPACE with
    | .ret buf1 => padSpaces buf1 count (i + 1)
    | .undefined => .undefined
    | .timeout => .timeout

/-! ## `fixFileName` -/

/-- The inner loop of `fixFileName`, lines 165-172:
`for (j; j < END_OF_FULL_FILE_NAME; j++)`, with `remaining` the number of
iterations left; it copies the extension and writes one space when the
terminator of the name is met. -/
def fixFileName_ext (fileName : List Nat) :
    (remaining : Nat) → (j : Nat) → (i : Nat) → (buf : List Nat) → Outcome (List Nat)
  | 0, _, _, buf => .ret buf
  | remaining + 1, j, i, buf => do
    let c ← cstrAt fileName i
    if c = 0 then
      storeByte buf j SPACE
    else
      let buf1 ← storeByte buf j c
      fixFileName_ext fileName remaining (j + 1) (i + 1) buf1

/-- The outer loop of `fixFileName`, lines 160-176:
`for (i; i < END_OF_FULL_FILE_NAME; i++)`; returns the buffer and `dotOffset`. -/
def fixFileName_scan (fileName : List Nat) :
    (remaining : Nat) → (i : Nat) → (buf : List Nat) → Outcome (List Nat × Nat)
  | 0, _, buf => .ret (buf, 0)
  | remaining + 1, i, buf => do
    let c ← cstrAt fileName i
    if c = DOT then
      let buf1 ← storeByte buf i SPACE
      let buf2 ← fixFileName_ext fileName (END_OF_FULL_FILE_NAME - DOT_OFFSET) DOT_OFFSET (i + 1) buf1
      pure (buf2, i)
    else
      let buf1 ← storeByte buf i c
      fixFileName_scan fileName remaining (i + 1) buf1

/-- The function `fixFileName(fileName, fixedFileName)`: `fileName` is the C
string, `fixedFileName` the destination block as the caller hands it over;
the result is the destination block afterwards. -/
def fixFileName (fileName : List Nat) (fixedFileName : List Nat) : Outcome (List Nat) := do
  let buf ← storeByte fixedFileName NOT_DIR_FILE_LENGTH 0
  if DOT ∉ fileName then
    let buf1 ← strcpy buf fileName
    padSpaces buf1 (FILE_NAME_LENGTH - fileName.length) fileName.length
  else
    let (buf1, dotOffset) ← fixFileName_scan fileName END_OF_FULL_FILE_NAME 0 buf
    padSpaces buf1 (DOT_OFFSET - dotOffset) dotOffset

/-- The initial contents of `char changedFileName[12] = ""` in `file_open`. -/
def emptyName12 : List Nat := List.replicate 12 0

/-! ## Machine integers -/

/-- Conversion to `int32_t` / `int`: the value is reduced into
`[-2^31, 2^31)` (two's complement wrap-around). -/
def toInt32 (x : Int) : Int :=
  (x + 2 ^ 31) % 2 ^ 32 - 2 ^ 31

/-- Conversion to `uint32_t` / `unsigned int`. -/
def toUInt32 (x : Int) : Nat :=
  (x % 2 ^ 32).toNat

/-- Conversion to `size_t` (64 bits). -/
def toSizeT (x : Int) : Nat :=
  (x % 2 ^ 64).toNat

/-- The value `(size_t) -1`. -/
def SIZE_MAX : Nat := 2 ^ 64 - 1

/-- Load of a little-endian `uint16_t` at byte index `i` (the host is little
endian, as the packed on-disk structures of the source assume). -/
def loadU16 (mem : List Nat) (i : Nat) : Outcome Nat := do
  let lo ← loadByte mem i
  let hi ← loadByte mem (i + 1)
  pure (lo + 256 * hi)

/-- Load of `len` bytes starting at byte index `start`. -/
def loadBlock (mem : List Nat) (start len : Nat) : Outcome (List Nat) :=
  if start + len ≤ mem.length then .ret ((mem.drop start).take len) else .undefined

/-! ## Data structures of `file_reader.h` -/

/-- The fields of `struct fatBootSector` that the code reads. -/
structure fatBootSector where
  BytesPerSector : Nat
  SectorPerCluster : Nat
  SizeReservedArea : Nat
  NumFATs : Nat
  MaxNumOfFiles : Nat
  FatSize : Nat
  SignatureValue : Nat
  deriving DecidableEq, Repr

/-- The block device `struct disk_t`: `pFile` is the content of the image
file, byte by byte. -/
structure disk_t where
  pFile : List Nat
  numberOfSectors : Nat
  deriving DecidableEq, Repr

/-- The 32-byte packed directory entry `struct SFN_t`; the two-byte bit-field
structures are kept as their 16-bit values. -/
structure SFN_t where
  filename : List Nat
  fileAttribute : Nat
  reservedNT : Nat
  fileCreationTime : Nat
  creationTime : Nat
  creationDate : Nat
  lastAccessDate : Nat
  firstClusterNumberHighBits : Nat
  lastModificationTime : Nat
  lastModificationDate : Nat
  firstClusterNumberLowBits : Nat
  fileSize : Nat
  deriving DecidableEq, Repr

/-- The mounted volume `struct volume_t`; `rootDirectory` is the loaded root
directory seen as the array of `struct SFN_t` the code indexes. -/
structure volume_t where
  disk : disk_t
  bootSector : fatBootSector
  FAT1 : List Nat
  FAT2 : List Nat
  rootDirectory : List SFN_t
  deriving DecidableEq, Repr

/-- The chain descriptor `struct clusters_chain_t`. -/
structure clusters_chain_t where
  clusters : List Nat
  clusterBuffer : List Nat
  clusterOffset : Nat
  size : Nat
  deriving DecidableEq, Repr

/-- The file handle `struct file_t`. -/
structure file_t where
  file_info : SFN_t
  chain : clusters_chain_t
  volume : volume_t
  offset : Nat
  deriving DecidableEq, Repr

/-- Two bytes of a 16-bit field, low byte first. -/
def le16 (x : Nat) : List Nat := [x % 256, x / 256 % 256]

/-- The 32 bytes of a directory entry as they lie in the root-directory
block. -/
def SFN_t.toBytes (e : SFN_t) : List Nat :=
  e.filename ++ [e.fileAttribute, e.reservedNT, e.fileCreationTime]
    ++ le16 e.creationTime ++ le16 e.creationDate ++ le16 e.lastAccessDate
    ++ le16 e.firstClusterNumberHighBits ++ le16 e.lastModificationTime
    ++ le16 e.lastModificationDate ++ le16 e.firstClusterNumberLowBits
    ++ le16 e.fileSize ++ le16 (e.fileSize / 65536)

/-! ## `get_chain_fat16` -/

/-- The `while (current_cluster < 0xFFF8)` loop of `get_chain_fat16`;
`fuel` bounds the number of iterations, `clusters` is the array built so far.
The block copied by `memcpy` starts `fat_sector` 16-bit elements into the FAT
block. -/
def get_chain_loop (buffer : List Nat) (size : Nat) (first_fat_sector : Nat) :
    (fuel : Nat) → (current_cluster : Nat) → (clusters : List Nat) → Outcome (List Nat)
  | 0, current_cluster, clusters =>
    if current_cluster < 0xFFF8 then .timeout else .ret clusters
  | fuel + 1, current_cluster, clusters =>
    if current_cluster < 0xFFF8 then do
      let fat_offset := (current_cluster * 2) % 2 ^ 32
      let fat_sector := (first_fat_sector + fat_offset / size) % 2 ^ 32
      let ent_offset := (fat_offset % size) % 2 ^ 32
      let FAT_table ← loadBlock buffer (2 * fat_sector) size
      let table_value ← loadU16 FAT_table ent_offset
      get_chain_loop buffer size first_fat_sector fuel table_value (clusters ++ [current_cluster])
    else .ret clusters

/-- The function `get_chain_fat16(buffer, size, first_cluster)`; `none` is the
`NULL` result.  The scratch buffer and the in-cluster offset of the returned
descriptor are not initialised by the C code; they are empty and zero here. -/
def get_chain_fat16 (fuel : Nat) (buffer : List Nat) (size : Nat) (first_cluster : Nat) :
    Outcome (Option clusters_chain_t) :=
  if size = 0 ∨ first_cluster = 0 then .ret none
  else do
    let current_cluster ← loadU16 buffer (2 * first_cluster)
    let first_fat_sector := ((first_cluster * 2) / size) % 2 ^ 32
    let clusters ← get_chain_loop buffer size first_fat_sector fuel current_cluster [first_cluster]
    pure (some { clusters := clusters, clusterBuffer := [], clusterOffset := 0,
                 size := clusters.length })

/-! ## `file_open` -/

/-- The C library `strncmp(s1, s2, n)`, reading from index `i` on: bytes are
compared as unsigned characters, and the comparison stops behind a terminator
common to both. -/
def strncmp (s1 s2 : List Nat) : (n : Nat) → (i : Nat) → Outcome Int
  | 0, _ => .ret 0
  | n + 1, i => do
    let c1 ← loadByte s1 i
    let c2 ← loadByte s2 i
    if c1 ≠ c2 then pure ((c1 : Int) - (c2 : Int))
    else if c1 = 0 then pure 0
    else strncmp s1 s2 n (i + 1)

/-- The function `checkIfFileExist(file, changedFileName)`; the second
component is `errno` afterwards. -/
def checkIfFileExist (file : SFN_t) (changedFileName : List Nat) (errno : Nat) :
    Outcome (Bool × Nat) := do
  let r ← strncmp file.filename changedFileName FILE_NAME_LENGTH 0
  if r = 0 then
    if file.fileAttribute &&& (1 <<< IS_DIRECTORY) = DIR_ATTR_VALUE then pure (false, EISDIR)
    else pure (true, errno)
  else pure (false, errno)

/-- The search loop of `file_open`, lines 208-215: `remaining` iterations are
left and `i` is the index the pointer `rootDirectory` has reached; returns the
copied entry when one is found, and `errno`. -/
def file_open_scan (rootDirectory : List SFN_t) (changedFileName : List Nat) :
    (remaining : Nat) → (i : Nat) → (errno : Nat) → Outcome (Option SFN_t × Nat)
  | 0, _, errno => .ret (none, errno)
  | remaining + 1, i, errno =>
    match rootDirectory[i]? with
    | none => .undefined
    | some file => do
      let (ok, errno1) ← checkIfFileExist file changedFileName errno
      if ok then pure (some file, errno1)
      else file_open_scan rootDirectory changedFileName remaining (i + 1) errno1

/-- The size in bytes that `file_open` passes to `get_chain_fat16`: the `int`
product `FatSize * BytesPerSector` converted to `size_t`. -/
def fatByteLength (b : fatBootSector) : Nat :=
  toSizeT (toInt32 (b.FatSize * b.BytesPerSector))

/-- Lines 232-243 of `file_open`: the chain descriptor is completed (the
division by a zero cluster size is undefined) and the handle returned. -/
def file_open_handle (pvolume : volume_t) (file_info : SFN_t) (chain : clusters_chain_t)
    (errno1 : Nat) : Outcome (Option file_t × Nat) :=
  if pvolume.bootSector.BytesPerSector * pvolume.bootSector.SectorPerCluster = 0 then .undefined
  else
    .ret (some { file_info := file_info,
                 chain := { clusters := chain.clusters,
                            clusterBuffer := List.replicate
                              (pvolume.bootSector.BytesPerSector *
                                pvolume.bootSector.SectorPerCluster) 0,
                            clusterOffset := 0,
                            size := file_info.fileSize /
                              (pvolume.bootSector.BytesPerSector *
                                pvolume.bootSector.SectorPerCluster) },
                 volume := pvolume,
                 offset := 0 }, errno1)

/-- Lines 224-231 of `file_open`: a `NULL` chain is reported as `ENOMEM`. -/
def file_open_chain (pvolume : volume_t) (file_info : SFN_t) (chain : Option clusters_chain_t)
    (errno1 : Nat) : Outcome (Option file_t × Nat) :=
  match chain with
  | none => .ret (none, ENOMEM)
  | some chain => file_open_handle pvolume file_info chain errno1

/-- Lines 216-243 of `file_open`, behind the search loop: `found` is the
copied entry, if any, and `errno1` is `errno` at that point. -/
def file_open_finish (fuel : Nat) (pvolume : volume_t) (found : Option SFN_t) (errno1 : Nat) :
    Outcome (Option file_t × Nat) :=
  match found with
  | none => .ret (none, ENOENT)
  | some file_info =>
    (get_chain_fat16 fuel pvolume.FAT1 (fatByteLength pvolume.bootSector)
      file_info.firstClusterNumberLowBits).bind
      (fun chain => file_open_chain pvolume file_info chain errno1)

/-- The function `file_open(pvolume, file_name)` for non-null arguments;
`none` is the `NULL` result and the second component is `errno` afterwards.
`fuel` bounds the iterations of the chain traversal. -/
def file_open (fuel : Nat) (pvolume : volume_t) (file_name : List Nat) (errno : Nat) :
    Outcome (Option file_t × Nat) :=
  match fixFileName file_name emptyName12 with
  | .undefined => .undefined
  | .timeout => .timeout
  | .ret changedFileName =>
    match file_open_scan pvolume.rootDirectory changedFileName
        pvolume.bootSector.MaxNumOfFiles 0 errno with
    | .undefined => .undefined
    | .timeout => .timeout
    | .ret (found, errno1) => file_open_finish fuel pvolume found errno1

/-! ## `disk_read` -/

/-- The function `disk_read(pdisk, first_sector, buffer, sectors_to_read)` for
non-null arguments: the result code, the destination block afterwards and
`errno`.  `fread` stores the bytes it finds in the file at the start of the
block; storing more than the block holds is undefined, and so is the overflow
of the `int` product `first_sector * SECTOR_SIZE`. -/
def disk_read (pdisk : disk_t) (first_sector : Int) (buffer : List Nat) (sectors_to_read : Int)
    (errno : Nat) : Outcome (Int × List Nat × Nat) :=
  if sectors_to_read < 0 then .ret (-1, buffer, EFAULT)
  else if first_sector < 0 ∨
      toUInt32 (toInt32 (first_sector + sectors_to_read)) > pdisk.numberOfSectors then
    .ret (-1, buffer, ERANGE)
  else if first_sector * SECTOR_SIZE ≥ 2 ^ 31 then .undefined
  else
    let data := (pdisk.pFile.drop (first_sector.toNat * SECTOR_SIZE)).take
      (SECTOR_SIZE * sectors_to_read.toNat)
    if data.length ≤ buffer.length then .ret (0, data ++ buffer.drop data.length, errno)
    else .undefined

/-! ## `file_read` and `file_seek` -/

/-- The inner loop of `file_read`, lines 286-291.  The destination `ptr` is
represented by the bytes stored so far at `ptr[0], ptr[1], ...`, so the store
`buffer[bytesRead] = b` appends.  Returns `clusterOffset`, `offset`,
`bytesRead` and the destination. -/
def file_read_copy (clusterSize expectedBytes fileSize : Nat) (clusterBuffer : List Nat) :
    (fuel : Nat) → (clusterOffset offset bytesRead : Nat) → (buffer : List Nat) →
      Outcome (Nat × Nat × Nat × List Nat)
  | 0, clusterOffset, offset, bytesRead, buffer =>
    if clusterOffset < clusterSize ∧ bytesRead < expectedBytes ∧ offset < fileSize then .timeout
    else .ret (clusterOffset, offset, bytesRead, buffer)
  | fuel + 1, clusterOffset, offset, bytesRead, buffer =>
    if clusterOffset < clusterSize ∧ bytesRead < expectedBytes ∧ offset < fileSize then do
      let b ← loadByte clusterBuffer clusterOffset
      file_read_copy clusterSize expectedBytes fileSize clusterBuffer fuel
        (clusterOffset + 1) (offset + 1) (bytesRead + 1) (buffer ++ [b])
    else .ret (clusterOffset, offset, bytesRead, buffer)

/-- The test that keeps the outer loop of `file_read` running: the `while`
condition of line 269 holds and the `break` of line 270 is not taken. -/
def file_read_continue (size nmemb : Nat) (stream : file_t) (bytesRead : Nat) : Bool :=
  decide (stream.offset ≤ stream.file_info.fileSize) &&
    !(decide (stream.offset ≥ stream.file_info.fileSize) ||
      decide (bytesRead ≥ (size * nmemb) % 2 ^ 64))

/-- The sector number computed on line 275 for the cluster number `cluster`
found in the chain: the `int` difference is converted to `size_t`, the sum is
formed in `size_t` and converted back to `int`. -/
def file_read_sector (clusterStartPosition : Int) (sectorsToRead : Nat) (cluster : Nat) : Int :=
  toInt32 (((toSizeT clusterStartPosition +
    toSizeT ((cluster : Int) - FIRST_CLUSTER_OFFSET) * sectorsToRead) % 2 ^ 64 : Nat) : Int)

/-- Lines 274-276 of `file_read`: the cluster that holds the current offset
is looked up in the chain and read into the scratch buffer; the result is
that of `disk_read`. -/
def file_read_fetch (clusterSize sectorsToRead : Nat) (clusterStartPosition : Int)
    (stream : file_t) (errno : Nat) : Outcome (Int × List Nat × Nat) :=
  if clusterSize = 0 then .undefined
  else
    let clusterNumber := toInt32 ((stream.offset / clusterSize : Nat) : Int)
    if clusterNumber < 0 then .undefined
    else do
      let cluster ← loadElem stream.chain.clusters clusterNumber.toNat
      disk_read stream.volume.disk (file_read_sector clusterStartPosition sectorsToRead cluster)
        stream.chain.clusterBuffer (toInt32 sectorsToRead) errno

/-- One pass through the body of the outer loop of `file_read`, lines 274-291:
either the early `return -1` (left) or the state after the inner loop
(right): handle, `bytesRead`, destination and `errno`. -/
def file_read_body (fuel expectedBytes clusterSize sectorsToRead : Nat)
    (clusterStartPosition : Int) (stream : file_t) (bytesRead : Nat) (buffer : List Nat)
    (errno : Nat) :
    Outcome ((Nat × List Nat × file_t × Nat) ⊕ (file_t × Nat × List Nat × Nat)) := do
  let (r, clusterBuffer, errno1) ←
    file_read_fetch clusterSize sectorsToRead clusterStartPosition stream errno
  let stream1 := { stream with chain := { stream.chain with clusterBuffer := clusterBuffer } }
  if r = -1 then pure (.inl (SIZE_MAX, buffer, stream1, ERANGE))
  else do
    let clusterOffset :=
      if stream.offset % clusterSize = clusterSize then 0 else stream.offset % clusterSize
    let (clusterOffset1, offset1, bytesRead1, buffer1) ←
      file_read_copy clusterSize expectedBytes stream.file_info.fileSize clusterBuffer fuel
        clusterOffset stream.offset bytesRead buffer
    pure (.inr ({ stream1 with offset := offset1,
                               chain := { stream1.chain with clusterOffset := clusterOffset1 } },
                bytesRead1, buffer1, errno1))

/-- The outer loop of `file_read`, lines 269-293, with its final
`return bytesRead / size`. -/
def file_read_loop (size nmemb clusterSize sectorsToRead : Nat) (clusterStartPosition : Int)
    (innerFuel : Nat) :
    (fuel : Nat) → (stream : file_t) → (bytesRead : Nat) → (buffer : List Nat) → (errno : Nat) →
      Outcome (Nat × List Nat × file_t × Nat)
  | 0, stream, bytesRead, buffer, errno =>
    if file_read_continue size nmemb stream bytesRead then .timeout
    else if size = 0 then .undefined
    else .ret (bytesRead / size, buffer, stream, errno)
  | fuel + 1, stream, bytesRead, buffer, errno =>
    if file_read_continue size nmemb stream bytesRead then do
      let r ← file_read_body innerFuel ((size * nmemb) % 2 ^ 64) clusterSize sectorsToRead
        clusterStartPosition stream bytesRead buffer errno
      match r with
      | .inl early => pure early
      | .inr (stream1, bytesRead1, buffer1, errno1) =>
        file_read_loop size nmemb clusterSize sectorsToRead clusterStartPosition innerFuel
          fuel stream1 bytesRead1 buffer1 errno1
    else if size = 0 then .undefined
    else .ret (bytesRead / size, buffer, stream, errno)

/-- The data-region start sector as `file_read` computes it (line 266). -/
def clusterStartPosition (b : fatBootSector) : Int :=
  toInt32 ((b.SizeReservedArea + b.FatSize * b.NumFATs + (32 * b.MaxNumOfFiles) / b.BytesPerSector
    : Nat) : Int)

/-- The function `file_read(ptr, size, nmemb, stream)` for non-null arguments:
the returned `size_t`, the bytes stored at `ptr[0], ptr[1], ...`, the handle
afterwards and `errno`.  `fuel` bounds the iterations of each of the two
loops. -/
def file_read (fuel : Nat) (size nmemb : Nat) (stream : file_t) (errno : Nat) :
    Outcome (Nat × List Nat × file_t × Nat) :=
  if stream.offset ≥ stream.file_info.fileSize then
    if stream.offset > stream.file_info.fileSize then .ret (SIZE_MAX, [], stream, ENXIO)
    else .ret (0, [], stream, errno)
  else
    let clusterSize := stream.volume.bootSector.BytesPerSector *
      stream.volume.bootSector.SectorPerCluster
    let sectorSize := stream.volume.bootSector.BytesPerSector
    if sectorSize = 0 then .undefined
    else
      let sectorsToRead := clusterSize / sectorSize
      file_read_loop size nmemb clusterSize sectorsToRead
        (clusterStartPosition stream.volume.bootSector) fuel fuel stream 0 [] errno

/-- The function `file_seek(stream, offset, whence)` for a non-null handle:
the returned `int32_t`, the handle afterwards and `errno`.  The `int`
additions and the negation wrap around. -/
def file_seek (stream : file_t) (offset : Int) (whence : Int) (errno : Nat) :
    Int × file_t × Nat :=
  if whence = SEEK_SET then
    if offset < 0 ∨ offset > toInt32 stream.file_info.fileSize then (-1, stream, ENXIO)
    else (0, { stream with offset := toSizeT offset }, errno)
  else if whence = SEEK_CUR then
    if toInt32 (toInt32 stream.offset + offset) < 0 ∨
        (stream.offset + toSizeT offset) % 2 ^ 64 > stream.file_info.fileSize then
      (-1, stream, ENXIO)
    else (0, { stream with offset := (stream.offset + toSizeT offset) % 2 ^ 64 }, errno)
  else if whence = SEEK_END then
    if offset > 0 ∨ offset < toInt32 (- toInt32 stream.file_info.fileSize) then
      (-1, stream, ENXIO)
    else (0, { stream with offset := toUInt32 (stream.file_info.fileSize + offset) }, errno)
  else (-1, stream, EINVAL)

/-! ## The directory reader -/

/-- The directory handle `struct dir_t`. -/
structure dir_t where
  data : List SFN_t
  size : Int
  offset : Int
  readDirs : Int
  deriving DecidableEq, Repr

/-- The view `struct dir_entry_t`; `name` is the C string held by the
13-byte field. -/
structure dir_entry_t where
  name : List Nat
  size : Nat
  is_archived : Int
  is_readonly : Int
  is_system : Int
  is_hidden : Int
  is_directory : Int
  deriving DecidableEq, Repr

/-- The function `dir_open(pvolume, dir_path)` for non-null arguments; `none`
is the `NULL` result and the second component is `errno` afterwards. -/
def dir_open (pvolume : volume_t) (dir_path : List Nat) (errno : Nat) : Option dir_t × Nat :=
  if dir_path ≠ [BACKSLASH] then
    (none, if dir_path.headD 0 ≠ BACKSLASH then ENOTDIR else ENOENT)
  else
    (some { data := pvolume.rootDirectory, size := pvolume.bootSector.MaxNumOfFiles,
            offset := 0, readDirs := 0 }, errno)

/-- The function `checkForExtension(dirName)`. -/
def checkForExtension (dirName : List Nat) : Outcome Bool := do
  let c ← loadByte dirName DOT_OFFSET
  pure (decide (c ≠ SPACE))

/-- The copy loops of `fixDirName` (lines 386, 401 and 412):
`for (i = 0; *dirName != ' ' [&& *dirName != '\0'] && i < limit; i++)`, with
`remaining = limit - i`; `p` and `q` are the positions the two pointers have
reached.  Returns both positions and the destination. -/
def fixDirName_copy (stopAtNul : Bool) (dirName : List Nat) :
    (remaining : Nat) → (p q : Nat) → (fixedDirName : List Nat) →
      Outcome (Nat × Nat × List Nat)
  | 0, p, q, fixedDirName => do
    let _ ← loadByte dirName p
    pure (p, q, fixedDirName)
  | remaining + 1, p, q, fixedDirName => do
    let c ← loadByte dirName p
    if c ≠ SPACE ∧ ¬ (stopAtNul = true ∧ c = 0) then
      let out ← storeByte fixedDirName q c
      fixDirName_copy stopAtNul dirName remaining (p + 1) (q + 1) out
    else pure (p, q, fixedDirName)

/-- The test `strchr(dirName, ' ') == NULL` on the bytes readable from
`dirName` on. -/
def strchrSpaceIsNull : (dirName : List Nat) → Outcome Bool
  | [] => .undefined
  | c :: rest => if c = SPACE then .ret false else if c = 0 then .ret true
    else strchrSpaceIsNull rest

/-- The length `strlen(s)` of the C string starting a block. -/
def strlen : (s : List Nat) → Outcome Nat
  | [] => .undefined
  | c :: rest => if c = 0 then .ret 0 else do
    let n ← strlen rest
    pure (n + 1)

/-- The loop `while (*dirName == ' ') dirName++;` of line 409, on the bytes
`rest` readable from position `p` on. -/
def fixDirName_skip : (rest : List Nat) → (p : Nat) → Outcome Nat
  | [], _ => .undefined
  | c :: rest, p => if c = SPACE then fixDirName_skip rest (p + 1) else .ret p

/-- The loop of lines 420-424, `while (*dirName != ' ' && *dirName != '\0')`,
on the bytes `rest` still to read. -/
def fixDirName_dir : (rest : List Nat) → (q : Nat) → (fixedDirName : List Nat) →
    Outcome (Nat × List Nat)
  | [], _, _ => .undefined
  | c :: rest, q, fixedDirName =>
    if c ≠ SPACE ∧ c ≠ 0 then do
      let out ← storeByte fixedDirName q c
      fixDirName_dir rest (q + 1) out
    else .ret (q, fixedDirName)

/-- Stores of several bytes in a row, from index `q` on. -/
def storeBytes (mem : List Nat) (q : Nat) : (bs : List Nat) → Outcome (List Nat)
  | [] => .ret mem
  | b :: bs => do
    let mem1 ← storeByte mem q b
    storeBytes mem1 (q + 1) bs

/-- The function `fixDirName(dirName, fixedDirName, isDirectory)` for non-null
arguments: `dirName` stands for the bytes readable from the pointer on,
`fixedDirName` for the 13-byte destination; the result is the destination
afterwards. -/
def fixDirName (dirName : List Nat) (fixedDirName : List Nat) (isDirectory : Nat) :
    Outcome (List Nat) :=
  if isDirectory = IS_NOT_DIR then do
    let ext ← checkForExtension dirName
    if ext = false then
      let (_, q, out) ← fixDirName_copy true dirName NOT_DIR_FILE_LENGTH 0 0 fixedDirName
      storeByte out q 0
    else do
      let noSpace ← strchrSpaceIsNull dirName
      if noSpace then
        let n ← strlen dirName
        let out ← storeBytes fixedDirName 0 (dirName.take n ++ [0])
        let moved ← loadBlock dirName FILE_LENGTH_TO_DOT EXTENSION_LENGTH_WITH_DOT
        let out1 ← storeBytes out DOT_OFFSET moved
        let out2 ← storeByte out1 DOT_OFFSET DOT
        storeByte out2 END_OF_FULL_FILE_NAME 0
      else
        let (p, q, out) ← fixDirName_copy false dirName NOT_DIR_FILE_LENGTH 0 0 fixedDirName
        let out1 ← storeByte out q DOT
        let p1 ← fixDirName_skip (dirName.drop (p + 1)) (p + 1)
        let (_, q2, out2) ← fixDirName_copy false dirName EXTENSION_LENGTH p1 (q + 1) out1
        storeByte out2 q2 0
  else if isDirectory = DIR_ATTR_VALUE then do
    let (q, out) ← fixDirName_dir dirName 0 fixedDirName
    storeByte out q 0
  else .ret fixedDirName

/-- The function `addOffsetAndChangeDirAttr(pdir)` for a non-null handle. -/
def addOffsetAndChangeDirAttr (pdir : dir_t) : dir_t :=
  let pdir1 := { pdir with offset := pdir.offset + 1 }
  if pdir1.offset = pdir1.size ∧ pdir1.readDirs = 0 then
    { pdir1 with offset := 0, readDirs := 1 }
  else pdir1

/-- Element `i` of the directory array, `i` being a C `int`. -/
def loadEntry (data : List SFN_t) (i : Int) : Outcome SFN_t :=
  if i < 0 then .undefined
  else match data[i.toNat]? with
    | some e => .ret e
    | none => .undefined

/-- The skip test of `dir_read`, lines 457-461, on the entry under the
cursor. -/
def dir_read_skip (e : SFN_t) (readDirs : Int) : Outcome Bool := do
  let c ← loadByte e.filename 0
  pure (decide (c = LAST_ENTRY) || decide (c = FILE_DELETED) ||
    decide (e.fileAttribute &&& (1 <<< IS_VOLUME_LABEL) = VOLUME_LABEL_ATTR_VALUE) ||
    (decide (e.fileSize ≠ 0) && decide (readDirs = 0)) ||
    (decide (e.fileSize = 0) && decide (readDirs = 1)))

/-- The scanning loop of `dir_read`, lines 455-468: returns `found` and the
handle afterwards; `fuel` bounds the iterations. -/
def dir_read_loop : (fuel : Nat) → (pdir : dir_t) → Outcome (Bool × dir_t)
  | 0, pdir => if pdir.offset < pdir.size then .timeout else .ret (false, pdir)
  | fuel + 1, pdir =>
    if pdir.offset < pdir.size then do
      let e ← loadEntry pdir.data pdir.offset
      let skip ← dir_read_skip e pdir.readDirs
      if skip then dir_read_loop fuel (addOffsetAndChangeDirAttr pdir)
      else pure (true, addOffsetAndChangeDirAttr pdir)
    else .ret (false, pdir)

/-- A flag of the view: `(attr & (1 << bit)) ? 1 : 0`. -/
def attrFlag (attr bit : Nat) : Int :=
  if attr &&& (1 <<< bit) ≠ 0 then 1 else 0

/-- Lines 475-487 of `dir_read`: the view filled from element `i` of the
directory array.  The name is formatted from the bytes that lie in the block
from that element on, into `char fixedDirName[13] = ""`, and copied as a C
string. -/
def dir_read_fill (data : List SFN_t) (i : Int) : Outcome dir_entry_t := do
  let directory ← loadEntry data i
  let fixedDirName ← fixDirName ((data.drop i.toNat).flatMap SFN_t.toBytes) (List.replicate 13 0)
    (directory.fileAttribute &&& (1 <<< IS_DIRECTORY))
  let n ← strlen fixedDirName
  pure { name := fixedDirName.take n,
         size := directory.fileSize,
         is_readonly := attrFlag directory.fileAttribute READ_ONLY,
         is_hidden := attrFlag directory.fileAttribute IS_HIDDEN,
         is_system := attrFlag directory.fileAttribute IS_SYSTEM,
         is_directory := attrFlag directory.fileAttribute IS_DIRECTORY,
         is_archived := attrFlag directory.fileAttribute IS_ARCHIVED }

/-- The function `dir_read(pdir, pentry)` for non-null arguments: the returned
`int`, the handle and the view afterwards, and `errno`. -/
def dir_read (fuel : Nat) (pdir : dir_t) (pentry : dir_entry_t) (errno : Nat) :
    Outcome (Int × dir_t × dir_entry_t × Nat) :=
  if pdir.offset = pdir.size then .ret (-1, pdir, pentry, ENXIO)
  else do
    let (found, pdir1) ← dir_read_loop fuel pdir
    if found = false then pure (1, pdir1, pentry, EIO)
    else
      let view ← dir_read_fill pdir1.data (pdir1.offset - 1)
      pure (0, pdir1, view, errno)

/-! ## `fat_open` -/

/-- The value `sizeof(struct SFN_t)` of the packed 32-byte directory entry. -/
def SIZEOF_SFN : Nat := 32

/-- The value `sizeof(struct dir_entry_t)` with 4-byte `int` and 8-byte
`size_t`: 13 name bytes, 3 bytes of padding, the size, five `int` flags and 4
bytes of padding. -/
def SIZEOF_DIR_ENTRY : Nat := 48

/-- The 16-bit little-endian field at byte offset `i` of a block. -/
def fieldU16 (b : List Nat) (i : Nat) : Nat :=
  b.getD i 0 + 256 * b.getD (i + 1) 0

/-- The fields of the packed `struct fatBootSector` laid over the 512 bytes
of the boot-sector block. -/
def parseBootSector (b : List Nat) : fatBootSector :=
  { BytesPerSector := fieldU16 b 11,
    SectorPerCluster := b.getD 13 0,
    SizeReservedArea := fieldU16 b 14,
    NumFATs := b.getD 16 0,
    MaxNumOfFiles := fieldU16 b 17,
    FatSize := fieldU16 b 22,
    SignatureValue := fieldU16 b 510 }

/-- The fields of the packed `struct SFN_t` laid over 32 bytes. -/
def SFN_t.ofBytes (b : List Nat) : SFN_t :=
  { filename := b.take 11,
    fileAttribute := b.getD 11 0,
    reservedNT := b.getD 12 0,
    fileCreationTime := b.getD 13 0,
    creationTime := fieldU16 b 14,
    creationDate := fieldU16 b 16,
    lastAccessDate := fieldU16 b 18,
    firstClusterNumberHighBits := fieldU16 b 20,
    lastModificationTime := fieldU16 b 22,
    lastModificationDate := fieldU16 b 24,
    firstClusterNumberLowBits := fieldU16 b 26,
    fileSize := fieldU16 b 28 + 65536 * fieldU16 b 30 }

/-- The root-directory block seen as the array of `n` elements of
`struct SFN_t` that `file_open` and `dir_read` index. -/
def rootEntries (block : List Nat) (n : Nat) : List SFN_t :=
  (List.range n).map (fun i => SFN_t.ofBytes ((block.drop (SIZEOF_SFN * i)).take SIZEOF_SFN))

/-- The sign of the first difference of two blocks of equal length, as
`memcmp` reports it. -/
def memcmp_diff : List Nat → List Nat → Int
  | a :: l1, b :: l2 => if a ≠ b then (a : Int) - (b : Int) else memcmp_diff l1 l2
  | _, _ => 0

/-- The C library `memcmp(s1, s2, n)`; comparing more bytes than a block
holds is undefined. -/
def memcmp (s1 s2 : List Nat) (n : Nat) : Outcome Int :=
  if n ≤ s1.length ∧ n ≤ s2.length then .ret (memcmp_diff (s1.take n) (s2.take n))
  else .undefined

/-- Lines 92-133 of `fat_open`, behind the two tests of the boot sector: the
FAT blocks are allocated zeroed and read, compared over `FatSize *
SECTOR_SIZE` bytes, and the root-directory block is allocated and read.  The
results of `disk_read` are not looked at. -/
def fat_open_load (pdisk : disk_t) (first_sector : Nat) (junk : Nat → Nat)
    (bootSector : fatBootSector) (errno : Nat) : Outcome (Option volume_t × Nat) := do
  let zeros := List.replicate (bootSector.FatSize * bootSector.BytesPerSector) 0
  let (_, FAT1, errno1) ← disk_read pdisk
    (toInt32 (toInt32 first_sector + bootSector.SizeReservedArea)) zeros bootSector.FatSize errno
  let (_, FAT2, errno2) ← disk_read pdisk
    (toInt32 (toInt32 first_sector + bootSector.SizeReservedArea + bootSector.FatSize)) zeros
    bootSector.FatSize errno1
  let c ← memcmp FAT1 FAT2 (bootSector.FatSize * SECTOR_SIZE)
  if c ≠ 0 then pure (none, EINVAL)
  else do
    let block := (List.range (bootSector.MaxNumOfFiles * SIZEOF_DIR_ENTRY)).map junk
    let (_, root, errno3) ← disk_read pdisk
      ((bootSector.SizeReservedArea + bootSector.FatSize * 2 : Nat) : Int) block
      ((SIZEOF_SFN * bootSector.MaxNumOfFiles / bootSector.BytesPerSector : Nat) : Int) errno2
    pure (some { disk := pdisk, bootSector := bootSector, FAT1 := FAT1, FAT2 := FAT2,
                 rootDirectory := rootEntries root bootSector.MaxNumOfFiles }, errno3)

/-- The function `fat_open(pdisk, first_sector)` for a non-null device, every
allocation succeeding; `none` is the `NULL` result and the second component
is `errno` afterwards.  `junk i` is byte `i` of the block `malloc` hands out
for the root directory (its contents are indeterminate). -/
def fat_open (pdisk : disk_t) (first_sector : Nat) (junk : Nat → Nat) (errno : Nat) :
    Outcome (Option volume_t × Nat) :=
  if toInt32 first_sector < 0 then .ret (none, EFAULT)
  else do
    let (_, boot, errno1) ← disk_read pdisk (toInt32 first_sector) (List.replicate 512 0) 1 errno
    let bootSector := parseBootSector boot
    if bootSector.SignatureValue ≠ SIGNATURE_VALUE then pure (none, EINVAL)
    else if bootSector.BytesPerSector = 0 then .undefined
    else if bootSector.MaxNumOfFiles * SIZEOF_SFN % bootSector.BytesPerSector ≠ 0 then
      pure (none, EINVAL)
    else fat_open_load pdisk first_sector junk bootSector errno1

/-! ## Callers -/

/-- A caller that invokes `dir_read` until it returns non-zero, at most
`calls` times, and collects the views of the successful calls. -/
def dir_read_all (fuel : Nat) : (calls : Nat) → (pdir : dir_t) → (pentry : dir_entry_t) →
    Outcome (List dir_entry_t)
  | 0, _, _ => .timeout
  | calls + 1, pdir, pentry => do
    let (r, pdir1, pentry1, _) ← dir_read fuel pdir pentry 0
    if r = 0 then
      let rest ← dir_read_all fuel calls pdir1 pentry1
      pure (pentry1 :: rest)
    else pure []

/-- A caller that invokes `file_read(buf, 1, k, h)` until it returns 0 (or
fails), at most `calls` times, and collects the return value and the bytes
delivered by every call. -/
def file_read_all (fuel k : Nat) : (calls : Nat) → (stream : file_t) →
    Outcome (List (Nat × List Nat))
  | 0, _ => .timeout
  | calls + 1, stream => do
    let (r, bytes, stream1, _) ← file_read fuel 1 k stream 0
    if r = 0 ∨ r = SIZE_MAX then pure [(r, bytes)]
    else
      let rest ← file_read_all fuel k calls stream1
      pure ((r, bytes) :: rest)

/-! ## Example images -/

/-- A directory entry with the given name field, attribute byte, first
cluster and size; the remaining fields are zero. -/
def mkEntry (filename : List Nat) (fileAttribute firstCluster fileSize : Nat) : SFN_t :=
  { filename := filename, fileAttribute := fileAttribute, reservedNT := 0,
    fileCreationTime := 0, creationTime := 0, creationDate := 0, lastAccessDate := 0,
    firstClusterNumberHighBits := 0, lastModificationTime := 0, lastModificationDate := 0,
    firstClusterNumberLowBits := firstCluster, fileSize := fileSize }

/-- A never used root-directory slot. -/
def freeEntry : SFN_t := mkEntry (List.replicate 11 0) 0 0 0

/-- The bytes of `Hello, World!`. -/
def helloBytes : List Nat := [72, 101, 108, 108, 111, 44, 32, 87, 111, 114, 108, 100, 33]

/-- A five-sector image: one reserved sector, two FATs of one sector, a root
directory of 16 slots (one sector), and one data cluster that starts with
`Hello, World!`. -/
def exampleDisk : disk_t :=
  { pFile := List.replicate 2048 0 ++ helloBytes ++ List.replicate 499 0,
    numberOfSectors := 5 }

/-- A FAT in which cluster 2 is the last cluster of its chain. -/
def exampleFAT : List Nat := [0xF8, 0xFF, 0xFF, 0xFF, 0xFF, 0xFF] ++ List.replicate 506 0

/-- The volume over `exampleDisk` whose root directory starts with the given
entries; the remaining slots are free. -/
def exampleVolume (entries : List SFN_t) : volume_t :=
  { disk := exampleDisk,
    bootSector := { BytesPerSector := 512, SectorPerCluster := 1, SizeReservedArea := 1,
                    NumFATs := 2, MaxNumOfFiles := 16, FatSize := 1,
                    SignatureValue := SIGNATURE_VALUE },
    FAT1 := exampleFAT, FAT2 := exampleFAT,
    rootDirectory := entries ++ List.replicate (16 - entries.length) freeEntry }

/-- The name field `HELLO   TXT`. -/
def helloSfn : List Nat := [72, 69, 76, 76, 79, 32, 32, 32, 84, 88, 84]

/-- The entry of the 13-byte file `HELLO.TXT` stored in cluster 2. -/
def helloEntry : SFN_t := mkEntry helloSfn 0x20 2 13

/-- The entry of the directory `DOCS`. -/
def docsEntry : SFN_t := mkEntry [68, 79, 67, 83, 32, 32, 32, 32, 32, 32, 32] 0x10 0 0

/-- The entry of the empty file `EMPTY.TXT`. -/
def emptyEntry : SFN_t := mkEntry [69, 77, 80, 84, 89, 32, 32, 32, 84, 88, 84] 0x20 0 0

/-- The entry of a file whose name field is `A       B  `, the short name of
`A.B`. -/
def abEntry : SFN_t := mkEntry [65, 32, 32, 32, 32, 32, 32, 32, 66, 32, 32] 0x20 2 13

/-- The entry whose name field is `A`, eight spaces, a NUL and `X`. -/
def nulEntry : SFN_t := mkEntry [65, 32, 32, 32, 32, 32, 32, 32, 32, 0, 88] 0x20 2 13

/-- The handle `file_open` returns on `exampleVolume [e]` for the entry `e`
whose chain is the single cluster 2, moved to the given offset. -/
def exampleHandle (e : SFN_t) (offset : Nat) : file_t :=
  { file_info := e,
    chain := { clusters := [2], clusterBuffer := List.replicate 512 0, clusterOffset := 0,
               size := e.fileSize / 512 },
    volume := exampleVolume [e],
    offset := offset }

/-- An entry whose size field holds `2^31`. -/
def hugeEntry : SFN_t := mkEntry helloSfn 0x20 2 (2 ^ 31)

/-- The view `dir_read` fills for the directory `DOCS`. -/
def docsView : dir_entry_t :=
  { name := [68, 79, 67, 83], size := 0, is_archived := 0, is_readonly := 0, is_system := 0,
    is_hidden := 0, is_directory := 1 }

/-- The view `dir_read` fills for the file `HELLO.TXT`. -/
def helloView : dir_entry_t :=
  { name := [72, 69, 76, 76, 79, 46, 84, 88, 84], size := 13, is_archived := 1,
    is_readonly := 0, is_system := 0, is_hidden := 0, is_directory := 0 }

/-- A view as the caller may hand it to `dir_read` before the first call. -/
def blankView : dir_entry_t :=
  { name := [], size := 0, is_archived := 0, is_readonly := 0, is_system := 0,
    is_hidden := 0, is_directory := 0 }

/-- The handle `dir_open` returns for the root directory of a volume. -/
def rootHandle (v : volume_t) : dir_t :=
  { data := v.rootDirectory, size := v.bootSector.MaxNumOfFiles, offset := 0, readDirs := 0 }

/-! ## Notions used to state the properties -/

/-- The directory bit (bit 4) of the attribute byte is set. -/
def SFN_t.isDirectory (f : SFN_t) : Bool :=
  decide (f.fileAttribute &&& (1 <<< IS_DIRECTORY) = DIR_ATTR_VALUE)

/-- The entry is one that `dir_read` lists at all: its first name byte is
neither 0x00 (free) nor 0xE5 (deleted) and it is not a volume label. -/
def SFN_t.listed (e : SFN_t) : Bool :=
  decide (e.filename.headD 0 ≠ LAST_ENTRY) && decide (e.filename.headD 0 ≠ FILE_DELETED) &&
    decide (e.fileAttribute &&& (1 <<< IS_VOLUME_LABEL) ≠ VOLUME_LABEL_ATTR_VALUE)

/-- Slot `i` of the directory array holds a listed entry whose size is zero. -/
def listedZeroSize (data : List SFN_t) (i : Nat) : Bool :=
  match data[i]? with
  | some e => e.listed && decide (e.fileSize = 0)
  | none => false

/-- Slot `i` of the directory array holds a listed entry whose size is not
zero. -/
def listedNonzeroSize (data : List SFN_t) (i : Nat) : Bool :=
  match data[i]? with
  | some e => e.listed && decide (e.fileSize ≠ 0)
  | none => false

/-- The slots that `dir_read` delivers while `readDirs` has the given value:
the zero-size ones for 0, the others for 1. -/
def deliveredAt (data : List SFN_t) (readDirs : Int) (i : Nat) : Bool :=
  if readDirs = 0 then listedZeroSize data i else listedNonzeroSize data i

/-- The cluster size `BytesPerSector * SectorPerCluster` of the volume of a
handle. -/
def file_t.clusterSize (st : file_t) : Nat :=
  st.volume.bootSector.BytesPerSector * st.volume.bootSector.SectorPerCluster

/-- Every cluster read that `file_read` performs while it moves the offset of
`st` forward by up to `m` bytes succeeds: wherever in that range the offset
stands and whatever the scratch buffer holds, lines 274-276 end with
`disk_read` returning 0. -/
def ClusterReadsSucceed (st : file_t) (m : Nat) : Prop :=
  ∀ st' : file_t, st'.file_info = st.file_info → st'.volume = st.volume →
    st'.chain.clusters = st.chain.clusters →
    st'.chain.clusterBuffer.length = st.chain.clusterBuffer.length →
    st.offset ≤ st'.offset → st'.offset < st.offset + m → ∀ errno,
    ∃ clusterBuffer,
      file_read_fetch st.clusterSize (st.clusterSize / st.volume.bootSector.BytesPerSector)
        (clusterStartPosition st.volume.bootSector) st' errno = .ret (0, clusterBuffer, errno)

/-- What `file_open` establishes for every handle it returns (it divides by
the cluster size and allocates a scratch buffer of that size), and what
`file_read` and `file_seek` preserve. -/
def file_t.opened (st : file_t) : Prop :=
  st.clusterSize ≠ 0 ∧ st.chain.clusterBuffer.length = st.clusterSize

/-- The ranges of the C types of the boot-sector fields (`uint16_t` and
`unsigned char`). -/
def fatBootSector.inRange (b : fatBootSector) : Prop :=
  b.BytesPerSector < 2 ^ 16 ∧ b.SectorPerCluster < 2 ^ 8 ∧ b.SizeReservedArea < 2 ^ 16 ∧
    b.NumFATs < 2 ^ 8 ∧ b.MaxNumOfFiles < 2 ^ 16 ∧ b.FatSize < 2 ^ 16

/-- What `disk_open_from_file` establishes: the sector count is the length of
the image file divided by 512 and does not exceed 65535. -/
def disk_t.opened (d : disk_t) : Prop :=
  d.numberOfSectors = d.pFile.length / SECTOR_SIZE ∧
    d.numberOfSectors ≤ MAX_NUM_OF_SECTORS_IN_FAT16

/-- The data-region start sector
`ReservedSectors + NumFATs * FatSize + (MaxRootEntries * 32) / BytesPerSector`. -/
def data_start_sector (b : fatBootSector) : Nat :=
  b.SizeReservedArea + b.NumFATs * b.FatSize + (b.MaxNumOfFiles * 32) / b.BytesPerSector

/-- The sector `data_start_sector + (c - 2) * SectorsPerCluster` at which
cluster number `c` is stored. -/
def clusterSector (b : fatBootSector) (c : Nat) : Int :=
  (data_start_sector b : Int) + ((c : Int) - 2) * (b.SectorPerCluster : Int)

/-- Cluster number `c` lies inside the device: its sectors are sectors of the
block device. -/
def clusterInDevice (v : volume_t) (c : Nat) : Prop :=
  0 ≤ clusterSector v.bootSector c ∧
    clusterSector v.bootSector c + (v.bootSector.SectorPerCluster : Int)
      ≤ (v.disk.numberOfSectors : Int)

/-- The bytes of cluster number `c` on the device. -/
def clusterData (v : volume_t) (c : Nat) : List Nat :=
  (v.disk.pFile.drop ((clusterSector v.bootSector c).toNat * SECTOR_SIZE)).take
    (v.bootSector.BytesPerSector * v.bootSector.SectorPerCluster)

/-- The byte at logical file position `p`: byte `p mod cluster_size` of the
cluster whose number is chain element `p / cluster_size`. -/
def logicalByte (st : file_t) (p : Nat) : Option Nat :=
  match st.chain.clusters[p / st.clusterSize]? with
  | none => none
  | some c =>
    st.volume.disk.pFile[(clusterSector st.volume.bootSector c).toNat * SECTOR_SIZE
      + p % st.clusterSize]?

/-- The canonical content of the file of a handle: the first `file_size`
bytes of the data of its cluster chain, in chain order. -/
def fileContent (st : file_t) : List Nat :=
  (st.chain.clusters.flatMap (clusterData st.volume)).take st.file_info.fileSize

/-- The conditions under which the bytes of a file can be read from the
device: the boot-sector fields and the size field are in the range of their C
types, the block device is as `disk_open_from_file` leaves it, the sector size
is 512, the chain has at least `ceil (file_size / cluster_size)` entries, and
each of these is a 16-bit cluster number that lies inside the device. -/
def file_t.readable (st : file_t) : Prop :=
  st.volume.bootSector.inRange ∧ st.volume.disk.opened ∧
    st.volume.bootSector.BytesPerSector = 512 ∧ st.file_info.fileSize < 2 ^ 32 ∧
    st.file_info.fileSize ≤ st.chain.clusters.length * st.clusterSize ∧
    ∀ k c, st.chain.clusters[k]? = some c → k * st.clusterSize < st.file_info.fileSize →
      c < 2 ^ 16 ∧ clusterInDevice st.volume c

/-- Entry `i` of a FAT block seen as a packed array of little-endian 16-bit
values; bytes outside the block count as zero. -/
def fatEntry (buffer : List Nat) (i : Nat) : Nat :=
  buffer.getD (2 * i) 0 + 256 * buffer.getD (2 * i + 1) 0

/-- The successor sequence `c0, FAT[c0], FAT[FAT[c0]], ...` of a first
cluster. -/
def fatSuccessor (buffer : List Nat) (c0 : Nat) : Nat → Nat
  | 0 => c0
  | n + 1 => fatEntry buffer (fatSuccessor buffer c0 n)

/-- A 512-byte FAT whose entry 2 points to cluster 2 itself. -/
def cyclicFAT : List Nat := [0xF8, 0xFF, 0xFF, 0xFF, 2, 0] ++ List.replicate 506 0

/-- A 512-byte FAT in which the successor of cluster 2 is 1 and entry 1 holds
an end-of-chain marker. -/
def lowFAT : List Nat := [0xF8, 0xFF, 0xFF, 0xFF, 1, 0] ++ List.replicate 506 0

/-- The name `ABCDEFGH.TX`: a base of eight characters and an extension of
two. -/
def longName : List Nat := [65, 66, 67, 68, 69, 70, 71, 72, DOT, 84, 88]

/-- The 11-byte short name of `ABCDEFGH.TX`. -/
def longSfn : List Nat := [65, 66, 67, 68, 69, 70, 71, 72, 84, 88, SPACE]

/-- The 11-byte short name of `ABCDEFGH.TXT`. -/
def fullSfn : List Nat := [65, 66, 67, 68, 69, 70, 71, 72, 84, 88, 84]

/-- The directory entry of the file `ABCDEFGH.TXT` with the archive
attribute, first cluster 2 and 13 bytes. -/
def fullEntry : SFN_t := mkEntry fullSfn 0x20 2 13

/-- A call made on a file handle: `file_read(ptr, size, nmemb, stream)` or
`file_seek(stream, offset, whence)`. -/
inductive FileCall where
  | read (size nmemb : Nat) : FileCall
  | seek (offset whence : Int) : FileCall
  deriving DecidableEq, Repr

/-- A caller that makes the given calls on a handle, one after the other,
whatever they return; the result is the handle and `errno` after the last
call. -/
def file_calls (fuel : Nat) : (calls : List FileCall) → (stream : file_t) → (errno : Nat) →
    Outcome (file_t × Nat)
  | [], stream, errno => .ret (stream, errno)
  | .read size nmemb :: calls, stream, errno => do
    let (_, _, stream1, errno1) ← file_read fuel size nmemb stream errno
    file_calls fuel calls stream1 errno1
  | .seek offset whence :: calls, stream, errno =>
    file_calls fuel calls (file_seek stream offset whence errno).2.1
      (file_seek stream offset whence errno).2.2

/-- A boot sector with the given geometry fields and the signature
`0xAA55`. -/
def mkBootSector (bytesPerSector sectorPerCluster reserved numFATs maxFiles fatSize : Nat) :
    List Nat :=
  List.replicate 11 0 ++ le16 bytesPerSector ++ [sectorPerCluster] ++ le16 reserved ++ [numFATs]
    ++ le16 maxFiles ++ [0, 0, 0xF8] ++ le16 fatSize ++ List.replicate 486 0
    ++ le16 SIGNATURE_VALUE

/-- The block device over an image file of `sectors` whole sectors. -/
def diskOf (image : List Nat) (sectors : Nat) : disk_t :=
  { pFile := image, numberOfSectors := sectors }

/-- A six-sector image with three FATs: boot sector, three copies of
`exampleFAT`, a root directory of 16 slots that holds `HELLO.TXT`, and one
data cluster. -/
def threeFatImage : List Nat :=
  mkBootSector 512 1 1 3 16 1 ++ exampleFAT ++ exampleFAT ++ exampleFAT
    ++ (helloEntry.toBytes ++ List.replicate 480 0) ++ (helloBytes ++ List.replicate 499 0)

/-- An image of 3072 bytes whose boot sector announces sectors of 1024
bytes, one reserved sector and FATs of one sector; the only non-zero byte
behind the boot sector is byte 1536. -/
def wideSectorImage : List Nat :=
  mkBootSector 1024 1 1 2 32 1 ++ List.replicate 1024 0 ++ [1] ++ List.replicate 1535 0

/-- A four-sector image whose boot sector announces 0 sectors per cluster. -/
def zeroClusterImage : List Nat :=
  mkBootSector 512 0 1 2 16 1 ++ exampleFAT ++ exampleFAT ++ List.replicate 512 0

/-- A three-sector image whose boot sector announces sectors of 1000 bytes,
64 sectors per cluster and an empty root directory. -/
def oddSectorImage : List Nat :=
  mkBootSector 1000 64 1 2 0 1 ++ exampleFAT ++ exampleFAT

/-- A one-sector image whose boot sector announces sectors of 0 bytes. -/
def zeroSectorImage : List Nat :=
  mkBootSector 0 1 1 2 16 1

/-- A four-sector image with 512-byte sectors whose second FAT copy differs
from the first in bytes 4 and 5. -/
def tamperedImage : List Nat :=
  mkBootSector 512 1 1 2 16 1 ++ exampleFAT ++ cyclicFAT ++ List.replicate 512 0

/-- The boot sector of the volume that starts at sector `first_sector` of a
device. -/
def bootSectorOf (d : disk_t) (first_sector : Nat) : fatBootSector :=
  parseBootSector ((d.pFile.drop (first_sector * SECTOR_SIZE)).take SECTOR_SIZE)

/-- FAT copy number `k` of the volume that starts at sector `first_sector`:
the `FatSize * BytesPerSector` bytes that start `ReservedSectors + k *
FatSize` sectors into the volume, a sector being `BytesPerSector` bytes. -/
def fatCopy (d : disk_t) (first_sector k : Nat) : List Nat :=
  (d.pFile.drop ((first_sector + (bootSectorOf d first_sector).SizeReservedArea
      + k * (bootSectorOf d first_sector).FatSize)
    * (bootSectorOf d first_sector).BytesPerSector)).take
    ((bootSectorOf d first_sector).FatSize * (bootSectorOf d first_sector).BytesPerSector)

/-- The `MaxRootEntries * 32` bytes of the device that start at sector
`ReservedSectors + NumFATs * FatSize`, the sector from which `file_read`
counts the root directory. -/
def rootRegion (d : disk_t) (b : fatBootSector) : List Nat :=
  (d.pFile.drop ((b.SizeReservedArea + b.NumFATs * b.FatSize) * SECTOR_SIZE)).take
    (b.MaxNumOfFiles * SIZEOF_SFN)

/-- A five-sector image with 512-byte sectors: boot sector, two copies of
`exampleFAT`, a root directory of 16 slots that holds `HELLO.TXT`, and one
data cluster. -/
def helloImage : List Nat :=
  mkBootSector 512 1 1 2 16 1 ++ exampleFAT ++ exampleFAT
    ++ (helloEntry.toBytes ++ List.replicate 480 0) ++ (helloBytes ++ List.replicate 499 0)

/-- The volume `fat_open` returns for `helloImage`. -/
def helloVolume : volume_t :=
  { disk := diskOf helloImage 5,
    bootSector := { BytesPerSector := 512, SectorPerCluster := 1, SizeReservedArea := 1,
                    NumFATs := 2, MaxNumOfFiles := 16, FatSize := 1,
                    SignatureValue := SIGNATURE_VALUE },
    FAT1 := exampleFAT,
    FAT2 := exampleFAT,
    rootDirectory := helloEntry :: List.replicate 15 freeEntry }

/-- The volume `fat_open` returns for `threeFatImage`: its root directory
array is laid over the third FAT copy. -/
def threeFatVolume : volume_t :=
  { disk := diskOf threeFatImage 6,
    bootSector := { BytesPerSector := 512, SectorPerCluster := 1, SizeReservedArea := 1,
                    NumFATs := 3, MaxNumOfFiles := 16, FatSize := 1,
                    SignatureValue := SIGNATURE_VALUE },
    FAT1 := exampleFAT,
    FAT2 := exampleFAT,
    rootDirectory := rootEntries exampleFAT 16 }

/-- A caller that invokes `dir_read` once for each of the given views,
whatever the calls return, and records the value returned and the handle
after each call. -/
def dir_read_trace (fuel : Nat) : (views : List dir_entry_t) → (pdir : dir_t) → (errno : Nat) →
    Outcome (List (Int × dir_t))
  | [], _, _ => .ret []
  | pentry :: views, pdir, errno => do
    let (r, pdir1, _, errno1) ← dir_read fuel pdir pentry errno
    let rest ← dir_read_trace fuel views pdir1 errno1
    pure ((r, pdir1) :: rest)

/-- The cursor of a directory handle lies in `[0, size]` and its pass flag is
0 (first pass) or 1 (second pass). -/
def dir_t.inBounds (d : dir_t) : Prop :=
  0 ≤ d.offset ∧ d.offset ≤ d.size ∧ (d.readDirs = 0 ∨ d.readDirs = 1)

/-- The order of the states of a directory handle: first pass before second
pass, and within a pass by offset; `d.notAfter d1` says that `d1` is not an
earlier state than `d`. -/
def dir_t.notAfter (d d1 : dir_t) : Prop :=
  d.readDirs ≤ d1.readDirs ∧ (d1.readDirs = d.readDirs → d.offset ≤ d1.offset)

/-- The values returned and the handles left by four calls of `dir_read` on
the root directory that holds the directory `DOCS` in slot 0 and the file
`HELLO.TXT` in slot 1: two entries, then `1`, then `-1`. -/
def exampleTrace : List (Int × dir_t) :=
  [(0, ⟨(exampleVolume [docsEntry, helloEntry]).rootDirectory, 16, 1, 0⟩),
   (0, ⟨(exampleVolume [docsEntry, helloEntry]).rootDirectory, 16, 2, 1⟩),
   (1, ⟨(exampleVolume [docsEntry, helloEntry]).rootDirectory, 16, 16, 1⟩),
   (-1, ⟨(exampleVolume [docsEntry, helloEntry]).rootDirectory, 16, 16, 1⟩)]

/-- A FAT of 65536 entries (256 sectors) in which the successor of cluster 2
is the bad-cluster marker `0xFFF7` and entry `0xFFF7` holds an end-of-chain
marker. -/
def badClusterFAT : List Nat :=
  ([0xF8, 0xFF, 0xFF, 0xFF, 0xF7, 0xFF] ++ List.replicate 131048 0)
    ++ ([0xFF, 0xFF] ++ List.replicate 16 0)

/-- The image `helloImage` with a boot sector that announces 0 sectors per
cluster. -/
def zeroClusterHelloImage : List Nat :=
  mkBootSector 512 0 1 2 16 1 ++ exampleFAT ++ exampleFAT
    ++ (helloEntry.toBytes ++ List.replicate 480 0) ++ (helloBytes ++ List.replicate 499 0)

/-- The volume `fat_open` returns for `zeroClusterHelloImage`. -/
def zeroClusterVolume : volume_t :=
  { disk := diskOf zeroClusterHelloImage 5,
    bootSector := { BytesPerSector := 512, SectorPerCluster := 0, SizeReservedArea := 1,
                    NumFATs := 2, MaxNumOfFiles := 16, FatSize := 1,
                    SignatureValue := SIGNATURE_VALUE },
    FAT1 := exampleFAT,
    FAT2 := exampleFAT,
    rootDirectory := helloEntry :: List.replicate 15 freeEntry }

/-- The image `helloImage` with both FAT copies replaced by `cyclicFAT`, in
which entry 2 points to cluster 2 itself. -/
def cyclicImage : List Nat :=
  mkBootSector 512 1 1 2 16 1 ++ cyclicFAT ++ cyclicFAT
    ++ (helloEntry.toBytes ++ List.replicate 480 0) ++ (helloBytes ++ List.replicate 499 0)

/-- The volume `fat_open` returns for `cyclicImage`. -/
def cyclicVolume : volume_t :=
  { disk := diskOf cyclicImage 5,
    bootSector := { BytesPerSector := 512, SectorPerCluster := 1, SizeReservedArea := 1,
                    NumFATs := 2, MaxNumOfFiles := 16, FatSize := 1,
                    SignatureValue := SIGNATURE_VALUE },
    FAT1 := cyclicFAT,
    FAT2 := cyclicFAT,
    rootDirectory := helloEntry :: List.replicate 15 freeEntry }

/-- The name `HELLO.TXT`. -/
def helloName : List Nat := [72, 69, 76, 76, 79, DOT, 84, 88, 84]

/-- The cluster chain of the first cluster `c0` as the FAT block gives it,
`k + 1` clusters long: `c0, FAT[c0], FAT[FAT[c0]], ...`. -/
def fatChain (buffer : List Nat) (c0 k : Nat) : List Nat :=
  (List.range (k + 1)).map (fatSuccessor buffer c0)

/-- The canonical content of the file of the directory entry `f` on the
volume `v`, the FAT chain of the file having `k + 1` clusters: the first
`file_size` bytes of the data of the clusters of that chain, in chain
order. -/
def canonicalContent (v : volume_t) (f : SFN_t) (k : Nat) : List Nat :=
  ((fatChain v.FAT1 f.firstClusterNumberLowBits k).flatMap (clusterData v)).take f.fileSize

/-- A FAT in which the chain of cluster 3 is `3, 2`. -/
def twoClusterFAT : List Nat :=
  [0xF8, 0xFF, 0xFF, 0xFF, 0xFF, 0xFF, 2, 0] ++ List.replicate 504 0

/-- The entry of the 600-byte file `BIG.BIN` whose first cluster is 3. -/
def bigEntry : SFN_t := mkEntry [66, 73, 71, 32, 32, 32, 32, 32, 66, 73, 78] 0x20 3 600

/-- The name `BIG.BIN`. -/
def bigName : List Nat := [66, 73, 71, DOT, 66, 73, 78]

/-- A six-sector image with 512-byte sectors: boot sector, two copies of
`twoClusterFAT`, a root directory of 16 slots that holds `BIG.BIN`, cluster 2
filled with the byte `0xBB` and cluster 3 filled with the byte `0xAA`. -/
def twoClusterImage : List Nat :=
  mkBootSector 512 1 1 2 16 1 ++ twoClusterFAT ++ twoClusterFAT
    ++ (bigEntry.toBytes ++ List.replicate 480 0) ++ List.replicate 512 0xBB
    ++ List.replicate 512 0xAA

/-- The volume `fat_open` returns for `twoClusterImage`. -/
def twoClusterVolume : volume_t :=
  { disk := diskOf twoClusterImage 6,
    bootSector := { BytesPerSector := 512, SectorPerCluster := 1, SizeReservedArea := 1,
                    NumFATs := 2, MaxNumOfFiles := 16, FatSize := 1,
                    SignatureValue := SIGNATURE_VALUE },
    FAT1 := twoClusterFAT,
    FAT2 := twoClusterFAT,
    rootDirectory := bigEntry :: List.replicate 15 freeEntry }

/-- The handle `file_open` returns for `BIG.BIN` on `twoClusterVolume`. -/
def bigHandle : file_t :=
  { file_info := bigEntry,
    chain := { clusters := [3, 2], clusterBuffer := List.replicate 512 0, clusterOffset := 0,
               size := 1 },
    volume := twoClusterVolume,
    offset := 0 }

/-! ## Theorems -/

set_option maxRecDepth 8192

/-! ### `fixFileName` -/

/-- C9, at the failing input: for the name `A.B` (base of one character,
extension of one character) `fixFileName` leaves a NUL in byte 10 of the
short name, where the claim asks for a space; as a consequence `file_open`
does not find the file whose name field is `A       B  `. -/
theorem fixFileName_one_char_extension :
    fixFileName [65, DOT, 66] emptyName12
        = .ret [65, 32, 32, 32, 32, 32, 32, 32, 66, 32, 0, 0] ∧
      file_open 8 (exampleVolume [abEntry]) [65, DOT, 66] 0 = .ret (none, ENOENT) := by
  constructor <;> rfl

theorem storeByte_eq (mem : List Nat) (i b : Nat) (h : i < mem.length) :
    storeByte mem i b = .ret (mem.take i ++ b :: mem.drop (i + 1)) := by
  simp [storeByte, h, List.set_eq_take_append_cons_drop]

theorem take_splice (l : List Nat) (i : Nat) (mid rest : List Nat) (h : i ≤ l.length) :
    (l.take i ++ mid ++ rest).take (i + mid.length) = l.take i ++ mid := by
  have hl : (l.take i ++ mid).length = i + mid.length := by simp [h]
  rw [← hl, List.take_left']
  rfl

theorem drop_splice (l : List Nat) (i : Nat) (mid rest : List Nat) (h : i ≤ l.length) :
    (l.take i ++ mid ++ rest).drop (i + mid.length) = rest := by
  have hl : (l.take i ++ mid).length = i + mid.length := by simp [h]
  rw [← hl, List.drop_left']
  rfl

theorem padSpaces_eq (count : Nat) : ∀ (i : Nat) (buf : List Nat), i + count ≤ buf.length →
    padSpaces buf count i
      = .ret (buf.take i ++ List.replicate count SPACE ++ buf.drop (i + count)) := by
  induction count with
  | zero => intro i buf _; simp [padSpaces]
  | succ n ih =>
    intro i buf h
    have hi : i < buf.length := by omega
    simp only [padSpaces, storeByte_eq buf i SPACE hi]
    rw [ih (i + 1) _ (by simp; omega)]
    congr 1
    have h1 := take_splice buf i [SPACE] (buf.drop (i + 1)) (by omega)
    have h2 : (buf.take i ++ [SPACE] ++ buf.drop (i + 1)).drop (i + 1 + n)
        = buf.drop (i + (n + 1)) := by
      have := drop_splice buf i [SPACE] (buf.drop (i + 1)) (by omega)
      simp only [List.length_singleton] at this
      rw [← List.drop_drop, this, List.drop_drop]
      congr 1; omega
    simp only [List.length_singleton, List.append_assoc, List.singleton_append] at h1 h2
    rw [h1, h2, List.replicate_succ]
    simp

/-- C10, counterexample: for the dot-free name `ABCDEFGHI` (nine characters)
the output does not consist of the first eight characters followed by three
spaces: position 8 holds the ninth character `I`. -/
theorem fixFileName_no_dot_counterexample :
    fixFileName [65, 66, 67, 68, 69, 70, 71, 72, 73] emptyName12
        = .ret [65, 66, 67, 68, 69, 70, 71, 72, 73, 32, 32, 0] ∧
      ¬ ∃ out, fixFileName [65, 66, 67, 68, 69, 70, 71, 72, 73] emptyName12 = .ret out ∧
          out.take 11 = [65, 66, 67, 68, 69, 70, 71, 72] ++ List.replicate 3 SPACE := by
  have h : fixFileName [65, 66, 67, 68, 69, 70, 71, 72, 73] emptyName12
      = .ret [65, 66, 67, 68, 69, 70, 71, 72, 73, 32, 32, 0] := rfl
  refine ⟨h, ?_⟩
  rintro ⟨out, h1, h2⟩
  rw [h] at h1
  injection h1 with h1
  subst h1
  revert h2
  decide

/-- C10, amended: for every name without `.` of at most 11 characters (the
list holds the characters before the terminator) and every destination of at
least 12 bytes, the 11-byte output of `fixFileName` is the whole name followed
by a space in every remaining position; when the name has at most 8
characters, the three extension positions 8..10 therefore hold spaces. -/
theorem fixFileName_no_dot (fileName buf : List Nat) (hdot : DOT ∉ fileName)
    (hlen : fileName.length ≤ 11) (hbuf : 12 ≤ buf.length) :
    ∃ out, fixFileName fileName buf = .ret out ∧
      out.take 11 = fileName ++ List.replicate (11 - fileName.length) SPACE ∧
      (fileName.length ≤ 8 → ∀ i, 8 ≤ i → i < 11 → out[i]? = some SPACE) := by
  have h10 : NOT_DIR_FILE_LENGTH < buf.length := by simp [NOT_DIR_FILE_LENGTH]; omega
  have hcpy : fileName.length + 1 ≤
      (buf.take NOT_DIR_FILE_LENGTH ++ 0 :: buf.drop (NOT_DIR_FILE_LENGTH + 1)).length := by
    simp [NOT_DIR_FILE_LENGTH]; omega
  have hpad : fileName.length + (FILE_NAME_LENGTH - fileName.length) ≤
      (fileName ++ 0 :: (buf.take NOT_DIR_FILE_LENGTH ++
        0 :: buf.drop (NOT_DIR_FILE_LENGTH + 1)).drop (fileName.length + 1)).length := by
    simp [NOT_DIR_FILE_LENGTH, FILE_NAME_LENGTH]; omega
  have hrun : fixFileName fileName buf = padSpaces
      (fileName ++ 0 :: (buf.take NOT_DIR_FILE_LENGTH ++
        0 :: buf.drop (NOT_DIR_FILE_LENGTH + 1)).drop (fileName.length + 1))
      (FILE_NAME_LENGTH - fileName.length) fileName.length := by
    unfold fixFileName
    rw [storeByte_eq buf _ 0 h10]
    show (if DOT ∉ fileName then _ else _) = _
    rw [if_pos hdot]
    unfold strcpy
    rw [if_pos hcpy]
    rfl
  rw [hrun, padSpaces_eq _ _ _ hpad]
  have htake : ∀ (rest tl : List Nat),
      ((fileName ++ rest).take fileName.length ++
        List.replicate (FILE_NAME_LENGTH - fileName.length) SPACE ++ tl).take 11
      = fileName ++ List.replicate (11 - fileName.length) SPACE := by
    intro rest tl
    have h0 : (fileName ++ rest).take fileName.length = fileName := List.take_left' rfl
    have hl : (fileName ++ List.replicate (FILE_NAME_LENGTH - fileName.length) SPACE).length
        = 11 := by simp [FILE_NAME_LENGTH]; omega
    rw [h0, List.take_left' hl]
    rfl
  refine ⟨_, rfl, htake _ _, ?_⟩
  intro h8 i hi8 hi11
  have hget : ∀ (l : List Nat), l.take 11 = fileName ++ List.replicate (11 - fileName.length) SPACE →
      l[i]? = some SPACE := by
    intro l hl
    have : (l.take 11)[i]? = l[i]? := by
      rw [List.getElem?_take]; simp [hi11]
    rw [← this, hl, List.getElem?_append_right (by omega)]
    rw [List.getElem?_replicate]
    simp
    omega
  exact hget _ (htake _ _)

/-- Witness of `fixFileName_no_dot` at the name `README`. -/
theorem fixFileName_no_dot_witness :
    DOT ∉ [82, 69, 65, 68, 77, 69] ∧
    ∃ out, fixFileName [82, 69, 65, 68, 77, 69] emptyName12 = .ret out ∧
      out.take 11 = [82, 69, 65, 68, 77, 69] ++ List.replicate (11 - 6) SPACE ∧
      ((6 : Nat) ≤ 8 → ∀ i, 8 ≤ i → i < 11 → out[i]? = some SPACE) :=
  ⟨by decide, fixFileName_no_dot [82, 69, 65, 68, 77, 69] emptyName12 (by decide) (by decide)
    (by decide)⟩

/-! ### `file_open` -/

/-- C4, at the failing input: the root directory holds the directory `DOCS`
and no file of that name; `file_open` for `DOCS` returns `NULL` and leaves
`errno == ENOENT` (the `EISDIR` stored by `checkIfFileExist` is overwritten),
whatever the traversal budget and the `errno` before the call. -/
theorem file_open_directory_reports_ENOENT (fuel errno : Nat) :
    checkIfFileExist docsEntry [68, 79, 67, 83, 32, 32, 32, 32, 32, 32, 32, 0] errno
        = .ret (false, EISDIR) ∧
      file_open fuel (exampleVolume [docsEntry]) [68, 79, 67, 83] errno
        = .ret (none, ENOENT) := by
  constructor <;> rfl

/-- C5, at the failing input: the root directory holds the empty file
`EMPTY.TXT` (size 0, first cluster 0); `get_chain_fat16` returns `NULL` for
first cluster 0 and `file_open` returns `NULL` with `errno == ENOMEM`. -/
theorem file_open_empty_file_fails (fuel errno : Nat) :
    get_chain_fat16 fuel exampleFAT 512 emptyEntry.firstClusterNumberLowBits = .ret none ∧
      file_open fuel (exampleVolume [emptyEntry]) [69, 77, 80, 84, 89, DOT, 84, 88, 84] errno
        = .ret (none, ENOMEM) := by
  constructor <;> rfl

theorem strncmp_spec (s1 s2 : List Nat) (n : Nat) : ∀ (i : Nat), i + n ≤ s1.length →
    i + n ≤ s2.length → (∀ k, i ≤ k → k < i + n → s2[k]? ≠ some 0) →
    ∃ r, strncmp s1 s2 n i = .ret r ∧
      (r = 0 ↔ (s1.drop i).take n = (s2.drop i).take n) := by
  induction n with
  | zero => intro i _ _ _; exact ⟨0, rfl, by simp⟩
  | succ n ih =>
    intro i h1 h2 hnul
    have hi1 : i < s1.length := by omega
    have hi2 : i < s2.length := by omega
    have e1 : loadByte s1 i = .ret s1[i] := by simp [loadByte, List.getElem?_eq_getElem hi1]
    have e2 : loadByte s2 i = .ret s2[i] := by simp [loadByte, List.getElem?_eq_getElem hi2]
    have d1 : s1.drop i = s1[i] :: s1.drop (i + 1) := List.drop_eq_getElem_cons hi1
    have d2 : s2.drop i = s2[i] :: s2.drop (i + 1) := List.drop_eq_getElem_cons hi2
    have hrun : strncmp s1 s2 (n + 1) i =
        if s1[i] ≠ s2[i] then .ret ((s1[i] : Int) - (s2[i] : Int))
        else if s1[i] = 0 then .ret 0 else strncmp s1 s2 n (i + 1) := by
      rw [strncmp, e1, e2]
      rfl
    rw [hrun, d1, d2]
    by_cases hne : s1[i] = s2[i]
    · have hnz : s1[i] ≠ 0 := by
        intro h0
        apply hnul i (Nat.le_refl _) (by omega)
        rw [List.getElem?_eq_getElem hi2, ← hne, h0]
      obtain ⟨r, hr, hiff⟩ := ih (i + 1) (by omega) (by omega)
        (fun k hk hk2 => hnul k (by omega) (by omega))
      refine ⟨r, ?_, ?_⟩
      · rw [if_neg (not_not.mpr hne), if_neg hnz, hr]
      · rw [hiff, List.take_succ_cons, List.take_succ_cons, hne]
        constructor
        · intro h; rw [h]
        · intro h; exact (List.cons.inj h).2
    · refine ⟨(s1[i] : Int) - (s2[i] : Int), ?_, ?_⟩
      · rw [if_pos hne]
      · rw [List.take_succ_cons, List.take_succ_cons]
        constructor
        · intro h; exfalso; apply hne; omega
        · intro h; exact absurd (List.cons.inj h).1 hne

theorem ret_bind {α β : Type} (a : α) (f : α → Outcome β) :
    (Outcome.ret a >>= f) = f a := rfl

theorem pure_eq_ret {α : Type} (a : α) : (pure a : Outcome α) = Outcome.ret a := rfl

theorem no_nul_of_not_mem_take (l : List Nat) (n : Nat) (h : 0 ∉ l.take n) :
    ∀ k, 0 ≤ k → k < 0 + n → l[k]? ≠ some 0 := by
  intro k _ hk hk0
  apply h
  have : (l.take n)[k]? = some 0 := by
    rw [List.getElem?_take]; simp at hk; simp [hk, hk0]
  exact List.getElem?_mem this

theorem checkIfFileExist_spec (f : SFN_t) (changed : List Nat) (errno : Nat)
    (hf : f.filename.length = 11) (hc : 11 ≤ changed.length) (hnul : 0 ∉ changed.take 11) :
    ∃ e, checkIfFileExist f changed errno
      = .ret (decide (f.filename = changed.take 11) && !f.isDirectory, e) := by
  obtain ⟨r, hr, hiff⟩ := strncmp_spec f.filename changed 11 0 (by omega) (by omega)
    (no_nul_of_not_mem_take changed 11 hnul)
  have hfull : f.filename.take 11 = f.filename := List.take_of_length_le (by omega)
  simp only [List.drop_zero, hfull] at hiff
  unfold checkIfFileExist
  simp only [FILE_NAME_LENGTH, hr, ret_bind]
  by_cases h0 : r = 0
  · rw [if_pos h0]
    have heq := hiff.mp h0
    by_cases hd : f.fileAttribute &&& (1 <<< IS_DIRECTORY) = DIR_ATTR_VALUE
    · rw [if_pos hd]
      exact ⟨EISDIR, by simp [SFN_t.isDirectory, hd, pure_eq_ret]⟩
    · rw [if_neg hd]
      exact ⟨errno, by simp [SFN_t.isDirectory, hd, heq, pure_eq_ret]⟩
  · rw [if_neg h0]
    have hne : f.filename ≠ changed.take 11 := fun h => h0 (hiff.mpr h)
    exact ⟨errno, by simp [hne, pure_eq_ret]⟩

theorem file_open_scan_spec (root : List SFN_t) (changed : List Nat)
    (hroot : ∀ f ∈ root, f.filename.length = 11) (hc : 11 ≤ changed.length)
    (hnul : 0 ∉ changed.take 11) (remaining : Nat) :
    ∀ (i errno : Nat), i + remaining = root.length →
      ∃ e, file_open_scan root changed remaining i errno
        = .ret ((root.drop i).find?
            (fun f => decide (f.filename = changed.take 11) && !f.isDirectory), e) := by
  induction remaining with
  | zero =>
    intro i errno hi
    refine ⟨errno, ?_⟩
    rw [List.drop_of_length_le (by omega)]
    rfl
  | succ n ih =>
    intro i errno hi
    have hlt : i < root.length := by omega
    obtain ⟨e1, he1⟩ := checkIfFileExist_spec root[i] changed errno
      (hroot _ (List.getElem_mem hlt)) hc hnul
    rw [List.drop_eq_getElem_cons hlt, List.find?_cons]
    unfold file_open_scan
    simp only [List.getElem?_eq_getElem hlt, he1, ret_bind]
    cases hp : (decide (root[i].filename = changed.take 11) && !root[i].isDirectory)
    · obtain ⟨e2, he2⟩ := ih (i + 1) e1 (by omega)
      exact ⟨e2, by simpa using he2⟩
    · exact ⟨e1, by simp [pure_eq_ret]⟩

theorem file_open_eq_finish (fuel : Nat) (v : volume_t) (file_name changed : List Nat)
    (errno : Nat) (hroot : v.rootDirectory.length = v.bootSector.MaxNumOfFiles)
    (hnames : ∀ f ∈ v.rootDirectory, f.filename.length = 11)
    (hfix : fixFileName file_name emptyName12 = .ret changed)
    (hlen : 11 ≤ changed.length) (hnul : 0 ∉ changed.take 11) :
    ∃ e1, file_open fuel v file_name errno =
      file_open_finish fuel v (v.rootDirectory.find?
          (fun f => decide (f.filename = changed.take 11) && !f.isDirectory)) e1 := by
  obtain ⟨e1, hscan⟩ := file_open_scan_spec v.rootDirectory changed hnames hlen hnul
    v.bootSector.MaxNumOfFiles 0 errno (by omega)
  rw [List.drop_zero] at hscan
  refine ⟨e1, ?_⟩
  unfold file_open
  rw [hfix]
  simp only
  rw [hscan]

theorem bind_eq_ret {α β : Type} {x : Outcome α} {f : α → Outcome β} {b : β}
    (h : (x >>= f) = .ret b) : ∃ a, x = .ret a ∧ f a = .ret b := by
  cases x with
  | undefined => cases h
  | timeout => cases h
  | ret a => exact ⟨a, rfl, h⟩

theorem storeByte_length {mem out : List Nat} {i b : Nat}
    (h : storeByte mem i b = .ret out) : out.length = mem.length := by
  unfold storeByte at h
  split at h
  · injection h with h; subst h; simp
  · cases h

theorem padSpaces_length (count : Nat) : ∀ (i : Nat) (buf out : List Nat),
    padSpaces buf count i = .ret out → out.length = buf.length := by
  induction count with
  | zero => intro i buf out h; injection h with h; subst h; rfl
  | succ n ih =>
    intro i buf out h
    unfold padSpaces at h
    cases hs : storeByte buf i SPACE with
    | undefined => rw [hs] at h; cases h
    | timeout => rw [hs] at h; cases h
    | ret b1 =>
      rw [hs] at h
      rw [ih _ _ _ h, storeByte_length hs]

theorem fixFileName_ext_length (fileName : List Nat) (remaining : Nat) :
    ∀ (j i : Nat) (buf out : List Nat),
      fixFileName_ext fileName remaining j i buf = .ret out → out.length = buf.length := by
  induction remaining with
  | zero => intro j i buf out h; injection h with h; subst h; rfl
  | succ n ih =>
    intro j i buf out h
    unfold fixFileName_ext at h
    obtain ⟨c, _, h⟩ := bind_eq_ret h
    split at h
    · exact storeByte_length h
    · obtain ⟨b1, hb1, h⟩ := bind_eq_ret h
      rw [ih _ _ _ _ h, storeByte_length hb1]

theorem fixFileName_scan_length (fileName : List Nat) (remaining : Nat) :
    ∀ (i : Nat) (buf out : List Nat) (d : Nat),
      fixFileName_scan fileName remaining i buf = .ret (out, d) → out.length = buf.length := by
  induction remaining with
  | zero => intro i buf out d h; injection h with h; injection h with h1 h2; subst h1; rfl
  | succ n ih =>
    intro i buf out d h
    unfold fixFileName_scan at h
    obtain ⟨c, _, h⟩ := bind_eq_ret h
    split at h
    · obtain ⟨b1, hb1, h⟩ := bind_eq_ret h
      obtain ⟨b2, hb2, h⟩ := bind_eq_ret h
      injection h with h; injection h with h1 h2; subst h1
      rw [fixFileName_ext_length _ _ _ _ _ _ hb2, storeByte_length hb1]
    · obtain ⟨b1, hb1, h⟩ := bind_eq_ret h
      rw [ih _ _ _ _ h, storeByte_length hb1]

theorem fixFileName_length {fileName buf out : List Nat}
    (h : fixFileName fileName buf = .ret out) : out.length = buf.length := by
  unfold fixFileName at h
  obtain ⟨b0, hb0, h⟩ := bind_eq_ret h
  split at h
  · obtain ⟨b1, hb1, h⟩ := bind_eq_ret h
    rw [padSpaces_length _ _ _ _ h, ← storeByte_length hb0]
    unfold strcpy at hb1
    split at hb1
    · injection hb1 with hb1; subst hb1; simp; omega
    · cases hb1
  · obtain ⟨⟨b1, d⟩, hb1, h⟩ := bind_eq_ret h
    rw [padSpaces_length _ _ _ _ h, fixFileName_scan_length _ _ _ _ _ _ hb1,
      storeByte_length hb0]

theorem file_open_finish_some (fuel : Nat) (v : volume_t) (f : SFN_t) (e1 : Nat)
    (chain : clusters_chain_t)
    (hchain : get_chain_fat16 fuel v.FAT1 (fatByteLength v.bootSector) f.firstClusterNumberLowBits
      = .ret (some chain))
    (hcs : v.bootSector.BytesPerSector * v.bootSector.SectorPerCluster ≠ 0) :
    ∃ h, file_open_finish fuel v (some f) e1 = .ret (some h, e1) ∧ h.file_info = f ∧
      h.offset = 0 := by
  unfold file_open_finish
  simp only
  rw [hchain]
  unfold Outcome.bind file_open_chain file_open_handle
  simp only
  rw [if_neg hcs]
  exact ⟨_, rfl, rfl, rfl⟩


theorem file_open_finish_ret (fuel : Nat) (v : volume_t) (found : Option SFN_t) (e1 e : Nat)
    (h : file_t) (hres : file_open_finish fuel v found e1 = .ret (some h, e)) :
    found = some h.file_info ∧ h.offset = 0 := by
  cases found with
  | none => simp [file_open_finish] at hres
  | some f =>
    unfold file_open_finish at hres
    simp only at hres
    generalize get_chain_fat16 fuel v.FAT1 (fatByteLength v.bootSector)
      f.firstClusterNumberLowBits = r at hres
    cases r with
    | undefined => cases hres
    | timeout => cases hres
    | ret c =>
      cases c with
      | none => simp [Outcome.bind, file_open_chain] at hres
      | some chain =>
        simp only [Outcome.bind, file_open_chain, file_open_handle] at hres
        split at hres
        · cases hres
        · injection hres with hres
          injection hres with h1 h2
          injection h1 with h1
          subst h1
          exact ⟨rfl, rfl⟩

/-- The names with a NUL among their 11 normalized bytes, which the amended
C6 leaves out: the name `A.` is normalized to `A`, eight spaces and two NULs
(the padding slip of `fixFileName` in C9); the only used root entry carries
`A`, eight spaces, a NUL and `X`, so no root entry has its 11 name bytes equal
to the normalized name, and yet `file_open` returns a handle (the `strncmp`
stops at the common NUL). -/
theorem file_open_nul_name_slip :
    fixFileName [65, DOT] emptyName12 = .ret [65, 32, 32, 32, 32, 32, 32, 32, 32, 0, 0, 0] ∧
      (∀ f ∈ (exampleVolume [nulEntry]).rootDirectory,
        f.filename ≠ [65, 32, 32, 32, 32, 32, 32, 32, 32, 0, 0]) ∧
      file_open 8 (exampleVolume [nulEntry]) [65, DOT] 0
        = .ret (some { file_info := nulEntry,
                       chain := { clusters := [2], clusterBuffer := List.replicate 512 0,
                                  clusterOffset := 0, size := 0 },
                       volume := exampleVolume [nulEntry], offset := 0 }, 0) :=
  ⟨rfl, by decide, rfl⟩

/-! ### `file_seek` -/

/-- C7, counterexample: on a handle whose file size is `2^31`, the call
`file_seek(h, 0, SEEK_SET)` returns -1 although `0 <= 0 <= file_size`. -/
theorem file_seek_counterexample :
    file_seek (exampleHandle hugeEntry 0) 0 SEEK_SET 0 = (-1, exampleHandle hugeEntry 0, ENXIO) ∧
      (0 : Int) ≤ 0 ∧ (0 : Int) ≤ (exampleHandle hugeEntry 0).file_info.fileSize := by
  refine ⟨by rfl, by decide, by decide⟩

/-- C7, amended: for every handle whose file size is at most `2^31 - 1`, with
current offset in `[0, file_size]`, and every signed 32-bit `o`: `file_seek`
with `SEEK_SET` succeeds iff `0 <= o <= file_size`, with `SEEK_CUR` iff
`0 <= current + o <= file_size`, with `SEEK_END` iff `-file_size <= o <= 0`; on
success it returns 0, the new offset is `o`, `current + o`, `file_size + o`
respectively and `errno` is untouched; otherwise it returns -1. -/
theorem file_seek_spec (h : file_t) (o : Int) (errno : Nat)
    (hsize : h.file_info.fileSize < 2 ^ 31) (hoff : h.offset ≤ h.file_info.fileSize)
    (ho : -2 ^ 31 ≤ o ∧ o < 2 ^ 31) :
    (file_seek h o SEEK_SET errno =
      if 0 ≤ o ∧ o ≤ h.file_info.fileSize then (0, { h with offset := o.toNat }, errno)
      else (-1, h, ENXIO)) ∧
    (file_seek h o SEEK_CUR errno =
      if 0 ≤ h.offset + o ∧ h.offset + o ≤ h.file_info.fileSize then
        (0, { h with offset := (h.offset + o).toNat }, errno)
      else (-1, h, ENXIO)) ∧
    (file_seek h o SEEK_END errno =
      if -(h.file_info.fileSize : Int) ≤ o ∧ o ≤ 0 then
        (0, { h with offset := (h.file_info.fileSize + o).toNat }, errno)
      else (-1, h, ENXIO)) := by
  obtain ⟨ho1, ho2⟩ := ho
  have hsz : (h.file_info.fileSize : Int) < 2 ^ 31 := by exact_mod_cast hsize
  have hof : (h.offset : Int) ≤ h.file_info.fileSize := by exact_mod_cast hoff
  have hof0 : (0 : Int) ≤ h.offset := Int.ofNat_nonneg _
  have hsz0 : (0 : Int) ≤ h.file_info.fileSize := Int.ofNat_nonneg _
  refine ⟨?_, ?_, ?_⟩
  · have e1 : toInt32 h.file_info.fileSize = h.file_info.fileSize := by
      unfold toInt32; omega
    unfold file_seek
    rw [if_pos rfl, e1]
    by_cases hc : 0 ≤ o ∧ o ≤ h.file_info.fileSize
    · rw [if_pos hc, if_neg (by omega)]
      have : toSizeT o = o.toNat := by unfold toSizeT; omega
      rw [this]
    · rw [if_neg hc, if_pos (by omega)]
  · have e1 : toInt32 h.offset = h.offset := by unfold toInt32; omega
    have hne : ¬ SEEK_CUR = SEEK_SET := by decide
    unfold file_seek
    rw [if_neg hne, if_pos rfl, e1]
    by_cases hc : 0 ≤ h.offset + o ∧ h.offset + o ≤ h.file_info.fileSize
    · have e2 : toInt32 (h.offset + o) = h.offset + o := by unfold toInt32; omega
      have e3 : (h.offset + toSizeT o) % 2 ^ 64 = (h.offset + o).toNat := by
        unfold toSizeT; omega
      rw [if_pos hc, e2, e3, if_neg (by omega)]
    · have e4 : toInt32 (h.offset + o) < 0 ∨
          (h.offset + toSizeT o) % 2 ^ 64 > h.file_info.fileSize := by
        unfold toInt32 toSizeT; omega
      rw [if_neg hc, if_pos e4]
  · have e1 : toInt32 h.file_info.fileSize = h.file_info.fileSize := by
      unfold toInt32; omega
    have e2 : toInt32 (-(h.file_info.fileSize : Int)) = -(h.file_info.fileSize : Int) := by
      unfold toInt32; omega
    have hne1 : ¬ SEEK_END = SEEK_SET := by decide
    have hne2 : ¬ SEEK_END = SEEK_CUR := by decide
    unfold file_seek
    rw [if_neg hne1, if_neg hne2, if_pos rfl, e1, e2]
    by_cases hc : -(h.file_info.fileSize : Int) ≤ o ∧ o ≤ 0
    · have e3 : toUInt32 (h.file_info.fileSize + o) = (h.file_info.fileSize + o).toNat := by
        unfold toUInt32; omega
      rw [if_pos hc, if_neg (by omega), e3]
    · rw [if_neg hc, if_pos (by omega)]

/-- Witness of `file_seek_spec`: the handle of the 13-byte file `HELLO.TXT`
at offset 5, and `o = -3`. -/
theorem file_seek_spec_witness :
    file_seek (exampleHandle helloEntry 5) (-3) SEEK_CUR 0
      = (0, exampleHandle helloEntry 2, 0) := by
  have h := (file_seek_spec (exampleHandle helloEntry 5) (-3) 0 (by decide) (by decide)
    (by decide)).2.1
  rw [h]
  rfl

/-! ### `dir_read` -/

theorem dir_read_skip_eq (e : SFN_t) (rd : Int) (hname : e.filename ≠ [])
    (hrd : rd = 0 ∨ rd = 1) :
    dir_read_skip e rd = .ret (!(e.listed &&
      (if rd = 0 then decide (e.fileSize = 0) else decide (e.fileSize ≠ 0)))) := by
  obtain ⟨c, rest, hc⟩ := List.exists_cons_of_ne_nil hname
  unfold dir_read_skip loadByte
  simp only [hc, List.getElem?_cons_zero, ret_bind, pure_eq_ret, SFN_t.listed, List.headD_cons]
  congr 1
  rcases hrd with h | h <;> subst h <;>
    by_cases h1 : c = LAST_ENTRY <;> by_cases h2 : c = FILE_DELETED <;>
    by_cases h3 : e.fileAttribute &&& (1 <<< IS_VOLUME_LABEL) = VOLUME_LABEL_ATTR_VALUE <;>
    by_cases h4 : e.fileSize = 0 <;> simp [h1, h2, h3, h4]

theorem deliveredAt_eq (data : List SFN_t) (rd : Int) (k : Nat) (e : SFN_t)
    (hk : data[k]? = some e) :
    deliveredAt data rd k =
      (e.listed && (if rd = 0 then decide (e.fileSize = 0) else decide (e.fileSize ≠ 0))) := by
  unfold deliveredAt listedZeroSize listedNonzeroSize
  rw [hk]
  split <;> rfl

theorem addOffset_plain (data : List SFN_t) (n k : Nat) (rd : Int)
    (h : ¬ (k + 1 = n ∧ rd = 0)) :
    addOffsetAndChangeDirAttr { data := data, size := n, offset := k, readDirs := rd }
      = { data := data, size := n, offset := ((k + 1 : Nat) : Int), readDirs := rd } := by
  unfold addOffsetAndChangeDirAttr
  simp only
  rw [if_neg]
  · simp
  · intro hc
    apply h
    refine ⟨?_, hc.2⟩
    have := hc.1
    omega

theorem addOffset_wrap (data : List SFN_t) (n k : Nat) (h : k + 1 = n) :
    addOffsetAndChangeDirAttr { data := data, size := n, offset := k, readDirs := 0 }
      = { data := data, size := n, offset := 0, readDirs := 1 } := by
  unfold addOffsetAndChangeDirAttr
  simp only
  rw [if_pos]
  refine ⟨?_, trivial⟩
  omega

theorem dir_read_loop_step (data : List SFN_t) (k : Nat) (rd : Int) (fuel : Nat) (e : SFN_t)
    (hk : data[k]? = some e) (hname : e.filename ≠ []) (hrd : rd = 0 ∨ rd = 1) :
    dir_read_loop (fuel + 1)
        { data := data, size := data.length, offset := k, readDirs := rd } =
      if deliveredAt data rd k = true then
        .ret (true, addOffsetAndChangeDirAttr
          { data := data, size := data.length, offset := k, readDirs := rd })
      else
        dir_read_loop fuel (addOffsetAndChangeDirAttr
          { data := data, size := data.length, offset := k, readDirs := rd }) := by
  have hlt : k < data.length := by
    rcases Nat.lt_or_ge k data.length with h | h
    · exact h
    · rw [List.getElem?_eq_none h] at hk; cases hk
  have hlt' : ((k : Nat) : Int) < ((data.length : Nat) : Int) := by exact_mod_cast hlt
  have hload : loadEntry data (k : Int) = .ret e := by
    unfold loadEntry
    rw [if_neg (by omega)]
    simp [hk]
  rw [deliveredAt_eq data rd k e hk]
  conv_lhs => rw [dir_read_loop]
  simp only [hlt', if_true, hload, ret_bind, dir_read_skip_eq e rd hname hrd]
  cases (e.listed && (if rd = 0 then decide (e.fileSize = 0) else decide (e.fileSize ≠ 0)))
  · simp
  · simp [pure_eq_ret]

theorem getElem?_some_of_lt (data : List SFN_t) (k : Nat) (h : k < data.length) :
    ∃ e, data[k]? = some e ∧ e ∈ data :=
  ⟨data[k], List.getElem?_eq_getElem h, List.getElem_mem h⟩

theorem dir_read_loop_done (data : List SFN_t) (rd : Int) (fuel : Nat) :
    dir_read_loop fuel
        { data := data, size := data.length, offset := data.length, readDirs := rd }
      = .ret (false,
          { data := data, size := data.length, offset := data.length, readDirs := rd }) := by
  cases fuel <;> simp [dir_read_loop]

theorem dir_read_loop_phase1 (data : List SFN_t) (hnames : ∀ e ∈ data, e.filename ≠ [])
    (m : Nat) : ∀ (k fuel : Nat), k + m = data.length → m ≤ fuel →
      (∃ j, k ≤ j ∧ j < data.length ∧ deliveredAt data 1 j = true ∧
        (∀ i, k ≤ i → i < j → deliveredAt data 1 i = false) ∧
        dir_read_loop fuel { data := data, size := data.length, offset := k, readDirs := 1 }
          = .ret (true, { data := data, size := data.length, offset := ((j + 1 : Nat) : Int),
                          readDirs := 1 })) ∨
      ((∀ i, k ≤ i → i < data.length → deliveredAt data 1 i = false) ∧
        dir_read_loop fuel { data := data, size := data.length, offset := k, readDirs := 1 }
          = .ret (false, { data := data, size := data.length, offset := data.length,
                           readDirs := 1 })) := by
  induction m with
  | zero =>
    intro k fuel hk _
    right
    have : k = data.length := by omega
    subst this
    exact ⟨fun i h1 h2 => absurd h2 (by omega), dir_read_loop_done data 1 fuel⟩
  | succ m ih =>
    intro k fuel hk hfuel
    obtain ⟨f, rfl⟩ : ∃ f, fuel = f + 1 := ⟨fuel - 1, by omega⟩
    obtain ⟨e, he, hmem⟩ := getElem?_some_of_lt data k (by omega)
    rw [dir_read_loop_step data k 1 f e he (hnames e hmem) (Or.inr rfl),
      addOffset_plain data data.length k 1 (by simp)]
    by_cases hd : deliveredAt data 1 k = true
    · left
      exact ⟨k, Nat.le_refl _, by omega, hd, fun i h1 h2 => absurd h2 (by omega), by rw [if_pos hd]⟩
    · rw [if_neg hd]
      have hd' : deliveredAt data 1 k = false := by simpa using hd
      rcases ih (k + 1) f (by omega) (by omega) with ⟨j, h1, h2, h3, h4, h5⟩ | ⟨h1, h2⟩
      · left
        refine ⟨j, by omega, h2, h3, ?_, h5⟩
        intro i hi1 hi2
        by_cases hik : i = k
        · subst hik; exact hd'
        · exact h4 i (by omega) hi2
      · right
        refine ⟨?_, h2⟩
        intro i hi1 hi2
        by_cases hik : i = k
        · subst hik; exact hd'
        · exact h1 i (by omega) hi2

theorem dir_read_loop_phase0 (data : List SFN_t) (hnames : ∀ e ∈ data, e.filename ≠ [])
    (hlast : deliveredAt data 0 (data.length - 1) = false)
    (m : Nat) : ∀ (k fuel : Nat), k + m = data.length → m ≤ fuel → 0 < m →
      (∃ j, k ≤ j ∧ j + 1 < data.length ∧ deliveredAt data 0 j = true ∧
        (∀ i, k ≤ i → i < j → deliveredAt data 0 i = false) ∧
        dir_read_loop fuel { data := data, size := data.length, offset := k, readDirs := 0 }
          = .ret (true, { data := data, size := data.length, offset := ((j + 1 : Nat) : Int),
                          readDirs := 0 })) ∨
      ((∀ i, k ≤ i → i < data.length → deliveredAt data 0 i = false) ∧
        dir_read_loop fuel { data := data, size := data.length, offset := k, readDirs := 0 }
          = dir_read_loop (fuel - m)
              { data := data, size := data.length, offset := 0, readDirs := 1 }) := by
  induction m with
  | zero => intro k fuel _ _ h; omega
  | succ m ih =>
    intro k fuel hk hfuel _
    obtain ⟨f, rfl⟩ : ∃ f, fuel = f + 1 := ⟨fuel - 1, by omega⟩
    obtain ⟨e, he, hmem⟩ := getElem?_some_of_lt data k (by omega)
    rw [dir_read_loop_step data k 0 f e he (hnames e hmem) (Or.inl rfl)]
    by_cases hm : m = 0
    · subst hm
      have hk1 : k = data.length - 1 := by omega
      have hd : deliveredAt data 0 k = false := by rw [hk1]; exact hlast
      right
      rw [hd, addOffset_wrap data data.length k (by omega)]
      refine ⟨?_, by simp⟩
      intro i hi1 hi2
      have : i = k := by omega
      subst this; exact hd
    · rw [addOffset_plain data data.length k 0 (by omega)]
      by_cases hd : deliveredAt data 0 k = true
      · left
        exact ⟨k, Nat.le_refl _, by omega, hd, fun i h1 h2 => absurd h2 (by omega),
          by rw [if_pos hd]⟩
      · rw [if_neg hd]
        have hd' : deliveredAt data 0 k = false := by simpa using hd
        rcases ih (k + 1) f (by omega) (by omega) (by omega) with
          ⟨j, h1, h2, h3, h4, h5⟩ | ⟨h1, h2⟩
        · left
          refine ⟨j, by omega, h2, h3, ?_, h5⟩
          intro i hi1 hi2
          by_cases hik : i = k
          · subst hik; exact hd'
          · exact h4 i (by omega) hi2
        · right
          refine ⟨?_, ?_⟩
          · intro i hi1 hi2
            by_cases hik : i = k
            · subst hik; exact hd'
            · exact h1 i (by omega) hi2
          · rw [h2]
            congr 1
            omega

theorem filter_range'_none (p : Nat → Bool) (m : Nat) : ∀ (k : Nat),
    (∀ i, k ≤ i → i < k + m → p i = false) → (List.range' k m).filter p = [] := by
  induction m with
  | zero => intro k _; rfl
  | succ m ih =>
    intro k h
    rw [List.range'_succ, List.filter_cons, h k (Nat.le_refl _) (by omega)]
    simp only [Bool.false_eq_true, if_false]
    exact ih (k + 1) (fun i h1 h2 => h i (by omega) (by omega))

theorem filter_range'_first (p : Nat → Bool) (m : Nat) : ∀ (k j : Nat), k ≤ j → j < k + m →
    p j = true → (∀ i, k ≤ i → i < j → p i = false) →
    (List.range' k m).filter p = j :: (List.range' (j + 1) (k + m - (j + 1))).filter p := by
  induction m with
  | zero => intro k j h1 h2; omega
  | succ m ih =>
    intro k j h1 h2 hp hb
    rw [List.range'_succ, List.filter_cons]
    by_cases hkj : k = j
    · subst hkj
      rw [hp]
      simp only [if_true]
      congr 2
      congr 1
      omega
    · rw [hb k (Nat.le_refl _) (by omega)]
      simp only [Bool.false_eq_true, if_false]
      rw [ih (k + 1) j (by omega) (by omega) hp (fun i h3 h4 => hb i (by omega) h4)]
      congr 2
      congr 1
      omega

theorem dir_read_of_loop (fuel : Nat) (d d1 : dir_t) (b : Bool) (pe : dir_entry_t) (errno : Nat)
    (hne : d.offset ≠ d.size) (hloop : dir_read_loop fuel d = .ret (b, d1)) :
    dir_read fuel d pe errno =
      if b = false then .ret (1, d1, pe, EIO)
      else (dir_read_fill d1.data (d1.offset - 1)).bind
        (fun view => .ret (0, d1, view, errno)) := by
  unfold dir_read
  rw [if_neg hne, hloop]
  rfl

theorem dir_read_all_phase1 (data : List SFN_t) (viewOf : Nat → dir_entry_t)
    (hnames : ∀ e ∈ data, e.filename ≠ [])
    (hview : ∀ i, deliveredAt data 1 i = true → dir_read_fill data (i : Int) = .ret (viewOf i))
    (fuel : Nat) (hfuel : data.length ≤ fuel) (m : Nat) :
    ∀ (k calls : Nat) (pentry : dir_entry_t), k + m = data.length → m < calls →
      dir_read_all fuel calls
          { data := data, size := data.length, offset := k, readDirs := 1 } pentry
        = .ret (((List.range' k m).filter (deliveredAt data 1)).map viewOf) := by
  induction m using Nat.strong_induction_on with
  | _ m ih =>
    intro k calls pentry hk hcalls
    obtain ⟨c, rfl⟩ : ∃ c, calls = c + 1 := ⟨calls - 1, by omega⟩
    by_cases hm : m = 0
    · subst hm
      have : k = data.length := by omega
      subst this
      simp [dir_read_all, dir_read, ret_bind, pure_eq_ret]
    · have hne : ((k : Nat) : Int) ≠ ((data.length : Nat) : Int) := by
        intro h; have := Int.ofNat.inj h; omega
      rcases dir_read_loop_phase1 data hnames m k fuel hk (by omega) with
        ⟨j, h1, h2, h3, h4, h5⟩ | ⟨h1, h2⟩
      · have hfill : dir_read_fill data (((j + 1 : Nat) : Int) - 1) = .ret (viewOf j) := by
          have : (((j + 1 : Nat) : Int) - 1) = (j : Int) := by push_cast; omega
          rw [this]; exact hview j h3
        have hcall := dir_read_of_loop fuel _ _ true pentry 0 hne h5
        simp only [Bool.true_eq_false, if_false, hfill, Outcome.bind] at hcall
        unfold dir_read_all
        rw [hcall]
        simp only [ret_bind, if_true]
        rw [ih (data.length - (j + 1)) (by omega) (j + 1) c (viewOf j) (by omega) (by omega)]
        rw [filter_range'_first (deliveredAt data 1) m k j h1 (by omega) h3 h4]
        simp only [ret_bind, pure_eq_ret, List.map_cons]
        rw [hk]
      · have hcall := dir_read_of_loop fuel _ _ false pentry 0 hne h2
        simp only [if_true] at hcall
        unfold dir_read_all
        rw [hcall]
        rw [filter_range'_none (deliveredAt data 1) m k (fun i hi1 hi2 => h1 i hi1 (by omega))]
        rfl

theorem dir_read_all_phase0 (data : List SFN_t) (viewOf : Nat → dir_entry_t)
    (hnames : ∀ e ∈ data, e.filename ≠ [])
    (hlast : deliveredAt data 0 (data.length - 1) = false)
    (hview0 : ∀ i, deliveredAt data 0 i = true → dir_read_fill data (i : Int) = .ret (viewOf i))
    (hview1 : ∀ i, deliveredAt data 1 i = true → dir_read_fill data (i : Int) = .ret (viewOf i))
    (fuel : Nat) (hfuel : 2 * data.length ≤ fuel) (m : Nat) :
    ∀ (k calls : Nat) (pentry : dir_entry_t), k + m = data.length → 0 < m →
      m + data.length < calls →
      dir_read_all fuel calls
          { data := data, size := data.length, offset := k, readDirs := 0 } pentry
        = .ret (((List.range' k m).filter (deliveredAt data 0)).map viewOf ++
            ((List.range' 0 data.length).filter (deliveredAt data 1)).map viewOf) := by
  induction m using Nat.strong_induction_on with
  | _ m ih =>
    intro k calls pentry hk hm hcalls
    obtain ⟨c, rfl⟩ : ∃ c, calls = c + 1 := ⟨calls - 1, by omega⟩
    have hne : ((k : Nat) : Int) ≠ ((data.length : Nat) : Int) := by
      intro h; have := Int.ofNat.inj h; omega
    rcases dir_read_loop_phase0 data hnames hlast m k fuel hk (by omega) hm with
      ⟨j, h1, h2, h3, h4, h5⟩ | ⟨h1, h2⟩
    · have hfill : dir_read_fill data (((j + 1 : Nat) : Int) - 1) = .ret (viewOf j) := by
        have : (((j + 1 : Nat) : Int) - 1) = (j : Int) := by push_cast; omega
        rw [this]; exact hview0 j h3
      have hcall := dir_read_of_loop fuel _ _ true pentry 0 hne h5
      simp only [Bool.true_eq_false, if_false, hfill, Outcome.bind] at hcall
      unfold dir_read_all
      rw [hcall]
      simp only [ret_bind, if_true]
      rw [ih (data.length - (j + 1)) (by omega) (j + 1) c (viewOf j) (by omega) (by omega)
        (by omega)]
      rw [filter_range'_first (deliveredAt data 0) m k j h1 (by omega) h3 h4]
      simp only [ret_bind, pure_eq_ret, List.map_cons, List.cons_append]
      rw [hk]
    · rw [filter_range'_none (deliveredAt data 0) m k (fun i hi1 hi2 => h1 i hi1 (by omega))]
      rcases dir_read_loop_phase1 data hnames data.length 0 (fuel - m) (by omega) (by omega) with
        ⟨j, g1, g2, g3, g4, g5⟩ | ⟨g1, g2⟩
      · have hfill : dir_read_fill data (((j + 1 : Nat) : Int) - 1) = .ret (viewOf j) := by
          have : (((j + 1 : Nat) : Int) - 1) = (j : Int) := by push_cast; omega
          rw [this]; exact hview1 j g3
        have hcall := dir_read_of_loop fuel _ _ true pentry 0 hne (h2.trans g5)
        simp only [Bool.true_eq_false, if_false, hfill, Outcome.bind] at hcall
        unfold dir_read_all
        rw [hcall]
        simp only [ret_bind, if_true]
        rw [dir_read_all_phase1 data viewOf hnames hview1 fuel (by omega)
          (data.length - (j + 1)) (j + 1) c (viewOf j) (by omega) (by omega)]
        rw [filter_range'_first (deliveredAt data 1) data.length 0 j g1 (by omega) g3 g4]
        simp only [ret_bind, pure_eq_ret, List.map_cons, List.map_nil, List.nil_append,
          Nat.zero_add]
      · have hcall := dir_read_of_loop fuel _ _ false pentry 0 hne (h2.trans g2)
        simp only [if_true] at hcall
        unfold dir_read_all
        rw [hcall]
        rw [filter_range'_none (deliveredAt data 1) data.length 0
          (fun i hi1 hi2 => g1 i hi1 (by omega))]
        rfl

theorem dir_read_fill_fields (data : List SFN_t) (i : Nat) (view : dir_entry_t)
    (h : dir_read_fill data (i : Int) = .ret view) :
    ∃ e out n, data[i]? = some e ∧
      fixDirName ((data.drop i).flatMap SFN_t.toBytes) (List.replicate 13 0)
        (e.fileAttribute &&& (1 <<< IS_DIRECTORY)) = .ret out ∧
      strlen out = .ret n ∧ view.name = out.take n ∧
      view.size = e.fileSize ∧
      view.is_readonly = attrFlag e.fileAttribute READ_ONLY ∧
      view.is_hidden = attrFlag e.fileAttribute IS_HIDDEN ∧
      view.is_system = attrFlag e.fileAttribute IS_SYSTEM ∧
      view.is_directory = attrFlag e.fileAttribute IS_DIRECTORY ∧
      view.is_archived = attrFlag e.fileAttribute IS_ARCHIVED := by
  unfold dir_read_fill at h
  obtain ⟨e, he, h⟩ := bind_eq_ret h
  obtain ⟨out, hout, h⟩ := bind_eq_ret h
  obtain ⟨n, hn, h⟩ := bind_eq_ret h
  injection h with h
  subst h
  have hi : data[i]? = some e := by
    unfold loadEntry at he
    rw [if_neg (by omega)] at he
    simp only [Int.toNat_ofNat] at he
    cases hd : data[i]? with
    | none => rw [hd] at he; cases he
    | some e' => rw [hd] at he; injection he with he; rw [he]
  simp only [Int.toNat_ofNat] at hout
  exact ⟨e, out, n, hi, hout, hn, rfl, rfl, rfl, rfl, rfl, rfl, rfl⟩

/-- C8, counterexample: the root directory holds the file `HELLO.TXT`
(size 13) in slot 0 and the directory `DOCS` (size 0) in slot 1; the calls of
`dir_read` deliver the view of the zero-size entry first and the view of the
entry with non-zero size second, the reverse of the claimed order. -/
theorem dir_read_order_counterexample :
    dir_open (exampleVolume [helloEntry, docsEntry]) [BACKSLASH] 0
        = (some (rootHandle (exampleVolume [helloEntry, docsEntry])), 0) ∧
      dir_read_all 32 33 (rootHandle (exampleVolume [helloEntry, docsEntry])) blankView
        = .ret [docsView, helloView] ∧
      listedNonzeroSize (exampleVolume [helloEntry, docsEntry]).rootDirectory 0 = true ∧
      dir_read_fill (exampleVolume [helloEntry, docsEntry]).rootDirectory 0 = .ret helloView ∧
      listedZeroSize (exampleVolume [helloEntry, docsEntry]).rootDirectory 1 = true ∧
      dir_read_fill (exampleVolume [helloEntry, docsEntry]).rootDirectory 1 = .ret docsView ∧
      [docsView, helloView] ≠ [helloView, docsView] := by
  refine ⟨by rfl, by rfl, by rfl, by rfl, by rfl, by rfl, by decide⟩

/-- The slip left out of the amended C8: when the listed zero-size entry sits
in the last slot, the first pass wraps the offset to 0 before the view is
filled, and `dir_read` reads the element before the array. -/
theorem dir_read_last_slot_undefined :
    dir_read 32
        { data := List.replicate 15 freeEntry ++ [docsEntry], size := 16, offset := 0,
          readDirs := 0 } blankView 0
      = .undefined := by
  rfl

theorem deliveredAt_zero (data : List SFN_t) : deliveredAt data 0 = listedZeroSize data := by
  funext i; unfold deliveredAt; rw [if_pos rfl]

theorem deliveredAt_one (data : List SFN_t) : deliveredAt data 1 = listedNonzeroSize data := by
  funext i; unfold deliveredAt; rw [if_neg (by decide)]

/-- C8, amended: for every root directory array of `n = MaxNumOfFiles`
entries (name fields not empty) whose last slot `n - 1` does not hold a
listed entry of size zero, and whenever the name of every listed entry can be
formatted (`viewOf i` is the view `dir_read` fills from slot `i`): calling
`dir_read` repeatedly on the handle fresh from `dir_open` until it returns
non-zero yields, in order, one view for each entry (in index order) that is
not free, not deleted, not a volume label and has `file_size == 0`, followed
by one view for each such entry with `file_size != 0`; each view carries the
size and the attribute flags of the entry of its slot and the name formatted
from the bytes of that slot. -/
theorem dir_read_all_spec (v : volume_t) (viewOf : Nat → dir_entry_t) (fuel calls errno : Nat)
    (pentry : dir_entry_t)
    (hroot : v.rootDirectory.length = v.bootSector.MaxNumOfFiles)
    (hnames : ∀ e ∈ v.rootDirectory, e.filename ≠ [])
    (hview : ∀ i : Nat, listedZeroSize v.rootDirectory i = true ∨
        listedNonzeroSize v.rootDirectory i = true →
      dir_read_fill v.rootDirectory (i : Int) = .ret (viewOf i))
    (hlast : listedZeroSize v.rootDirectory (v.rootDirectory.length - 1) = false)
    (hfuel : 2 * v.rootDirectory.length ≤ fuel) (hcalls : 2 * v.rootDirectory.length < calls) :
    dir_open v [BACKSLASH] errno = (some (rootHandle v), errno) ∧
      dir_read_all fuel calls (rootHandle v) pentry
        = .ret (((List.range v.rootDirectory.length).filter
                  (listedZeroSize v.rootDirectory)).map viewOf ++
                ((List.range v.rootDirectory.length).filter
                  (listedNonzeroSize v.rootDirectory)).map viewOf) ∧
      ∀ i : Nat, listedZeroSize v.rootDirectory i = true ∨
          listedNonzeroSize v.rootDirectory i = true →
        ∃ e out n, v.rootDirectory[i]? = some e ∧
          fixDirName ((v.rootDirectory.drop i).flatMap SFN_t.toBytes) (List.replicate 13 0)
            (e.fileAttribute &&& (1 <<< IS_DIRECTORY)) = .ret out ∧
          strlen out = .ret n ∧ (viewOf i).name = out.take n ∧
          (viewOf i).size = e.fileSize ∧
          (viewOf i).is_readonly = attrFlag e.fileAttribute READ_ONLY ∧
          (viewOf i).is_hidden = attrFlag e.fileAttribute IS_HIDDEN ∧
          (viewOf i).is_system = attrFlag e.fileAttribute IS_SYSTEM ∧
          (viewOf i).is_directory = attrFlag e.fileAttribute IS_DIRECTORY ∧
          (viewOf i).is_archived = attrFlag e.fileAttribute IS_ARCHIVED := by
  refine ⟨?_, ?_, fun i hi => dir_read_fill_fields _ i _ (hview i hi)⟩
  · unfold dir_open rootHandle
    rw [if_neg (by simp)]
  · have hh : rootHandle v =
        (⟨v.rootDirectory, v.rootDirectory.length, ((0 : Nat) : Int), 0⟩ : dir_t) := by
      unfold rootHandle; rw [hroot]; rfl
    rw [hh, List.range_eq_range']
    by_cases hn : v.rootDirectory.length = 0
    · obtain ⟨c, rfl⟩ : ∃ c, calls = c + 1 := ⟨calls - 1, by omega⟩
      rw [hn]
      simp [dir_read_all, dir_read, ret_bind, pure_eq_ret]
    · have h := dir_read_all_phase0 v.rootDirectory viewOf hnames
        (by rw [deliveredAt_zero]; exact hlast)
        (fun i hi => hview i (Or.inl (by rw [deliveredAt_zero] at hi; exact hi)))
        (fun i hi => hview i (Or.inr (by rw [deliveredAt_one] at hi; exact hi)))
        fuel hfuel v.rootDirectory.length 0 calls pentry (by omega) (by omega) (by omega)
      rw [deliveredAt_zero, deliveredAt_one] at h
      exact h

/-- Witness of `dir_read_all_spec`: the root directory with the directory
`DOCS` in slot 0 and the file `HELLO.TXT` in slot 1. -/
theorem dir_read_all_spec_witness :
    dir_read_all 32 33 (rootHandle (exampleVolume [docsEntry, helloEntry])) blankView
      = .ret [docsView, helloView] := by
  have h := (dir_read_all_spec (exampleVolume [docsEntry, helloEntry])
    (fun i => if i = 0 then docsView else helloView) 32 33 0 blankView (by decide) (by decide)
    (by
      intro i hi
      have hlt : i < 16 := by
        rcases Nat.lt_or_ge i 16 with h | h
        · exact h
        · exfalso
          have hnone : (exampleVolume [docsEntry, helloEntry]).rootDirectory[i]? = none :=
            List.getElem?_eq_none (by simpa [exampleVolume] using h)
          simp [listedZeroSize, listedNonzeroSize, hnone] at hi
      interval_cases i
      · rfl
      · rfl
      all_goals (exfalso; revert hi; decide))
    (by decide) (by decide) (by decide)).2.1
  rw [h]
  decide

/-! ### `file_read` -/

theorem file_read_copy_eq (cs E S : Nat) (cb : List Nat) (t : Nat) :
    ∀ (fuel co off br : Nat) (buf : List Nat), t ≤ fuel →
      t = min (cs - co) (min (E - br) (S - off)) → co + t ≤ cb.length →
      file_read_copy cs E S cb fuel co off br buf
        = .ret (co + t, off + t, br + t, buf ++ (cb.drop co).take t) := by
  induction t with
  | zero =>
    intro fuel co off br buf _ ht _
    have hc : ¬ (co < cs ∧ br < E ∧ off < S) := by omega
    cases fuel <;> simp [file_read_copy, hc]
  | succ t ih =>
    intro fuel co off br buf hfuel ht hlen
    obtain ⟨f, rfl⟩ : ∃ f, fuel = f + 1 := ⟨fuel - 1, by omega⟩
    have hc : co < cs ∧ br < E ∧ off < S := by omega
    have hco : co < cb.length := by omega
    have hload : loadByte cb co = .ret cb[co] := by
      simp [loadByte, List.getElem?_eq_getElem hco]
    rw [file_read_copy, if_pos hc, hload, ret_bind,
      ih f (co + 1) (off + 1) (br + 1) (buf ++ [cb[co]]) (by omega) (by omega) (by omega)]
    have hseg : (cb.drop co).take (t + 1) = cb[co] :: (cb.drop (co + 1)).take t := by
      rw [List.drop_eq_getElem_cons hco, List.take_succ_cons]
    rw [hseg, show co + 1 + t = co + (t + 1) by omega,
      show off + 1 + t = off + (t + 1) by omega, show br + 1 + t = br + (t + 1) by omega]
    simp only [List.append_assoc, List.singleton_append]

theorem file_read_continue_eq (s n : Nat) (st : file_t) (br : Nat) :
    file_read_continue s n st br
      = decide (st.offset < st.file_info.fileSize ∧ br < (s * n) % 2 ^ 64) := by
  unfold file_read_continue
  generalize (s * n) % 2 ^ 64 = E
  rw [Bool.eq_iff_iff]
  simp only [Bool.and_eq_true, Bool.not_eq_true', Bool.or_eq_false_iff, decide_eq_true_eq,
    decide_eq_false_iff_not]
  omega

theorem file_read_body_ok (fuelIn E cs spc : Nat) (csp : Int) (st : file_t) (br : Nat)
    (buf cb : List Nat) (errno t : Nat) (hcs : 0 < cs)
    (hfetch : file_read_fetch cs spc csp st errno = .ret (0, cb, errno))
    (hcb : cb.length = cs)
    (ht : t = min (cs - st.offset % cs) (min (E - br) (st.file_info.fileSize - st.offset)))
    (hfuel : t ≤ fuelIn) :
    file_read_body fuelIn E cs spc csp st br buf errno =
      .ret (.inr ({ st with
          offset := st.offset + t,
          chain := { st.chain with clusterBuffer := cb,
                                   clusterOffset := st.offset % cs + t } },
        br + t, buf ++ (cb.drop (st.offset % cs)).take t, errno)) := by
  have hmod : st.offset % cs < cs := Nat.mod_lt _ hcs
  have hcopy := file_read_copy_eq cs E st.file_info.fileSize cb t fuelIn (st.offset % cs)
    st.offset br buf hfuel ht (by omega)
  unfold file_read_body
  rw [hfetch]
  simp only [ret_bind]
  rw [if_neg (by decide), if_neg (by omega), hcopy]
  rfl

theorem file_read_loop_run (R : Nat → List Nat → Prop) (s n cs spc : Nat) (csp : Int)
    (fuelIn : Nat) (hs : 0 < s) (hcs : 0 < cs) (rem : Nat) :
    ∀ (fuel : Nat) (st : file_t) (br : Nat) (buf : List Nat) (errno : Nat),
      rem = min ((s * n) % 2 ^ 64 - br) (st.file_info.fileSize - st.offset) →
      rem ≤ fuel → rem ≤ fuelIn → st.chain.clusterBuffer.length = cs →
      (∀ st' : file_t, st'.file_info = st.file_info → st'.volume = st.volume →
        st'.chain.clusters = st.chain.clusters → st'.chain.clusterBuffer.length = cs →
        st.offset ≤ st'.offset → st'.offset < st.offset + rem → ∀ e,
        ∃ cb, file_read_fetch cs spc csp st' e = .ret (0, cb, e) ∧ cb.length = cs ∧
          R (st'.offset / cs) cb) →
      ∃ out st1, file_read_loop s n cs spc csp fuelIn fuel st br buf errno
          = .ret ((br + rem) / s, buf ++ out, st1, errno) ∧
        st1.offset = st.offset + rem ∧ st1.file_info = st.file_info ∧
        st1.volume = st.volume ∧ st1.chain.clusters = st.chain.clusters ∧
        st1.chain.clusterBuffer.length = cs ∧ out.length = rem ∧
        ∀ i, i < rem → ∃ cb, R ((st.offset + i) / cs) cb ∧ cb.length = cs ∧
          out[i]? = cb[(st.offset + i) % cs]? := by
  induction rem using Nat.strong_induction_on with
  | _ rem ih =>
    intro fuel st br buf errno hrem hfuel hfuelIn hbuf hfetch
    by_cases h0 : rem = 0
    · subst h0
      have hcont : file_read_continue s n st br = false := by
        rw [file_read_continue_eq]
        simp only [decide_eq_false_iff_not]
        omega
      refine ⟨[], st, ?_, by simp, rfl, rfl, rfl, hbuf, rfl, fun i hi => absurd hi (by omega)⟩
      cases fuel <;>
        simp [file_read_loop, hcont, Nat.ne_of_gt hs]
    · have hcont : file_read_continue s n st br = true := by
        rw [file_read_continue_eq]
        simp only [decide_eq_true_eq]
        omega
      obtain ⟨f, rfl⟩ : ∃ f, fuel = f + 1 := ⟨fuel - 1, by omega⟩
      obtain ⟨cb, hcb1, hcb2, hcb3⟩ := hfetch st rfl rfl rfl hbuf (Nat.le_refl _) (by omega) errno
      have hmod : st.offset % cs < cs := Nat.mod_lt _ hcs
      obtain ⟨t, ht⟩ : ∃ t, t = min (cs - st.offset % cs)
          (min ((s * n) % 2 ^ 64 - br) (st.file_info.fileSize - st.offset)) := ⟨_, rfl⟩
      have ht1 : 1 ≤ t := by omega
      have ht2 : t ≤ rem := by omega
      have hbody := file_read_body_ok fuelIn ((s * n) % 2 ^ 64) cs spc csp st br buf cb errno t
        hcs hcb1 hcb2 ht (by omega)
      obtain ⟨out, st1, hrun, g1, g2, g3, g4, g5, g6, g7⟩ := ih (rem - t) (by omega) f
        { st with offset := st.offset + t,
                  chain := { st.chain with clusterBuffer := cb,
                                           clusterOffset := st.offset % cs + t } }
        (br + t) (buf ++ (cb.drop (st.offset % cs)).take t) errno
        (by simp only; omega) (by omega) (by omega) hcb2
        (by
          intro st' e1 e2 e3 e4 e5 e6 e
          exact hfetch st' e1 e2 e3 e4 (by simp only at e5; omega) (by simp only at e6; omega) e)
      have hseglen : ((cb.drop (st.offset % cs)).take t).length = t := by
        simp; omega
      refine ⟨(cb.drop (st.offset % cs)).take t ++ out, st1, ?_, ?_, g2, g3, g4, g5, ?_, ?_⟩
      · rw [file_read_loop, if_pos hcont, hbody]
        simp only [ret_bind]
        rw [hrun]
        simp only [List.append_assoc]
        congr 3
        omega
      · rw [g1]; simp only; omega
      · rw [List.length_append, hseglen, g6]; omega
      · intro i hi
        by_cases hit : i < t
        · refine ⟨cb, ?_, hcb2, ?_⟩
          · have : (st.offset + i) / cs = st.offset / cs := by
              have h1 := Nat.div_add_mod st.offset cs
              have h2 : st.offset + i = cs * (st.offset / cs) + (st.offset % cs + i) := by omega
              have h3 : st.offset % cs + i < cs := by omega
              rw [h2, Nat.mul_add_div hcs, Nat.div_eq_of_lt h3]
              rfl
            rw [this]; exact hcb3
          · have hm : (st.offset + i) % cs = st.offset % cs + i := by
              have h1 := Nat.div_add_mod st.offset cs
              have h2 : st.offset + i = cs * (st.offset / cs) + (st.offset % cs + i) := by omega
              have h3 : st.offset % cs + i < cs := by omega
              rw [h2, Nat.mul_add_mod, Nat.mod_eq_of_lt h3]
            rw [hm, List.getElem?_append_left (by omega), List.getElem?_take,
              if_pos hit, List.getElem?_drop]
        · obtain ⟨cb', k1, k2, k3⟩ := g7 (i - t) (by omega)
          simp only at k1 k3
          refine ⟨cb', ?_, k2, ?_⟩
          · rw [show st.offset + i = st.offset + t + (i - t) by omega]; exact k1
          · rw [List.getElem?_append_right (by omega), hseglen, k3,
              show st.offset + i = st.offset + t + (i - t) by omega]

theorem disk_read_length (d : disk_t) (fs : Int) (buf : List Nat) (k : Int) (e : Nat)
    (r : Int) (cb : List Nat) (e' : Nat) (h : disk_read d fs buf k e = .ret (r, cb, e')) :
    cb.length = buf.length := by
  unfold disk_read at h
  split at h
  · injection h with h; injection h with h1 h2; injection h2 with h2 h3; rw [← h2]
  · split at h
    · injection h with h; injection h with h1 h2; injection h2 with h2 h3; rw [← h2]
    · split at h
      · cases h
      · simp only at h
        split at h
        · rename_i hle
          injection h with h; injection h with h1 h2; injection h2 with h2 h3
          rw [← h2, List.length_append, List.length_drop]
          omega
        · cases h

theorem file_read_fetch_ret (cs spc : Nat) (csp : Int) (st : file_t) (e : Nat) (r : Int)
    (cb : List Nat) (e' : Nat) (h : file_read_fetch cs spc csp st e = .ret (r, cb, e')) :
    cs ≠ 0 ∧ cb.length = st.chain.clusterBuffer.length := by
  unfold file_read_fetch at h
  split at h
  · cases h
  · rename_i hcs
    simp only at h
    split at h
    · cases h
    · obtain ⟨c, _, h⟩ := bind_eq_ret h
      exact ⟨hcs, disk_read_length _ _ _ _ _ _ _ _ h⟩

theorem file_read_eq_loop (fuel s n : Nat) (st : file_t) (errno : Nat)
    (hoff : st.offset < st.file_info.fileSize)
    (hbps : st.volume.bootSector.BytesPerSector ≠ 0) :
    file_read fuel s n st errno =
      file_read_loop s n st.clusterSize (st.clusterSize / st.volume.bootSector.BytesPerSector)
        (clusterStartPosition st.volume.bootSector) fuel fuel st 0 [] errno := by
  unfold file_read
  rw [if_neg (by omega)]
  simp only
  rw [if_neg hbps]
  rfl

theorem file_read_at_end (fuel s n : Nat) (st : file_t) (errno : Nat)
    (hoff : st.offset = st.file_info.fileSize) :
    file_read fuel s n st errno = .ret (0, [], st, errno) := by
  unfold file_read
  rw [if_pos (by omega), if_neg (by omega)]

/-- C2: for every handle as `file_open` returns them, with offset at most the
file size, every element size `s >= 1` and count `n` whose product does not
overflow `size_t`, and all cluster reads succeeding, `file_read` returns
`m / s` for `m = min (s * n) (file_size - offset)`, stores `m` bytes, leaves
`errno` alone and advances the offset by exactly `m`; at
`offset == file_size` it returns 0 and leaves the handle unchanged.  Any step
budget of at least `m` suffices. -/
theorem file_read_count (fuel s n : Nat) (st : file_t) (errno : Nat)
    (hopen : st.opened) (hs : 1 ≤ s) (hoff : st.offset ≤ st.file_info.fileSize)
    (hovf : s * n < 2 ^ 64)
    (hreads : ClusterReadsSucceed st (min (s * n) (st.file_info.fileSize - st.offset)))
    (hfuel : min (s * n) (st.file_info.fileSize - st.offset) ≤ fuel) :
    ∃ out st1, file_read fuel s n st errno
        = .ret (min (s * n) (st.file_info.fileSize - st.offset) / s, out, st1, errno) ∧
      st1.offset = st.offset + min (s * n) (st.file_info.fileSize - st.offset) ∧
      out.length = min (s * n) (st.file_info.fileSize - st.offset) ∧
      st1.file_info = st.file_info ∧ st1.opened ∧
      (st.offset = st.file_info.fileSize → st1 = st ∧ out = []) := by
  obtain ⟨hcs, hbuf⟩ := hopen
  by_cases hend : st.offset = st.file_info.fileSize
  · refine ⟨[], st, ?_, ?_, ?_, rfl, ⟨hcs, hbuf⟩, fun _ => ⟨rfl, rfl⟩⟩
    · rw [file_read_at_end fuel s n st errno hend]
      have : min (s * n) (st.file_info.fileSize - st.offset) = 0 := by omega
      rw [this, Nat.zero_div]
    · omega
    · simp; omega
  · have hbps : st.volume.bootSector.BytesPerSector ≠ 0 := by
      intro h; apply hcs; unfold file_t.clusterSize; rw [h, Nat.zero_mul]
    have hE : (s * n) % 2 ^ 64 = s * n := Nat.mod_eq_of_lt hovf
    obtain ⟨out, st1, hrun, g1, g2, g3, g4, g5, g6, _⟩ :=
      file_read_loop_run (fun _ _ => True) s n st.clusterSize
        (st.clusterSize / st.volume.bootSector.BytesPerSector)
        (clusterStartPosition st.volume.bootSector) fuel (by omega) (by omega)
        (min (s * n) (st.file_info.fileSize - st.offset)) fuel st 0 [] errno
        (by rw [hE]; simp) hfuel hfuel hbuf
        (by
          intro st' e1 e2 e3 e4 e5 e6 e
          obtain ⟨cb, hcb⟩ := hreads st' e1 e2 e3 (by rw [e4, hbuf]) e5 e6 e
          exact ⟨cb, hcb, by rw [(file_read_fetch_ret _ _ _ _ _ _ _ _ hcb).2, e4], trivial⟩)
    refine ⟨out, st1, ?_, g1, g6, g2, ?_, fun h => absurd h hend⟩
    · rw [file_read_eq_loop fuel s n st errno (by omega) hbps, hrun]
      simp
    · unfold file_t.opened file_t.clusterSize
      rw [g3]
      exact ⟨hcs, g5⟩

theorem clusterStartPosition_eq (b : fatBootSector) (hr : b.inRange)
    (hbps : b.BytesPerSector = 512) :
    clusterStartPosition b = (data_start_sector b : Int) ∧ data_start_sector b < 2 ^ 25 := by
  obtain ⟨h1, h2, h3, h4, h5, h6⟩ := hr
  have hprod : b.NumFATs * b.FatSize ≤ 255 * 65535 :=
    Nat.mul_le_mul (by omega) (by omega)
  have hcomm : b.SizeReservedArea + b.FatSize * b.NumFATs + (32 * b.MaxNumOfFiles) /
      b.BytesPerSector = data_start_sector b := by
    unfold data_start_sector
    rw [Nat.mul_comm b.FatSize, Nat.mul_comm 32]
  have hlt : data_start_sector b < 2 ^ 25 := by
    unfold data_start_sector
    rw [hbps]
    generalize b.NumFATs * b.FatSize = P at hprod
    omega
  refine ⟨?_, hlt⟩
  unfold clusterStartPosition
  rw [hcomm]
  unfold toInt32
  omega

theorem file_read_sector_eq (b : fatBootSector) (hr : b.inRange)
    (hbps : b.BytesPerSector = 512) (c : Nat) (hc : c < 2 ^ 16)
    (h0 : 0 ≤ clusterSector b c) (h1 : clusterSector b c ≤ 65535) :
    file_read_sector (clusterStartPosition b) b.SectorPerCluster c = clusterSector b c := by
  obtain ⟨hcsp, hds⟩ := clusterStartPosition_eq b hr hbps
  have hspc : b.SectorPerCluster < 2 ^ 8 := hr.2.1
  unfold file_read_sector
  rw [hcsp]
  unfold clusterSector at h0 h1 ⊢
  have e1 : toSizeT (data_start_sector b : Int) = data_start_sector b := by
    unfold toSizeT; omega
  rw [e1]
  simp only [FIRST_CLUSTER_OFFSET, Nat.cast_ofNat]
  rcases Nat.lt_or_ge c 2 with hlt | hge
  · have hc01 : c = 0 ∨ c = 1 := by omega
    rcases hc01 with rfl | rfl
    · have e2 : toSizeT ((0 : Nat) - 2 : Int) = 2 ^ 64 - 2 := by unfold toSizeT; decide
      rw [e2]
      simp only [Nat.cast_zero, zero_sub] at h0 h1 ⊢
      unfold toInt32
      omega
    · have e2 : toSizeT ((1 : Nat) - 2 : Int) = 2 ^ 64 - 1 := by unfold toSizeT; decide
      rw [e2]
      simp only [Nat.cast_one] at h0 h1 ⊢
      unfold toInt32
      omega
  · have e2 : toSizeT ((c : Int) - 2) = c - 2 := by unfold toSizeT; omega
    have e3 : ((c : Int) - 2) * (b.SectorPerCluster : Int)
        = (((c - 2) * b.SectorPerCluster : Nat) : Int) := by
      push_cast [Nat.cast_sub hge]; ring
    rw [e2]
    rw [e3] at h0 h1 ⊢
    generalize (c - 2) * b.SectorPerCluster = P at h0 h1 ⊢
    unfold toInt32
    omega

theorem disk_read_range_ok (X k n : Nat) (hX : X + k ≤ n) (hn : n ≤ 65535) :
    ¬ ((X : Int) < 0 ∨ toUInt32 (toInt32 ((X : Int) + (k : Int))) > n) := by
  unfold toUInt32 toInt32; omega

theorem disk_read_ok (d : disk_t) (hd : d.opened) (fs : Int) (k : Nat) (buf : List Nat)
    (e : Nat) (h0 : 0 ≤ fs) (hX : fs + (k : Int) ≤ (d.numberOfSectors : Int))
    (hbuf : buf.length = SECTOR_SIZE * k) :
    disk_read d fs buf (k : Int) e
      = .ret (0, (d.pFile.drop (fs.toNat * SECTOR_SIZE)).take (SECTOR_SIZE * k), e) := by
  obtain ⟨hd1, hd2⟩ := hd
  obtain ⟨X, rfl⟩ : ∃ X : Nat, fs = (X : Int) := ⟨fs.toNat, by omega⟩
  have hX' : X + k ≤ d.numberOfSectors := by omega
  have c2 := disk_read_range_ok X k d.numberOfSectors hX' hd2
  have c1 : ¬ ((k : Int) < 0) := by omega
  have c3 : ¬ ((X : Int) * ((SECTOR_SIZE : Nat) : Int) ≥ 2 ^ 31) := by
    simp only [MAX_NUM_OF_SECTORS_IN_FAT16, SECTOR_SIZE] at hd2 ⊢
    omega
  have htn : ((X : Nat) : Int).toNat = X := Int.toNat_ofNat X
  have htk : ((k : Nat) : Int).toNat = k := Int.toNat_ofNat k
  have hlen : SECTOR_SIZE * k ≤ d.pFile.length - X * SECTOR_SIZE := by
    simp only [SECTOR_SIZE] at hd1 ⊢
    omega
  have hdata : ((d.pFile.drop (X * SECTOR_SIZE)).take (SECTOR_SIZE * k)).length
      = SECTOR_SIZE * k := by
    rw [List.length_take, List.length_drop]; omega
  have c4 : ((d.pFile.drop (X * SECTOR_SIZE)).take (SECTOR_SIZE * k)).length ≤ buf.length := by
    rw [hdata, hbuf]
  have c5 : buf.drop (SECTOR_SIZE * k) = [] := List.drop_of_length_le (by omega)
  unfold disk_read
  rw [if_neg c1, if_neg c2, if_neg c3]
  simp only
  rw [htn, htk, if_pos c4, hdata, c5, List.append_nil]

theorem toInt32_natCast (x : Nat) (h : x < 2 ^ 31) : toInt32 (x : Int) = (x : Int) := by
  unfold toInt32; omega

theorem file_read_fetch_ok (st' : file_t) (e c : Nat)
    (hr : st'.volume.bootSector.inRange) (hbps : st'.volume.bootSector.BytesPerSector = 512)
    (hspc : 0 < st'.volume.bootSector.SectorPerCluster) (hd : st'.volume.disk.opened)
    (hbuf : st'.chain.clusterBuffer.length = st'.clusterSize) (hoff : st'.offset < 2 ^ 32)
    (hc : st'.chain.clusters[st'.offset / st'.clusterSize]? = some c) (hc16 : c < 2 ^ 16)
    (hin : clusterInDevice st'.volume c) :
    file_read_fetch st'.clusterSize (st'.clusterSize / st'.volume.bootSector.BytesPerSector)
        (clusterStartPosition st'.volume.bootSector) st' e
      = .ret (0, clusterData st'.volume c, e) := by
  obtain ⟨hin0, hin1⟩ := hin
  have hd2 : st'.volume.disk.numberOfSectors ≤ 65535 := hd.2
  have hcs : st'.clusterSize = 512 * st'.volume.bootSector.SectorPerCluster := by
    unfold file_t.clusterSize; rw [hbps]
  have hcs0 : ¬ (st'.clusterSize = 0) := by omega
  have hspt : st'.clusterSize / st'.volume.bootSector.BytesPerSector
      = st'.volume.bootSector.SectorPerCluster := by
    rw [hcs, hbps, Nat.mul_div_cancel_left _ (by decide)]
  have hdiv : st'.offset / st'.clusterSize ≤ st'.offset / 512 :=
    Nat.div_le_div_left (by omega) (by decide)
  obtain ⟨q, hq⟩ : ∃ q, q = st'.offset / st'.clusterSize := ⟨_, rfl⟩
  rw [← hq] at hdiv hc
  have hq31 : q < 2 ^ 31 := by
    have : st'.offset / 512 < 2 ^ 31 := by omega
    exact Nat.lt_of_le_of_lt hdiv this
  have hnum : toInt32 (q : Int) = (q : Int) := toInt32_natCast q hq31
  have hnum0 : ¬ ((q : Int) < 0) := not_lt.mpr (Int.ofNat_nonneg q)
  have hle : clusterSector st'.volume.bootSector c ≤ 65535 := by
    have h1 : (0 : Int) ≤ (st'.volume.bootSector.SectorPerCluster : Int) := Int.ofNat_nonneg _
    have h2 : (st'.volume.disk.numberOfSectors : Int) ≤ 65535 := by exact_mod_cast hd2
    linarith
  have hsec := file_read_sector_eq st'.volume.bootSector hr hbps c hc16 hin0 hle
  have hk : toInt32 (st'.volume.bootSector.SectorPerCluster : Int)
      = (st'.volume.bootSector.SectorPerCluster : Int) :=
    toInt32_natCast _ (Nat.lt_trans hr.2.1 (by decide))
  have hbuf' : st'.chain.clusterBuffer.length
      = SECTOR_SIZE * st'.volume.bootSector.SectorPerCluster := by
    rw [hbuf, hcs]; rfl
  have hread := disk_read_ok st'.volume.disk hd (clusterSector st'.volume.bootSector c)
    st'.volume.bootSector.SectorPerCluster st'.chain.clusterBuffer e hin0 hin1 hbuf'
  have hdata : clusterData st'.volume c
      = (st'.volume.disk.pFile.drop
          ((clusterSector st'.volume.bootSector c).toNat * SECTOR_SIZE)).take
          (SECTOR_SIZE * st'.volume.bootSector.SectorPerCluster) := by
    unfold clusterData
    rw [hbps]
    rfl
  unfold file_read_fetch
  rw [if_neg hcs0]
  simp only [← hq, hnum]
  rw [if_neg hnum0]
  have hload : loadElem st'.chain.clusters ((q : Nat) : Int).toNat = .ret c := by
    rw [Int.toNat_ofNat]; unfold loadElem; rw [hc]
  rw [hload, ret_bind, hspt, hsec, hk, hread, hdata]

theorem readable_cluster (st : file_t) (hopen : st.opened) (hread : st.readable) (p : Nat)
    (hp : p < st.file_info.fileSize) :
    ∃ c, st.chain.clusters[p / st.clusterSize]? = some c ∧ c < 2 ^ 16 ∧
      clusterInDevice st.volume c := by
  obtain ⟨_, _, _, _, hlen, hin⟩ := hread
  have hcs : 0 < st.clusterSize := Nat.pos_of_ne_zero hopen.1
  have hk : p / st.clusterSize * st.clusterSize < st.file_info.fileSize :=
    Nat.lt_of_le_of_lt (Nat.div_mul_le_self p st.clusterSize) hp
  have hklen : p / st.clusterSize < st.chain.clusters.length := by
    by_contra hge
    have h1 : st.chain.clusters.length * st.clusterSize ≤ p / st.clusterSize * st.clusterSize :=
      Nat.mul_le_mul_right _ (Nat.le_of_not_lt hge)
    exact absurd (Nat.lt_of_le_of_lt (Nat.le_trans hlen h1) hk) (Nat.lt_irrefl _)
  refine ⟨st.chain.clusters[p / st.clusterSize], List.getElem?_eq_getElem hklen, ?_⟩
  exact hin _ _ (List.getElem?_eq_getElem hklen) hk

theorem readable_fetch (st : file_t) (hopen : st.opened) (hread : st.readable) (st' : file_t)
    (e2 : st'.volume = st.volume)
    (e3 : st'.chain.clusters = st.chain.clusters)
    (e4 : st'.chain.clusterBuffer.length = st.clusterSize)
    (hoff : st'.offset < st.file_info.fileSize) (e : Nat) :
    ∃ c, st.chain.clusters[st'.offset / st.clusterSize]? = some c ∧
      file_read_fetch st.clusterSize (st.clusterSize / st.volume.bootSector.BytesPerSector)
          (clusterStartPosition st.volume.bootSector) st' e
        = .ret (0, clusterData st.volume c, e) := by
  obtain ⟨c, hc, hc16, hcin⟩ := readable_cluster st hopen hread st'.offset hoff
  obtain ⟨hr, hd, hbps, hS, _, _⟩ := hread
  have hcs' : st'.clusterSize = st.clusterSize := by unfold file_t.clusterSize; rw [e2]
  have hspc : 0 < st.volume.bootSector.SectorPerCluster := by
    rcases Nat.eq_zero_or_pos st.volume.bootSector.SectorPerCluster with h | h
    · exfalso; apply hopen.1; unfold file_t.clusterSize; rw [h, Nat.mul_zero]
    · exact h
  have h := file_read_fetch_ok st' e c (by rw [e2]; exact hr) (by rw [e2]; exact hbps)
    (by rw [e2]; exact hspc) (by rw [e2]; exact hd) (by rw [hcs']; exact e4)
    (Nat.lt_trans hoff hS) (by rw [hcs', e3]; exact hc) hc16 (by rw [e2]; exact hcin)
  rw [hcs', e2] at h
  exact ⟨c, hc, h⟩

theorem clusterData_getElem? (v : volume_t) (c j : Nat)
    (hj : j < v.bootSector.BytesPerSector * v.bootSector.SectorPerCluster) :
    (clusterData v c)[j]?
      = v.disk.pFile[(clusterSector v.bootSector c).toNat * SECTOR_SIZE + j]? := by
  unfold clusterData
  rw [List.getElem?_take, if_pos hj, List.getElem?_drop]

theorem file_read_content (fuel s n : Nat) (st : file_t) (errno : Nat)
    (hopen : st.opened) (hread : st.readable) (hs : 1 ≤ s)
    (hoff : st.offset ≤ st.file_info.fileSize) (hovf : s * n < 2 ^ 64)
    (hfuel : min (s * n) (st.file_info.fileSize - st.offset) ≤ fuel) :
    ∃ out st1, file_read fuel s n st errno
        = .ret (min (s * n) (st.file_info.fileSize - st.offset) / s, out, st1, errno) ∧
      st1.offset = st.offset + min (s * n) (st.file_info.fileSize - st.offset) ∧
      st1.file_info = st.file_info ∧ st1.volume = st.volume ∧
      st1.chain.clusters = st.chain.clusters ∧ st1.opened ∧
      out.length = min (s * n) (st.file_info.fileSize - st.offset) ∧
      ∀ i, i < min (s * n) (st.file_info.fileSize - st.offset) →
        out[i]? = logicalByte st (st.offset + i) := by
  obtain ⟨hcs, hbuf⟩ := hopen
  by_cases hend : st.offset = st.file_info.fileSize
  · have hm : min (s * n) (st.file_info.fileSize - st.offset) = 0 := by omega
    refine ⟨[], st, ?_, by omega, rfl, rfl, rfl, ⟨hcs, hbuf⟩, by simp; omega,
      fun i hi => absurd hi (by omega)⟩
    rw [file_read_at_end fuel s n st errno hend, hm, Nat.zero_div]
  · have hbps : st.volume.bootSector.BytesPerSector ≠ 0 := by
      intro h; apply hcs; unfold file_t.clusterSize; rw [h, Nat.zero_mul]
    have hE : (s * n) % 2 ^ 64 = s * n := Nat.mod_eq_of_lt hovf
    obtain ⟨out, st1, hrun, g1, g2, g3, g4, g5, g6, g7⟩ :=
      file_read_loop_run
        (fun k cb => ∃ c, st.chain.clusters[k]? = some c ∧ cb = clusterData st.volume c)
        s n st.clusterSize
        (st.clusterSize / st.volume.bootSector.BytesPerSector)
        (clusterStartPosition st.volume.bootSector) fuel (by omega) (by omega)
        (min (s * n) (st.file_info.fileSize - st.offset)) fuel st 0 [] errno
        (by rw [hE]; simp) hfuel hfuel hbuf
        (by
          intro st' e1 e2 e3 e4 e5 e6 e
          obtain ⟨c, hc, hf⟩ := readable_fetch st ⟨hcs, hbuf⟩ hread st' e2 e3 e4 (by omega) e
          refine ⟨clusterData st.volume c, hf, ?_, c, hc, rfl⟩
          rw [(file_read_fetch_ret _ _ _ _ _ _ _ _ hf).2, e4])
    refine ⟨out, st1, ?_, g1, g2, g3, g4, ?_, g6, ?_⟩
    · rw [file_read_eq_loop fuel s n st errno (by omega) hbps, hrun]
      simp
    · unfold file_t.opened file_t.clusterSize
      rw [g3]
      exact ⟨hcs, g5⟩
    · intro i hi
      obtain ⟨cb, ⟨c, hc, hcb⟩, _, hget⟩ := g7 i hi
      have hlt : (st.offset + i) % st.clusterSize
          < st.volume.bootSector.BytesPerSector * st.volume.bootSector.SectorPerCluster :=
        Nat.mod_lt _ (Nat.pos_of_ne_zero hcs)
      rw [hget, hcb, clusterData_getElem? st.volume c _ hlt]
      unfold logicalByte
      rw [hc]

theorem exampleHandle_clusterSize (e : SFN_t) (k : Nat) :
    (exampleHandle e k).clusterSize = 512 := rfl

theorem exampleHandle_opened (e : SFN_t) (k : Nat) : (exampleHandle e k).opened := by
  unfold file_t.opened
  rw [exampleHandle_clusterSize]
  exact ⟨by decide, by simp [exampleHandle]⟩

theorem exampleDisk_opened : exampleDisk.opened := by
  unfold disk_t.opened
  simp [exampleDisk, helloBytes, SECTOR_SIZE, MAX_NUM_OF_SECTORS_IN_FAT16]

theorem exampleVolume_inRange (l : List SFN_t) : (exampleVolume l).bootSector.inRange := by
  unfold fatBootSector.inRange
  simp [exampleVolume]

theorem cluster2_inDevice (l : List SFN_t) : clusterInDevice (exampleVolume l) 2 := by
  unfold clusterInDevice clusterSector data_start_sector
  simp [exampleVolume, exampleDisk]

theorem exampleHandle_readable (k : Nat) : (exampleHandle helloEntry k).readable := by
  unfold file_t.readable
  rw [exampleHandle_clusterSize]
  refine ⟨exampleVolume_inRange _, exampleDisk_opened, rfl, ?_, ?_, ?_⟩
  · simp [exampleHandle, helloEntry, mkEntry]
  · simp [exampleHandle, helloEntry, mkEntry]
  · intro j c hj _
    have hc : c = 2 := by
      cases j with
      | zero => simpa [exampleHandle] using hj.symm
      | succ j => simp [exampleHandle] at hj
    subst hc
    exact ⟨by decide, cluster2_inDevice _⟩

/-- C1, counterexample: on the handle of the 13-byte file `HELLO.TXT` at
offset 0 (sector size 512, chain `[2]` inside the device) the call
`file_read(dst, 2^32, 2^32, h)` stores nothing and returns 0, because the
product of the two sizes wraps to 0 in `size_t`, whereas the claimed count
`m = min (s * n) (file_size - offset)` is 13. -/
theorem file_read_bytes_counterexample :
    (exampleHandle helloEntry 0).opened ∧ (exampleHandle helloEntry 0).readable ∧
      file_read 13 (2 ^ 32) (2 ^ 32) (exampleHandle helloEntry 0) 0
        = .ret (0, [], exampleHandle helloEntry 0, 0) ∧
      min (2 ^ 32 * 2 ^ 32)
        ((exampleHandle helloEntry 0).file_info.fileSize - (exampleHandle helloEntry 0).offset)
        = 13 :=
  ⟨exampleHandle_opened _ 0, exampleHandle_readable 0, by rfl, by decide⟩

/-- C1, amended: for every open handle with `offset < file_size` on a volume
with `BytesPerSector = 512`, whose chain has at least
`ceil (file_size / cluster_size)` entries and whose clusters all lie inside
the device, and for `s >= 1` and `n` with `s * n` not overflowing `size_t`,
`file_read(dst, s, n, h)` stores into `dst[0..m)`, where
`m = min (s * n) (file_size - offset)`, exactly the bytes at the logical file
positions `offset .. offset + m - 1`; logical position `p` is byte
`p mod cluster_size` of the cluster stored at sector
`data_start_sector + (chain[p / cluster_size] - 2) * SectorsPerCluster`.  Any
step budget of at least `m` suffices. -/
theorem file_read_bytes (fuel s n : Nat) (st : file_t) (errno : Nat)
    (hopen : st.opened) (hread : st.readable) (hs : 1 ≤ s) (hovf : s * n < 2 ^ 64)
    (hoff : st.offset < st.file_info.fileSize)
    (hfuel : min (s * n) (st.file_info.fileSize - st.offset) ≤ fuel) :
    ∃ out st1, file_read fuel s n st errno
        = .ret (min (s * n) (st.file_info.fileSize - st.offset) / s, out, st1, errno) ∧
      out.length = min (s * n) (st.file_info.fileSize - st.offset) ∧
      ∀ i, i < min (s * n) (st.file_info.fileSize - st.offset) →
        out[i]? = logicalByte st (st.offset + i) := by
  obtain ⟨out, st1, h1, _, _, _, _, _, h2, h3⟩ :=
    file_read_content fuel s n st errno hopen hread hs (Nat.le_of_lt hoff) hovf hfuel
  exact ⟨out, st1, h1, h2, h3⟩

/-- Witness of `file_read_bytes`: seven bytes read in one-byte elements from
offset 5 of `HELLO.TXT`. -/
theorem file_read_bytes_witness :
    ∃ out st1, file_read 7 1 7 (exampleHandle helloEntry 5) 0
        = .ret (min (1 * 7) (13 - 5) / 1, out, st1, 0) ∧
      out.length = min (1 * 7) (13 - 5) ∧
      ∀ i, i < min (1 * 7) (13 - 5) →
        out[i]? = logicalByte (exampleHandle helloEntry 5) (5 + i) :=
  file_read_bytes 7 1 7 (exampleHandle helloEntry 5) 0 (exampleHandle_opened _ 5)
    (exampleHandle_readable 5) (by decide) (by decide) (by decide) (by decide)

theorem readable_reads (st : file_t) (hopen : st.opened) (hread : st.readable) (m : Nat)
    (hm : st.offset + m ≤ st.file_info.fileSize) : ClusterReadsSucceed st m := by
  intro st' _ e2 e3 e4 _ e6 errno
  obtain ⟨c, _, hf⟩ := readable_fetch st hopen hread st' e2 e3 (by rw [e4]; exact hopen.2)
    (by omega) errno
  exact ⟨_, hf⟩

/-- Witness of `file_read_count`: three elements of three bytes requested at
offset 5 of the 13-byte file `HELLO.TXT`; the eight remaining bytes are
consumed and two elements are counted. -/
theorem file_read_count_witness :
    ∃ out st1, file_read 8 3 3 (exampleHandle helloEntry 5) 0
        = .ret (min (3 * 3) (13 - 5) / 3, out, st1, 0) ∧
      st1.offset = 5 + min (3 * 3) (13 - 5) ∧ out.length = min (3 * 3) (13 - 5) ∧
      st1.file_info = helloEntry ∧ st1.opened ∧
      ((5 : Nat) = 13 → st1 = exampleHandle helloEntry 5 ∧ out = []) :=
  file_read_count 8 3 3 (exampleHandle helloEntry 5) 0 (exampleHandle_opened _ 5) (by decide)
    (by decide) (by decide)
    (readable_reads _ (exampleHandle_opened _ 5) (exampleHandle_readable 5) _ (by decide))
    (by decide)

theorem flatMap_block_getElem? (f : Nat → List Nat) (n : Nat) (l : List Nat) :
    ∀ (k j : Nat) (c : Nat), j < n → l[k]? = some c →
      (∀ i a, i ≤ k → l[i]? = some a → (f a).length = n) →
      (l.flatMap f)[k * n + j]? = (f c)[j]? := by
  induction l with
  | nil => intro k j c _ hk; simp at hk
  | cons a t ih =>
    intro k j c hj hk hlen
    have ha : (f a).length = n := hlen 0 a (Nat.zero_le _) List.getElem?_cons_zero
    rw [List.flatMap_cons]
    cases k with
    | zero =>
      simp only [List.getElem?_cons_zero, Option.some.injEq] at hk
      subst hk
      rw [Nat.zero_mul, Nat.zero_add, List.getElem?_append_left (by omega)]
    | succ k =>
      rw [List.getElem?_cons_succ] at hk
      have hidx : (k + 1) * n + j - (f a).length = k * n + j := by
        rw [ha, Nat.succ_mul]; omega
      have hge : (f a).length ≤ (k + 1) * n + j := by
        rw [ha, Nat.succ_mul]; omega
      rw [List.getElem?_append_right hge, hidx]
      exact ih k j c hj hk (fun i b hi hb => hlen (i + 1) b (by omega)
        (by rw [List.getElem?_cons_succ]; exact hb))

theorem clusterData_length (v : volume_t) (c : Nat) (hbps : v.bootSector.BytesPerSector = 512)
    (hd : v.disk.opened) (hin : clusterInDevice v c) :
    (clusterData v c).length = v.bootSector.BytesPerSector * v.bootSector.SectorPerCluster := by
  obtain ⟨h0, h1⟩ := hin
  obtain ⟨hd1, _⟩ := hd
  obtain ⟨X, hX⟩ : ∃ X : Nat, clusterSector v.bootSector c = (X : Int) :=
    ⟨(clusterSector v.bootSector c).toNat, by omega⟩
  rw [hX] at h1
  have h1' : X + v.bootSector.SectorPerCluster ≤ v.disk.numberOfSectors := by omega
  unfold clusterData
  rw [hX, Int.toNat_ofNat, hbps, List.length_take, List.length_drop]
  simp only [SECTOR_SIZE] at hd1 ⊢
  omega

theorem fileContent_getElem? (st : file_t) (hopen : st.opened) (hread : st.readable) (p : Nat)
    (hp : p < st.file_info.fileSize) : (fileContent st)[p]? = logicalByte st p := by
  obtain ⟨c, hc, _, hcin⟩ := readable_cluster st hopen hread p hp
  have hcs : 0 < st.clusterSize := Nat.pos_of_ne_zero hopen.1
  have hmod : p % st.clusterSize < st.clusterSize := Nat.mod_lt _ hcs
  have hsplit : p = p / st.clusterSize * st.clusterSize + p % st.clusterSize := by
    rw [Nat.mul_comm]; exact (Nat.div_add_mod p st.clusterSize).symm
  have hblock : (st.chain.clusters.flatMap (clusterData st.volume))[p]?
      = (clusterData st.volume c)[p % st.clusterSize]? := by
    conv_lhs => rw [hsplit]
    apply flatMap_block_getElem? (clusterData st.volume) st.clusterSize st.chain.clusters
      (p / st.clusterSize) (p % st.clusterSize) c hmod hc
    intro i a hi ha
    have hia : i * st.clusterSize < st.file_info.fileSize :=
      Nat.lt_of_le_of_lt (Nat.le_trans (Nat.mul_le_mul_right _ hi)
        (Nat.div_mul_le_self p st.clusterSize)) hp
    exact clusterData_length st.volume a hread.2.2.1 hread.2.1
      (hread.2.2.2.2.2 i a ha hia).2
  unfold fileContent
  rw [List.getElem?_take, if_pos hp, hblock, clusterData_getElem? st.volume c _ hmod]
  unfold logicalByte
  rw [hc]

theorem file_read_chunk (fuel k : Nat) (st : file_t) (errno : Nat)
    (hopen : st.opened) (hread : st.readable) (hk : k < 2 ^ 64)
    (hoff : st.offset ≤ st.file_info.fileSize)
    (hfuel : min k (st.file_info.fileSize - st.offset) ≤ fuel) :
    ∃ st1, file_read fuel 1 k st errno
        = .ret (min k (st.file_info.fileSize - st.offset),
            ((fileContent st).drop st.offset).take (min k (st.file_info.fileSize - st.offset)),
            st1, errno) ∧
      st1.offset = st.offset + min k (st.file_info.fileSize - st.offset) ∧
      st1.file_info = st.file_info ∧ st1.volume = st.volume ∧
      st1.chain.clusters = st.chain.clusters ∧ st1.opened := by
  obtain ⟨out, st1, h1, h2, h3, h4, h5, h6, h7, h8⟩ :=
    file_read_content fuel 1 k st errno hopen hread (Nat.le_refl 1) hoff
      (by rw [Nat.one_mul]; exact hk) (by rw [Nat.one_mul]; exact hfuel)
  rw [Nat.one_mul] at h1 h2 h7 h8
  rw [Nat.div_one] at h1
  have hout : out = ((fileContent st).drop st.offset).take
      (min k (st.file_info.fileSize - st.offset)) := by
    apply List.ext_getElem?
    intro i
    by_cases hi : i < min k (st.file_info.fileSize - st.offset)
    · rw [h8 i hi, List.getElem?_take, if_pos hi, List.getElem?_drop,
        fileContent_getElem? st hopen hread (st.offset + i) (by omega)]
    · rw [List.getElem?_eq_none (by omega), List.getElem?_take, if_neg hi]
  rw [hout] at h1
  exact ⟨st1, h1, h2, h3, h4, h5, h6⟩

theorem readable_congr (st st1 : file_t) (h1 : st1.file_info = st.file_info)
    (h2 : st1.volume = st.volume) (h3 : st1.chain.clusters = st.chain.clusters)
    (hread : st.readable) : st1.readable := by
  unfold file_t.readable file_t.clusterSize at *
  rw [h1, h2, h3]
  exact hread

theorem fileContent_congr (st st1 : file_t) (h1 : st1.file_info = st.file_info)
    (h2 : st1.volume = st.volume) (h3 : st1.chain.clusters = st.chain.clusters) :
    fileContent st1 = fileContent st := by
  unfold fileContent
  rw [h1, h2, h3]

theorem fileContent_length_le (st : file_t) : (fileContent st).length ≤ st.file_info.fileSize := by
  unfold fileContent
  rw [List.length_take]
  exact Nat.min_le_left _ _

theorem file_read_all_run (k fuel : Nat) (hk1 : 1 ≤ k) (hk : k < 2 ^ 64) (d : Nat) :
    ∀ (st : file_t) (calls : Nat), st.opened → st.readable →
      st.offset ≤ st.file_info.fileSize → d = st.file_info.fileSize - st.offset →
      min k (st.file_info.fileSize - st.offset) ≤ fuel → d < calls →
      ∃ results, file_read_all fuel k calls st = .ret results ∧
        (results.map Prod.fst).sum = st.file_info.fileSize - st.offset ∧
        results.flatMap Prod.snd = (fileContent st).drop st.offset ∧
        results.getLast? = some (0, []) := by
  induction d using Nat.strong_induction_on with
  | _ d ih =>
    intro st calls hopen hread hoff hd hfuel hcalls
    obtain ⟨c, rfl⟩ : ∃ c, calls = c + 1 := ⟨calls - 1, by omega⟩
    have hS : st.file_info.fileSize < 2 ^ 32 := hread.2.2.2.1
    obtain ⟨st1, hcall, g1, g2, g3, g4, g5⟩ :=
      file_read_chunk fuel k st 0 hopen hread hk hoff hfuel
    by_cases hend : st.offset = st.file_info.fileSize
    · have hm : min k (st.file_info.fileSize - st.offset) = 0 := by omega
      rw [hm] at hcall
      refine ⟨[(0, [])], ?_, by simp; omega, ?_, rfl⟩
      · unfold file_read_all
        rw [hcall]
        simp [ret_bind, pure_eq_ret]
      · have := fileContent_length_le st
        rw [List.drop_of_length_le (by omega)]
        rfl
    · obtain ⟨m, hm⟩ : ∃ m, m = min k (st.file_info.fileSize - st.offset) := ⟨_, rfl⟩
      rw [← hm] at hcall g1
      have hm1 : 1 ≤ m := by omega
      have hmS : m ≤ st.file_info.fileSize - st.offset := by omega
      have hne : ¬ (m = 0 ∨ m = SIZE_MAX) := by
        unfold SIZE_MAX
        omega
      obtain ⟨rest, hrest, s1, s2, s3⟩ := ih (d - m) (by omega) st1 c g5
        (readable_congr st st1 g2 g3 g4 hread) (by rw [g1, g2]; omega) (by rw [g1, g2]; omega)
        (by rw [g1, g2]; omega) (by omega)
      refine ⟨(m, ((fileContent st).drop st.offset).take m) :: rest, ?_, ?_, ?_, ?_⟩
      · unfold file_read_all
        rw [hcall]
        simp only [ret_bind]
        rw [if_neg hne, hrest]
        rfl
      · rw [List.map_cons, List.sum_cons, s1, g1, g2]
        omega
      · rw [List.flatMap_cons, s2, fileContent_congr st st1 g2 g3 g4, g1, ← List.drop_drop,
          List.take_append_drop]
      · cases rest with
        | nil => cases s3
        | cons a l => rw [List.getLast?_cons_cons]; exact s3

theorem file_open_finish_opened (fuel : Nat) (v : volume_t) (found : Option SFN_t) (e1 e : Nat)
    (h : file_t) (hres : file_open_finish fuel v found e1 = .ret (some h, e)) :
    h.offset = 0 ∧ h.volume = v ∧ h.opened := by
  cases found with
  | none => simp [file_open_finish] at hres
  | some f =>
    unfold file_open_finish at hres
    simp only at hres
    generalize get_chain_fat16 fuel v.FAT1 (fatByteLength v.bootSector)
      f.firstClusterNumberLowBits = r at hres
    cases r with
    | undefined => cases hres
    | timeout => cases hres
    | ret c =>
      cases c with
      | none => simp [Outcome.bind, file_open_chain] at hres
      | some chain =>
        simp only [Outcome.bind, file_open_chain, file_open_handle] at hres
        split at hres
        · cases hres
        · rename_i hcs
          injection hres with hres
          injection hres with h1 h2
          injection h1 with h1
          subst h1
          refine ⟨rfl, rfl, ?_, ?_⟩
          · exact hcs
          · exact List.length_replicate _ _

theorem file_open_opened (fuel : Nat) (v : volume_t) (file_name : List Nat) (e0 e : Nat)
    (h : file_t) (hres : file_open fuel v file_name e0 = .ret (some h, e)) :
    h.offset = 0 ∧ h.volume = v ∧ h.opened := by
  unfold file_open at hres
  generalize fixFileName file_name emptyName12 = r at hres
  cases r with
  | undefined => cases hres
  | timeout => cases hres
  | ret changed =>
    simp only at hres
    generalize file_open_scan v.rootDirectory changed v.bootSector.MaxNumOfFiles 0 e0 = r2 at hres
    cases r2 with
    | undefined => cases hres
    | timeout => cases hres
    | ret p =>
      obtain ⟨found, e1⟩ := p
      exact file_open_finish_opened fuel v found e1 e h hres

/-! ### `dir_open` -/

/-- C13: for a non-null path (given by its characters before the
terminator) `dir_open` returns a handle exactly when the path is the single
character backslash; the handle then has offset 0, `readDirs` 0 (the first
pass), the size `MaxNumOfFiles` and the root directory of the volume as its
data, and `errno` is left alone.  Every other path starting with a backslash
gives `NULL` with `ENOENT`, and every path that does not start with a
backslash, the empty one included, gives `NULL` with `ENOTDIR`. -/
theorem dir_open_spec (v : volume_t) (dir_path : List Nat) (errno : Nat) :
    ((dir_open v dir_path errno).1.isSome ↔ dir_path = [BACKSLASH]) ∧
      dir_open v dir_path errno =
        if dir_path = [BACKSLASH] then
          (some (⟨v.rootDirectory, v.bootSector.MaxNumOfFiles, 0, 0⟩ : dir_t), errno)
        else if dir_path.head? = some BACKSLASH then (none, ENOENT)
        else (none, ENOTDIR) := by
  unfold dir_open
  by_cases h : dir_path = [BACKSLASH]
  · subst h
    simp
  · rw [if_pos h, if_neg h]
    refine ⟨by simp [h], ?_⟩
    cases dir_path with
    | nil => simp [BACKSLASH]
    | cons a l =>
      by_cases ha : a = BACKSLASH
      · simp [ha]
      · simp [ha]

/-! ### `get_chain_fat16` -/

theorem loadU16_fatEntry (buffer : List Nat) (i : Nat) (hi : i < buffer.length / 2) :
    loadU16 buffer (2 * i) = .ret (fatEntry buffer i) := by
  have h0 : 2 * i < buffer.length := by omega
  have h1 : 2 * i + 1 < buffer.length := by omega
  unfold loadU16 loadByte fatEntry
  rw [List.getElem?_eq_getElem h0, List.getElem?_eq_getElem h1]
  simp only [ret_bind, pure_eq_ret, List.getD_eq_getElem?_getD, List.getElem?_eq_getElem h0,
    List.getElem?_eq_getElem h1, Option.getD_some]

theorem loadBlock_all (buffer : List Nat) :
    loadBlock buffer (2 * 0) buffer.length = .ret buffer := by
  unfold loadBlock
  rw [if_pos (by omega)]
  simp

theorem get_chain_loop_step (buffer : List Nat) (fuel cur : Nat) (clusters : List Nat)
    (hcur : cur < 0xFFF8) (hidx : cur < buffer.length / 2) :
    get_chain_loop buffer buffer.length 0 (fuel + 1) cur clusters
      = get_chain_loop buffer buffer.length 0 fuel (fatEntry buffer cur) (clusters ++ [cur]) := by
  have hL : 0 < buffer.length := by omega
  have h1 : (cur * 2) % 2 ^ 32 = 2 * cur := by omega
  have hlt : 2 * cur < buffer.length := by omega
  have h2 : (0 + 2 * cur / buffer.length) % 2 ^ 32 = 0 := by
    rw [Nat.div_eq_of_lt hlt]
    rfl
  have h3 : (2 * cur % buffer.length) % 2 ^ 32 = 2 * cur := by
    rw [Nat.mod_eq_of_lt hlt]
    omega
  rw [get_chain_loop, if_pos hcur]
  simp only [h1, h2, h3]
  rw [loadBlock_all, ret_bind, loadU16_fatEntry buffer cur hidx, ret_bind]

theorem get_chain_fat16_eq_loop (buffer : List Nat) (fuel c0 : Nat) (hc0 : c0 ≠ 0)
    (hidx : c0 < buffer.length / 2) :
    get_chain_fat16 fuel buffer buffer.length c0 =
      (get_chain_loop buffer buffer.length 0 fuel (fatEntry buffer c0) [c0]).bind
        (fun clusters => .ret (some (⟨clusters, [], 0, clusters.length⟩ : clusters_chain_t))) := by
  have hL : ¬ (buffer.length = 0 ∨ c0 = 0) := by omega
  have hlt : c0 * 2 < buffer.length := by omega
  have h2 : (c0 * 2 / buffer.length) % 2 ^ 32 = 0 := by
    rw [Nat.div_eq_of_lt hlt]
    rfl
  unfold get_chain_fat16
  rw [if_neg hL, loadU16_fatEntry buffer c0 hidx, ret_bind]
  simp only [h2]
  rfl

theorem get_chain_loop_done (buffer : List Nat) (size ffs fuel cur : Nat) (clusters : List Nat)
    (hcur : ¬ cur < 0xFFF8) :
    get_chain_loop buffer size ffs fuel cur clusters = .ret clusters := by
  cases fuel with
  | zero => rw [get_chain_loop, if_neg hcur]
  | succ f => rw [get_chain_loop, if_neg hcur]

theorem get_chain_loop_run (buffer : List Nat) (c0 k : Nat)
    (hidx : ∀ i, i ≤ k → fatSuccessor buffer c0 i < buffer.length / 2)
    (hlt : ∀ i, i ≤ k → fatSuccessor buffer c0 i < 0xFFF8)
    (hend : 0xFFF8 ≤ fatSuccessor buffer c0 (k + 1)) :
    ∀ (n fuel j : Nat) (acc : List Nat), n = k - j → j ≤ k → k - j ≤ fuel →
      get_chain_loop buffer buffer.length 0 fuel (fatSuccessor buffer c0 (j + 1)) acc
        = .ret (acc ++ (List.range' (j + 1) (k - j)).map (fatSuccessor buffer c0)) := by
  intro n
  induction n with
  | zero =>
    intro fuel j acc hn hj _
    have hjk : j = k := by omega
    subst hjk
    rw [get_chain_loop_done _ _ _ _ _ _ (by omega), Nat.sub_self]
    simp
  | succ n ih =>
    intro fuel j acc hn hj hfuel
    obtain ⟨f, rfl⟩ : ∃ f, fuel = f + 1 := ⟨fuel - 1, by omega⟩
    rw [get_chain_loop_step buffer f _ acc (hlt (j + 1) (by omega)) (hidx (j + 1) (by omega))]
    have hnext : fatEntry buffer (fatSuccessor buffer c0 (j + 1))
        = fatSuccessor buffer c0 (j + 1 + 1) := rfl
    rw [hnext, ih f (j + 1) _ (by omega) (by omega) (by omega)]
    have hk : k - j = (k - (j + 1)) + 1 := by omega
    rw [hk, List.range'_succ, List.map_cons, List.append_assoc]
    rfl

theorem get_chain_loop_forever (buffer : List Nat) (c0 : Nat)
    (h : ∀ i, fatSuccessor buffer c0 i < buffer.length / 2 ∧ fatSuccessor buffer c0 i < 0xFFF8) :
    ∀ (fuel j : Nat) (acc : List Nat),
      get_chain_loop buffer buffer.length 0 fuel (fatSuccessor buffer c0 (j + 1)) acc
        = .timeout := by
  intro fuel
  induction fuel with
  | zero =>
    intro j acc
    rw [get_chain_loop, if_pos (h (j + 1)).2]
  | succ f ih =>
    intro j acc
    rw [get_chain_loop_step buffer f _ acc (h (j + 1)).2 (h (j + 1)).1]
    exact ih (j + 1) _

theorem get_chain_loop_below (buffer : List Nat) (size ffs : Nat) :
    ∀ (fuel cur : Nat) (acc out : List Nat),
      get_chain_loop buffer size ffs fuel cur acc = .ret out →
      ∃ rest, out = acc ++ rest ∧ ∀ c ∈ rest, c < 0xFFF8 := by
  intro fuel
  induction fuel with
  | zero =>
    intro cur acc out hres
    rw [get_chain_loop] at hres
    split at hres
    · cases hres
    · injection hres with hres
      exact ⟨[], by simp [hres], by simp⟩
  | succ f ih =>
    intro cur acc out hres
    rw [get_chain_loop] at hres
    split at hres
    · rename_i hcur
      obtain ⟨tbl, _, hres⟩ := bind_eq_ret hres
      obtain ⟨v, _, hres⟩ := bind_eq_ret hres
      obtain ⟨rest, h1, h2⟩ := ih v (acc ++ [cur]) out hres
      refine ⟨cur :: rest, by rw [h1, List.append_assoc]; rfl, ?_⟩
      intro c hc
      rcases List.mem_cons.mp hc with rfl | hc
      · exact hcur
      · exact h2 c hc
    · injection hres with hres
      exact ⟨[], by simp [hres], by simp⟩

theorem fatSuccessor_cyclicFAT : ∀ i, fatSuccessor cyclicFAT 2 i = 2 := by
  intro i
  induction i with
  | zero => rfl
  | succ n ih =>
    rw [fatSuccessor, ih]
    rfl

theorem cyclicFAT_length : cyclicFAT.length = 512 := by
  simp [cyclicFAT]

/-- C15: let `c0 ≠ 0` and let the successor sequence `c0, FAT[c0],
FAT[FAT[c0]], ...` of a FAT block of `L` bytes have `FAT[ck]` as its first
value that is `0xFFF8` or more, all of `c0, ..., ck` being indices below `L /
2`.  Then `get_chain_fat16` (given at least `k` loop iterations) returns the
chain `[c0, c1, ..., ck]` in which each `c(i+1)` is the little-endian 16-bit
FAT entry at index `c(i)`; it has `k + 1` elements and `size` says so, and no
element is an end-of-chain marker. -/
theorem get_chain_fat16_spec (buffer : List Nat) (c0 k fuel : Nat) (hc0 : c0 ≠ 0)
    (hidx : ∀ i, i ≤ k → fatSuccessor buffer c0 i < buffer.length / 2)
    (hlt : ∀ i, i ≤ k → fatSuccessor buffer c0 i < 0xFFF8)
    (hend : 0xFFF8 ≤ fatSuccessor buffer c0 (k + 1))
    (hfuel : k ≤ fuel) :
    ∃ chain, get_chain_fat16 fuel buffer buffer.length c0 = .ret (some chain) ∧
      chain.clusters = (List.range (k + 1)).map (fatSuccessor buffer c0) ∧
      chain.clusters.length = k + 1 ∧ chain.size = k + 1 ∧
      chain.clusters.head? = some c0 ∧
      (∀ i, i < k → chain.clusters[i + 1]? = (chain.clusters[i]?).map (fatEntry buffer)) ∧
      (∀ c ∈ chain.clusters, c < 0xFFF8) ∧
      (∀ c, chain.clusters.getLast? = some c → 0xFFF8 ≤ fatEntry buffer c) := by
  have hloop := get_chain_loop_run buffer c0 k hidx hlt hend k fuel 0 [c0] (by omega)
    (by omega) (by omega)
  have hcl : [c0] ++ (List.range' (0 + 1) (k - 0)).map (fatSuccessor buffer c0)
      = (List.range (k + 1)).map (fatSuccessor buffer c0) := by
    rw [List.range_eq_range', Nat.sub_zero, List.range'_succ, List.map_cons]
    rfl
  rw [hcl] at hloop
  have h0 := hidx 0 (by omega)
  refine ⟨⟨(List.range (k + 1)).map (fatSuccessor buffer c0), [], 0, k + 1⟩, ?_, rfl, ?_, rfl,
    ?_, ?_, ?_, ?_⟩
  · rw [get_chain_fat16_eq_loop buffer fuel c0 hc0 h0]
    have hs : fatEntry buffer c0 = fatSuccessor buffer c0 (0 + 1) := rfl
    rw [hs, hloop]
    simp [Outcome.bind]
  · simp
  · rw [List.range_succ_eq_map]
    rfl
  · intro i hi
    simp only
    rw [List.getElem?_map, List.getElem?_map, List.getElem?_range (by omega),
      List.getElem?_range (by omega)]
    rfl
  · intro c hc
    simp only [List.mem_map, List.mem_range] at hc
    obtain ⟨i, hi, rfl⟩ := hc
    exact hlt i (by omega)
  · intro c hc
    simp only at hc
    rw [List.range_succ, List.map_append, List.map_singleton,
      List.getLast?_concat] at hc
    injection hc with hc
    rw [← hc]
    exact hend

/-- Witness of `get_chain_fat16_spec`: in `lowFAT` the chain of cluster 2
is `2, 1`. -/
theorem get_chain_fat16_spec_witness :
    ∃ chain, get_chain_fat16 1 lowFAT lowFAT.length 2 = .ret (some chain) ∧
      chain.clusters = (List.range (1 + 1)).map (fatSuccessor lowFAT 2) ∧
      chain.clusters.length = 1 + 1 ∧ chain.size = 1 + 1 ∧
      chain.clusters.head? = some 2 ∧
      (∀ i, i < 1 → chain.clusters[i + 1]? = (chain.clusters[i]?).map (fatEntry lowFAT)) ∧
      (∀ c ∈ chain.clusters, c < 0xFFF8) ∧
      (∀ c, chain.clusters.getLast? = some c → 0xFFF8 ≤ fatEntry lowFAT c) :=
  get_chain_fat16_spec lowFAT 2 1 1 (by decide)
    (fun i hi => by
      have hl : lowFAT.length = 512 := by simp [lowFAT]
      rw [hl]
      rcases Nat.le_one_iff_eq_zero_or_eq_one.mp hi with rfl | rfl
      · decide
      · decide)
    (fun i hi => by
      rcases Nat.le_one_iff_eq_zero_or_eq_one.mp hi with rfl | rfl
      · decide
      · decide)
    (by decide) (by decide)

/-- C16, counterexample: in the 512-byte FAT with `FAT[2] = 2` the traversal
from cluster 2 has not ended after `512 / 2 = 256` iterations of the loop: the
loop condition still holds, and neither a chain nor `NULL` has been
returned. -/
theorem get_chain_fat16_cycle_counterexample :
    fatEntry cyclicFAT 2 = 2 ∧ cyclicFAT.length = 512 ∧
      get_chain_fat16 (512 / 2) cyclicFAT 512 2 = .timeout := by
  refine ⟨rfl, cyclicFAT_length, ?_⟩
  have h := get_chain_fat16_eq_loop cyclicFAT (512 / 2) 2 (by decide)
    (by rw [cyclicFAT_length]; decide)
  rw [cyclicFAT_length] at h
  rw [h]
  have hl := get_chain_loop_forever cyclicFAT 2
    (fun i => by rw [fatSuccessor_cyclicFAT, cyclicFAT_length]; decide) (512 / 2) 0 [2]
  rw [cyclicFAT_length] at hl
  have hs : fatEntry cyclicFAT 2 = fatSuccessor cyclicFAT 2 (0 + 1) := rfl
  rw [hs, hl]
  rfl

/-- C16, amended: `get_chain_fat16` has no bound on the number of traversal
steps and rejects nothing.  When the successor sequence of the first cluster
stays inside the FAT block and below `0xFFF8` for ever, as it does on a cycle,
the loop is still running after any number of iterations (allocations taken to
succeed). -/
theorem get_chain_fat16_unbounded (buffer : List Nat) (c0 : Nat) (hc0 : c0 ≠ 0)
    (h : ∀ i, fatSuccessor buffer c0 i < buffer.length / 2 ∧ fatSuccessor buffer c0 i < 0xFFF8)
    (fuel : Nat) :
    get_chain_fat16 fuel buffer buffer.length c0 = .timeout := by
  rw [get_chain_fat16_eq_loop buffer fuel c0 hc0 (h 0).1]
  have hs : fatEntry buffer c0 = fatSuccessor buffer c0 (0 + 1) := rfl
  rw [hs, get_chain_loop_forever buffer c0 h fuel 0 [c0]]
  rfl

/-- Witness of `get_chain_fat16_unbounded`: the FAT with `FAT[2] = 2`, first
cluster 2, a thousand iterations. -/
theorem get_chain_fat16_unbounded_witness :
    get_chain_fat16 1000 cyclicFAT cyclicFAT.length 2 = .timeout :=
  get_chain_fat16_unbounded cyclicFAT 2 (by decide)
    (fun i => by rw [fatSuccessor_cyclicFAT, cyclicFAT_length]; decide) 1000

theorem get_chain_loop_follow (buffer : List Nat) (c0 k : Nat)
    (hidx : ∀ i, i ≤ k → fatSuccessor buffer c0 i < buffer.length / 2)
    (hlt : ∀ i, 1 ≤ i → i ≤ k → fatSuccessor buffer c0 i < 0xFFF8)
    (hend : 0xFFF8 ≤ fatSuccessor buffer c0 (k + 1)) :
    ∀ (n fuel j : Nat) (acc : List Nat), n = k - j → j ≤ k → k - j ≤ fuel →
      get_chain_loop buffer buffer.length 0 fuel (fatSuccessor buffer c0 (j + 1)) acc
        = .ret (acc ++ (List.range' (j + 1) (k - j)).map (fatSuccessor buffer c0)) := by
  intro n
  induction n with
  | zero =>
    intro fuel j acc hn hj _
    have hjk : j = k := by omega
    subst hjk
    rw [get_chain_loop_done _ _ _ _ _ _ (by omega), Nat.sub_self]
    simp
  | succ n ih =>
    intro fuel j acc hn hj hfuel
    obtain ⟨f, rfl⟩ : ∃ f, fuel = f + 1 := ⟨fuel - 1, by omega⟩
    rw [get_chain_loop_step buffer f _ acc (hlt (j + 1) (by omega) (by omega))
      (hidx (j + 1) (by omega))]
    have hnext : fatEntry buffer (fatSuccessor buffer c0 (j + 1))
        = fatSuccessor buffer c0 (j + 1 + 1) := rfl
    rw [hnext, ih f (j + 1) _ (by omega) (by omega) (by omega)]
    have hk : k - j = (k - (j + 1)) + 1 := by omega
    rw [hk, List.range'_succ, List.map_cons, List.append_assoc]
    rfl

/-- The chain `get_chain_fat16` returns when the successor sequence of the
first cluster stays at indices inside the FAT block up to its first value of
`0xFFF8` or more: the first cluster and all successors before that value. -/
theorem get_chain_fat16_run (buffer : List Nat) (c0 k fuel : Nat) (hc0 : c0 ≠ 0)
    (hidx : ∀ i, i ≤ k → fatSuccessor buffer c0 i < buffer.length / 2)
    (hlt : ∀ i, 1 ≤ i → i ≤ k → fatSuccessor buffer c0 i < 0xFFF8)
    (hend : 0xFFF8 ≤ fatSuccessor buffer c0 (k + 1))
    (hfuel : k ≤ fuel) :
    get_chain_fat16 fuel buffer buffer.length c0
      = .ret (some ⟨(List.range (k + 1)).map (fatSuccessor buffer c0), [], 0, k + 1⟩) := by
  have hloop := get_chain_loop_follow buffer c0 k hidx hlt hend k fuel 0 [c0] (by omega)
    (by omega) (by omega)
  have hcl : [c0] ++ (List.range' (0 + 1) (k - 0)).map (fatSuccessor buffer c0)
      = (List.range (k + 1)).map (fatSuccessor buffer c0) := by
    rw [List.range_eq_range', Nat.sub_zero, List.range'_succ, List.map_cons]
    rfl
  rw [hcl] at hloop
  rw [get_chain_fat16_eq_loop buffer fuel c0 hc0 (hidx 0 (by omega))]
  have hs : fatEntry buffer c0 = fatSuccessor buffer c0 (0 + 1) := rfl
  rw [hs, hloop]
  simp [Outcome.bind]

theorem getD_append_at (l1 l2 : List Nat) (j : Nat) :
    (l1 ++ l2).getD (l1.length + j) 0 = l2.getD j 0 := by
  rw [List.getD_eq_getElem?_getD, List.getD_eq_getElem?_getD,
    List.getElem?_append_right (Nat.le_add_right _ _), Nat.add_sub_cancel_left]

theorem pre_length (a b c d e f n : Nat) :
    ([a, b, c, d, e, f] ++ List.replicate n 0 : List Nat).length = 6 + n := by
  rw [List.length_append, List.length_replicate]
  rfl

theorem post_length (a b n : Nat) :
    ([a, b] ++ List.replicate n 0 : List Nat).length = 2 + n := by
  rw [List.length_append, List.length_replicate]
  rfl

theorem badClusterFAT_length : badClusterFAT.length = 131072 := by
  unfold badClusterFAT
  rw [List.length_append, pre_length, post_length]

theorem badClusterFAT_entry2 : fatEntry badClusterFAT 2 = 0xFFF7 := by
  rfl

theorem fatEntry_at (l1 : List Nat) (y0 y1 : Nat) (t : List Nat) (i : Nat)
    (h : l1.length = 2 * i) : fatEntry (l1 ++ (y0 :: y1 :: t)) i = y0 + 256 * y1 := by
  have h0 := getD_append_at l1 (y0 :: y1 :: t) 0
  have h1 := getD_append_at l1 (y0 :: y1 :: t) 1
  rw [h] at h0 h1
  unfold fatEntry
  rw [← Nat.add_zero (2 * i), h0, Nat.add_zero, h1]
  rfl

theorem badClusterFAT_entryBad : fatEntry badClusterFAT 0xFFF7 = 0xFFFF :=
  fatEntry_at ([0xF8, 0xFF, 0xFF, 0xFF, 0xF7, 0xFF] ++ List.replicate 131048 0) 0xFF 0xFF
    (List.replicate 16 0) 0xFFF7 (pre_length _ _ _ _ _ _ _)

theorem badClusterFAT_succ1 : fatSuccessor badClusterFAT 2 1 = 0xFFF7 := by
  rw [fatSuccessor, fatSuccessor, badClusterFAT_entry2]

theorem badClusterFAT_succ2 : fatSuccessor badClusterFAT 2 (1 + 1) = 0xFFFF := by
  rw [fatSuccessor, badClusterFAT_succ1, badClusterFAT_entryBad]

theorem badClusterFAT_inside (i : Nat) (hi : i ≤ 1) :
    fatSuccessor badClusterFAT 2 i < badClusterFAT.length / 2 := by
  rw [badClusterFAT_length]
  rcases Nat.le_one_iff_eq_zero_or_eq_one.mp hi with rfl | rfl
  · rw [fatSuccessor]; decide
  · rw [badClusterFAT_succ1]; decide

theorem badClusterFAT_below (i : Nat) (h1 : 1 ≤ i) (hi : i ≤ 1) :
    fatSuccessor badClusterFAT 2 i < 0xFFF8 := by
  have : i = 1 := by omega
  subst this
  rw [badClusterFAT_succ1]; decide

theorem badClusterFAT_map :
    (List.range (1 + 1)).map (fatSuccessor badClusterFAT 2) = [2, 0xFFF7] := by
  rw [show (List.range (1 + 1)) = [0, 1] from rfl, List.map_cons, List.map_cons, List.map_nil,
    badClusterFAT_succ1, fatSuccessor]

theorem badClusterFAT_chain :
    get_chain_fat16 1 badClusterFAT 131072 2 = .ret (some ⟨[2, 0xFFF7], [], 0, 2⟩) := by
  have h := get_chain_fat16_run badClusterFAT 2 1 1 (by decide) badClusterFAT_inside
    badClusterFAT_below (by rw [badClusterFAT_succ2]; decide) (by decide)
  rw [badClusterFAT_map, badClusterFAT_length] at h
  exact h

/-- C17, counterexample: in `lowFAT` the successor of cluster 2 is 1, a value
below 2; `get_chain_fat16` appends it and goes on to entry 1, so the chain
returned for first cluster 2 is `2, 1`.  In `badClusterFAT`, a FAT of 65536
entries, the successor of cluster 2 is the bad-cluster marker `0xFFF7`;
`get_chain_fat16` appends it and goes on to entry `0xFFF7`, so the chain
returned is `2, 0xFFF7`. -/
theorem get_chain_fat16_range_counterexample :
    fatEntry lowFAT 2 = 1 ∧
      get_chain_fat16 8 lowFAT 512 2 = .ret (some ⟨[2, 1], [], 0, 2⟩) ∧
      ¬ (∀ c ∈ [2, 1], 2 ≤ c ∧ c < 0xFFF7) ∧
      badClusterFAT.length = 131072 ∧ fatEntry badClusterFAT 2 = 0xFFF7 ∧
      get_chain_fat16 1 badClusterFAT 131072 2 = .ret (some ⟨[2, 0xFFF7], [], 0, 2⟩) ∧
      ¬ (∀ c ∈ [2, 0xFFF7], 2 ≤ c ∧ c < 0xFFF7) := by
  refine ⟨rfl, by rfl, by decide, badClusterFAT_length, badClusterFAT_entry2,
    badClusterFAT_chain, by decide⟩

/-- C17, amended: (1) a chain returned by `get_chain_fat16` starts with the
given first cluster, every cluster number behind it is below `0xFFF8`, and
`size` is the number of clusters; (2) when the successor sequence `c0,
FAT[c0], ...` of a first cluster `c0 ≠ 0` stays at indices inside the FAT
block up to its first value of `0xFFF8` or more, the chain returned consists
of `c0` and all the successors before that value.  A value of `0xFFF8` or
more is the only one that ends the traversal; successor values below 2 and
the bad-cluster marker `0xFFF7` are appended and followed like any other. -/
theorem get_chain_fat16_members (fuel : Nat) (buffer : List Nat) (c0 : Nat) :
    (∀ (size : Nat) (chain : clusters_chain_t),
        get_chain_fat16 fuel buffer size c0 = .ret (some chain) →
        ∃ rest, chain.clusters = c0 :: rest ∧ (∀ c ∈ rest, c < 0xFFF8) ∧
          chain.size = chain.clusters.length) ∧
      (∀ k : Nat, c0 ≠ 0 →
        (∀ i, i ≤ k → fatSuccessor buffer c0 i < buffer.length / 2) →
        (∀ i, 1 ≤ i → i ≤ k → fatSuccessor buffer c0 i < 0xFFF8) →
        0xFFF8 ≤ fatSuccessor buffer c0 (k + 1) → k ≤ fuel →
        get_chain_fat16 fuel buffer buffer.length c0
          = .ret (some ⟨(List.range (k + 1)).map (fatSuccessor buffer c0), [], 0, k + 1⟩)) := by
  refine ⟨?_, fun k hc0 hidx hlt hend hfuel =>
    get_chain_fat16_run buffer c0 k fuel hc0 hidx hlt hend hfuel⟩
  intro size chain h
  unfold get_chain_fat16 at h
  split at h
  · cases h
  · obtain ⟨cur, _, h⟩ := bind_eq_ret h
    obtain ⟨out, hloop, h⟩ := bind_eq_ret h
    obtain ⟨rest, h1, h2⟩ := get_chain_loop_below buffer size _ fuel cur [c0] out hloop
    injection h with h
    injection h with h
    subst h
    exact ⟨rest, h1, h2, rfl⟩

/-- Witness of `get_chain_fat16_members`: the chain `2, 1` returned on
`lowFAT`, whose second element is below 2, and the chain `2, 0xFFF7` returned
on `badClusterFAT`. -/
theorem get_chain_fat16_members_witness :
    (get_chain_fat16 8 lowFAT 512 2 = .ret (some ⟨[2, 1], [], 0, 2⟩) ∧
        ∃ rest, (⟨[2, 1], [], 0, 2⟩ : clusters_chain_t).clusters = 2 :: rest ∧
          (∀ c ∈ rest, c < 0xFFF8) ∧
          (⟨[2, 1], [], 0, 2⟩ : clusters_chain_t).size
            = (⟨[2, 1], [], 0, 2⟩ : clusters_chain_t).clusters.length) ∧
      get_chain_fat16 1 badClusterFAT badClusterFAT.length 2
        = .ret (some ⟨(List.range (1 + 1)).map (fatSuccessor badClusterFAT 2), [], 0, 1 + 1⟩) ∧
      (List.range (1 + 1)).map (fatSuccessor badClusterFAT 2) = [2, 0xFFF7] :=
  ⟨⟨by rfl, (get_chain_fat16_members 8 lowFAT 2).1 512 ⟨[2, 1], [], 0, 2⟩ (by rfl)⟩,
    (get_chain_fat16_members 1 badClusterFAT 2).2 1 (by decide) badClusterFAT_inside
      badClusterFAT_below (by rw [badClusterFAT_succ2]; decide) (by decide),
    badClusterFAT_map⟩

/-! ### `fixDirName` -/

theorem storeByte_getElem?_ne {mem out : List Nat} {q b : Nat}
    (h : storeByte mem q b = .ret out) (i : Nat) (hi : i ≠ q) : out[i]? = mem[i]? := by
  unfold storeByte at h
  split at h
  · injection h with h
    subst h
    rw [List.getElem?_set_ne (Ne.symm hi)]
  · cases h

theorem fixDirName_copy_keeps (stopAtNul : Bool) (dirName : List Nat) :
    ∀ (remaining p q : Nat) (buf : List Nat) (p1 q1 : Nat) (out : List Nat),
      fixDirName_copy stopAtNul dirName remaining p q buf = .ret (p1, q1, out) →
      q ≤ q1 ∧ ∀ i, i < q → out[i]? = buf[i]? := by
  intro remaining
  induction remaining with
  | zero =>
    intro p q buf p1 q1 out h
    rw [fixDirName_copy] at h
    obtain ⟨c, _, h⟩ := bind_eq_ret h
    injection h with h
    injection h with _ h
    injection h with h2 h3
    subst h2 h3
    exact ⟨Nat.le_refl _, fun _ _ => rfl⟩
  | succ n ih =>
    intro p q buf p1 q1 out h
    rw [fixDirName_copy] at h
    obtain ⟨c, _, h⟩ := bind_eq_ret h
    split at h
    · obtain ⟨buf1, hst, h⟩ := bind_eq_ret h
      obtain ⟨g1, g2⟩ := ih (p + 1) (q + 1) buf1 p1 q1 out h
      refine ⟨by omega, fun i hi => ?_⟩
      rw [g2 i (by omega), storeByte_getElem?_ne hst i (by omega)]
    · injection h with h
      injection h with _ h
      injection h with h2 h3
      subst h2 h3
      exact ⟨Nat.le_refl _, fun _ _ => rfl⟩

/-- In the third branch of `fixDirName` (an extension is present and a space
is found from the name on), whatever the first copy loop has stored stays in
the result. -/
theorem fixDirName_keeps_base (d dst : List Nat) (p q : Nat) (buf out : List Nat)
    (hext : checkForExtension d = .ret true) (hsp : strchrSpaceIsNull d = .ret false)
    (hcopy : fixDirName_copy false d NOT_DIR_FILE_LENGTH 0 0 dst = .ret (p, q, buf))
    (h : fixDirName d dst IS_NOT_DIR = .ret out) :
    ∀ i, i < q → out[i]? = buf[i]? := by
  unfold fixDirName at h
  rw [if_pos rfl, hext, ret_bind] at h
  simp only [Bool.true_eq_false, if_false] at h
  rw [hsp, ret_bind, if_neg (by decide), hcopy, ret_bind] at h
  obtain ⟨out1, hdot, h⟩ := bind_eq_ret h
  obtain ⟨p1, _, h⟩ := bind_eq_ret h
  obtain ⟨⟨p2, q2, out2⟩, hc2, h⟩ := bind_eq_ret h
  simp only at h hdot hc2
  obtain ⟨g1, g2⟩ := fixDirName_copy_keeps false _ _ _ _ _ _ _ _ hc2
  intro i hi
  rw [storeByte_getElem?_ne h i (by omega), g2 i (by omega),
    storeByte_getElem?_ne hdot i (by omega)]

theorem fixDirName_longSfn (tail out : List Nat)
    (h : fixDirName (longSfn ++ tail) (List.replicate 13 0) IS_NOT_DIR = .ret out) :
    out[8]? = some 84 := by
  have hext : checkForExtension (longSfn ++ tail) = .ret true := by
    simp [checkForExtension, loadByte, longSfn, DOT_OFFSET, SPACE, ret_bind, pure_eq_ret]
  have hsp : strchrSpaceIsNull (longSfn ++ tail) = .ret false := by
    simp [strchrSpaceIsNull, longSfn, SPACE]
  have hcopy : fixDirName_copy false (longSfn ++ tail) NOT_DIR_FILE_LENGTH 0 0
      (List.replicate 13 0)
      = .ret (10, 10, [65, 66, 67, 68, 69, 70, 71, 72, 84, 88, 0, 0, 0]) := by
    simp [fixDirName_copy, loadByte, longSfn, storeByte, SPACE, NOT_DIR_FILE_LENGTH, ret_bind,
      pure_eq_ret, List.replicate]
  rw [fixDirName_keeps_base _ _ _ _ _ _ hext hsp hcopy h 8 (by decide)]
  rfl

theorem fixDirName_fullSfn (tail out : List Nat)
    (h : fixDirName (fullSfn ++ 0x20 :: tail) (List.replicate 13 0) IS_NOT_DIR = .ret out) :
    out[8]? = some 84 := by
  have hext : checkForExtension (fullSfn ++ 0x20 :: tail) = .ret true := by
    simp [checkForExtension, loadByte, fullSfn, DOT_OFFSET, SPACE, ret_bind, pure_eq_ret]
  have hsp : strchrSpaceIsNull (fullSfn ++ 0x20 :: tail) = .ret false := by
    simp [strchrSpaceIsNull, fullSfn, SPACE]
  have hcopy : fixDirName_copy false (fullSfn ++ 0x20 :: tail) NOT_DIR_FILE_LENGTH 0 0
      (List.replicate 13 0)
      = .ret (10, 10, [65, 66, 67, 68, 69, 70, 71, 72, 84, 88, 0, 0, 0]) := by
    simp [fixDirName_copy, loadByte, fullSfn, storeByte, SPACE, NOT_DIR_FILE_LENGTH, ret_bind,
      pure_eq_ret, List.replicate]
  rw [fixDirName_keeps_base _ _ _ _ _ _ hext hsp hcopy h 8 (by decide)]
  rfl

/-- C11, at the failing input: the canonical name `ABCDEFGH.TX` (base of
eight characters, extension of two).  `fixFileName` normalizes it to
`ABCDEFGHTX` and a space (the twelfth byte of its buffer stays NUL);
`fixDirName` on that buffer, as a non-directory name, reads behind the buffer,
and whatever bytes follow the 11 name bytes, `fixDirName` never gives back
`ABCDEFGH.TX`: its first copy loop runs for up to 10 bytes, not 8, so byte 8 of
the result is `T` where the dot belongs. -/
theorem fixDirName_round_trip_long_base :
    fixFileName longName emptyName12 = .ret (longSfn ++ [0]) ∧
      fixDirName (longSfn ++ [0]) (List.replicate 13 0) IS_NOT_DIR = .undefined ∧
      ∀ tail rest : List Nat,
        fixDirName (longSfn ++ tail) (List.replicate 13 0) IS_NOT_DIR
          ≠ .ret (longName ++ 0 :: rest) := by
  refine ⟨by rfl, by rfl, ?_⟩
  intro tail rest h
  have h8 := fixDirName_longSfn tail _ h
  revert h8
  simp [longName, DOT]

/-- C12, at the failing input: the entry of the file `ABCDEFGH.TXT` with the
archive attribute `0x20` (name field `ABCDEFGHTXT`).  The attribute byte
behind the name is a space, so the test for a name without spaces fails and
the general branch copies 10 name bytes, a dot, and up to three bytes from
behind the attribute byte: with the 13-byte destination the stores run past
its end (and so does `dir_read` on a volume holding the entry); in a
destination of 16 bytes, filled with ones, 15 bytes are written and the
string is `ABCDEFGHTX.`; and whatever follows the attribute byte, the result
is never `ABCDEFGH.TXT`. -/
theorem fixDirName_full_name_archive :
    fixDirName fullEntry.toBytes (List.replicate 13 0)
        (fullEntry.fileAttribute &&& (1 <<< IS_DIRECTORY)) = .undefined ∧
      fixDirName fullEntry.toBytes (List.replicate 16 1) IS_NOT_DIR
        = .ret [65, 66, 67, 68, 69, 70, 71, 72, 84, 88, DOT, 0, 0, 0, 0, 1] ∧
      dir_read 32 (rootHandle (exampleVolume [fullEntry])) blankView 0 = .undefined ∧
      ∀ tail rest : List Nat,
        fixDirName (fullSfn ++ 0x20 :: tail) (List.replicate 13 0) IS_NOT_DIR
          ≠ .ret ([65, 66, 67, 68, 69, 70, 71, 72, DOT, 84, 88, 84, 0] ++ rest) := by
  refine ⟨by rfl, by rfl, by rfl, ?_⟩
  intro tail rest h
  have h8 := fixDirName_fullSfn tail _ h
  revert h8
  simp [DOT]

/-! ### The offset invariant -/

theorem file_read_copy_le (clusterSize expectedBytes fileSize : Nat) (clusterBuffer : List Nat) :
    ∀ (fuel clusterOffset offset bytesRead : Nat) (buffer : List Nat)
      (co1 off1 br1 : Nat) (buf1 : List Nat),
      file_read_copy clusterSize expectedBytes fileSize clusterBuffer fuel clusterOffset offset
        bytesRead buffer = .ret (co1, off1, br1, buf1) →
      offset ≤ fileSize → off1 ≤ fileSize := by
  intro fuel
  induction fuel with
  | zero =>
    intro co off br buf co1 off1 br1 buf1 h hle
    rw [file_read_copy] at h
    split at h
    · cases h
    · injection h with h
      injection h with _ h
      injection h with h _
      omega
  | succ f ih =>
    intro co off br buf co1 off1 br1 buf1 h hle
    rw [file_read_copy] at h
    split at h
    · rename_i hc
      obtain ⟨b, _, h⟩ := bind_eq_ret h
      exact ih _ _ _ _ _ _ _ _ h (by omega)
    · injection h with h
      injection h with _ h
      injection h with h _
      omega

theorem file_read_body_le (fuel expectedBytes clusterSize sectorsToRead : Nat)
    (clusterStartPosition : Int) (stream : file_t) (bytesRead : Nat) (buffer : List Nat)
    (errno : Nat) (r : (Nat × List Nat × file_t × Nat) ⊕ (file_t × Nat × List Nat × Nat))
    (h : file_read_body fuel expectedBytes clusterSize sectorsToRead clusterStartPosition stream
      bytesRead buffer errno = .ret r)
    (hle : stream.offset ≤ stream.file_info.fileSize) :
    match r with
    | .inl early => early.2.2.1.offset ≤ early.2.2.1.file_info.fileSize ∧
        early.2.2.1.file_info = stream.file_info
    | .inr next => next.1.offset ≤ next.1.file_info.fileSize ∧
        next.1.file_info = stream.file_info := by
  unfold file_read_body at h
  obtain ⟨⟨r0, cb, e1⟩, _, h⟩ := bind_eq_ret h
  simp only at h
  split at h
  · injection h with h
    subst h
    exact ⟨hle, rfl⟩
  · obtain ⟨⟨co1, off1, br1, buf1⟩, hcopy, h⟩ := bind_eq_ret h
    injection h with h
    subst h
    exact ⟨file_read_copy_le _ _ _ _ _ _ _ _ _ _ _ _ _ hcopy hle, rfl⟩

theorem file_read_loop_le (size nmemb clusterSize sectorsToRead : Nat)
    (clusterStartPosition : Int) (innerFuel : Nat) :
    ∀ (fuel : Nat) (stream : file_t) (bytesRead : Nat) (buffer : List Nat) (errno : Nat)
      (res : Nat × List Nat × file_t × Nat),
      file_read_loop size nmemb clusterSize sectorsToRead clusterStartPosition innerFuel fuel
        stream bytesRead buffer errno = .ret res →
      stream.offset ≤ stream.file_info.fileSize →
      res.2.2.1.offset ≤ res.2.2.1.file_info.fileSize ∧
        res.2.2.1.file_info = stream.file_info := by
  intro fuel
  induction fuel with
  | zero =>
    intro stream br buf e res h hle
    rw [file_read_loop] at h
    split at h
    · cases h
    · split at h
      · cases h
      · injection h with h
        subst h
        exact ⟨hle, rfl⟩
  | succ f ih =>
    intro stream br buf e res h hle
    rw [file_read_loop] at h
    split at h
    · obtain ⟨r, hbody, h⟩ := bind_eq_ret h
      have hb := file_read_body_le _ _ _ _ _ _ _ _ _ r hbody hle
      cases r with
      | inl early =>
        injection h with h
        subst h
        exact hb
      | inr next =>
        obtain ⟨st1, br1, buf1, e1⟩ := next
        simp only at h hb
        obtain ⟨g1, g2⟩ := ih st1 br1 buf1 e1 res h hb.1
        exact ⟨g1, g2.trans hb.2⟩
    · split at h
      · cases h
      · injection h with h
        subst h
        exact ⟨hle, rfl⟩

theorem file_read_le (fuel size nmemb : Nat) (stream : file_t) (errno : Nat)
    (res : Nat × List Nat × file_t × Nat)
    (h : file_read fuel size nmemb stream errno = .ret res)
    (hle : stream.offset ≤ stream.file_info.fileSize) :
    res.2.2.1.offset ≤ res.2.2.1.file_info.fileSize ∧
      res.2.2.1.file_info = stream.file_info := by
  unfold file_read at h
  split at h
  · split at h
    · injection h with h
      subst h
      exact ⟨hle, rfl⟩
    · injection h with h
      subst h
      exact ⟨hle, rfl⟩
  · simp only at h
    split at h
    · cases h
    · exact file_read_loop_le _ _ _ _ _ _ _ _ _ _ _ _ h hle

theorem file_seek_le (stream : file_t) (offset whence : Int) (errno : Nat)
    (hsize : stream.file_info.fileSize < 2 ^ 32)
    (hle : stream.offset ≤ stream.file_info.fileSize) :
    (file_seek stream offset whence errno).2.1.offset
        ≤ (file_seek stream offset whence errno).2.1.file_info.fileSize ∧
      (file_seek stream offset whence errno).2.1.file_info = stream.file_info := by
  unfold file_seek
  split
  · split
    · exact ⟨hle, rfl⟩
    · rename_i hc
      refine ⟨?_, rfl⟩
      simp only [toInt32, toSizeT] at hc ⊢
      omega
  · split
    · split
      · exact ⟨hle, rfl⟩
      · rename_i hc
        refine ⟨?_, rfl⟩
        simp only
        omega
    · split
      · split
        · exact ⟨hle, rfl⟩
        · rename_i hc
          refine ⟨?_, rfl⟩
          simp only [toInt32, toUInt32] at hc ⊢
          omega
      · exact ⟨hle, rfl⟩

theorem file_calls_le (fuel : Nat) :
    ∀ (calls : List FileCall) (stream : file_t) (errno : Nat) (st : file_t) (e : Nat),
      file_calls fuel calls stream errno = .ret (st, e) →
      stream.file_info.fileSize < 2 ^ 32 →
      stream.offset ≤ stream.file_info.fileSize →
      st.offset ≤ st.file_info.fileSize ∧ st.file_info = stream.file_info := by
  intro calls
  induction calls with
  | nil =>
    intro stream errno st e h _ hle
    rw [file_calls] at h
    injection h with h
    injection h with h _
    subst h
    exact ⟨hle, rfl⟩
  | cons c cs ih =>
    intro stream errno st e h hsize hle
    cases c with
    | read size nmemb =>
      rw [file_calls] at h
      obtain ⟨⟨r, out, st1, e1⟩, hread, h⟩ := bind_eq_ret h
      obtain ⟨g1, g2⟩ := file_read_le fuel size nmemb stream errno _ hread hle
      simp only at h g1 g2
      obtain ⟨k1, k2⟩ := ih st1 e1 st e h (by rw [g2]; exact hsize) g1
      exact ⟨k1, k2.trans g2⟩
    | seek offset whence =>
      rw [file_calls] at h
      obtain ⟨g1, g2⟩ := file_seek_le stream offset whence errno hsize hle
      obtain ⟨k1, k2⟩ := ih _ _ st e h (by rw [g2]; exact hsize) g1
      exact ⟨k1, k2.trans g2⟩

/-- C20: let `h` be a handle that `file_open` has returned, for a file whose
size is in the range of its type `uint32_t`.  After any finite sequence of
`file_read` and `file_seek` calls on it, with arbitrary arguments and whatever
each call returns, the handle still describes the same entry and its offset
is at most the file size: the test `offset > file_size` at the start of a
following `file_read` is false. -/
theorem file_offset_invariant (fuelO fuel : Nat) (v : volume_t) (file_name : List Nat)
    (e0 e1 : Nat) (h : file_t) (calls : List FileCall) (st : file_t) (e : Nat)
    (hopen : file_open fuelO v file_name e0 = .ret (some h, e1))
    (hsize : h.file_info.fileSize < 2 ^ 32)
    (hrun : file_calls fuel calls h e1 = .ret (st, e)) :
    h.offset = 0 ∧ st.file_info = h.file_info ∧ st.offset ≤ st.file_info.fileSize ∧
      ¬ (st.offset > st.file_info.fileSize) := by
  obtain ⟨h0, _, _⟩ := file_open_opened fuelO v file_name e0 e1 h hopen
  obtain ⟨g1, g2⟩ := file_calls_le fuel calls h e1 st e hrun hsize (by omega)
  exact ⟨h0, g2, g1, by omega⟩

/-- Witness of `file_offset_invariant`: on the 13-byte file `HELLO.TXT`, a
read of 5 bytes, a seek to 3 bytes before the end, a read of 3 elements of 3
bytes (which stops at the end of the file), a refused seek to offset 100 and a
seek back by 4 leave the offset at 9. -/
theorem file_offset_invariant_witness :
    file_calls 8 [.read 1 5, .seek (-3) SEEK_END, .read 3 3, .seek 100 SEEK_SET,
        .seek (-4) SEEK_CUR] (exampleHandle helloEntry 0) 0
        = .ret ((⟨helloEntry, ⟨[2], helloBytes ++ List.replicate 499 0, 13, 0⟩,
            exampleVolume [helloEntry], 9⟩ : file_t), ENXIO) ∧
      (exampleHandle helloEntry 0).offset = 0 ∧
      (⟨helloEntry, ⟨[2], helloBytes ++ List.replicate 499 0, 13, 0⟩,
            exampleVolume [helloEntry], 9⟩ : file_t).file_info
          = (exampleHandle helloEntry 0).file_info ∧
      (9 : Nat) ≤ helloEntry.fileSize ∧ ¬ ((9 : Nat) > helloEntry.fileSize) :=
  ⟨by rfl, file_offset_invariant 8 8 (exampleVolume [helloEntry])
    [72, 69, 76, 76, 79, 46, 84, 88, 84] 0 0 (exampleHandle helloEntry 0)
    [.read 1 5, .seek (-3) SEEK_END, .read 3 3, .seek 100 SEEK_SET, .seek (-4) SEEK_CUR]
    ⟨helloEntry, ⟨[2], helloBytes ++ List.replicate 499 0, 13, 0⟩, exampleVolume [helloEntry], 9⟩
    ENXIO (by rfl) (by decide) (by rfl)⟩

/-! ### `fat_open` -/

theorem memcmp_diff_eq_zero : ∀ (l1 l2 : List Nat), l1.length = l2.length →
    (memcmp_diff l1 l2 = 0 ↔ l1 = l2) := by
  intro l1
  induction l1 with
  | nil =>
    intro l2 h
    cases l2 with
    | nil => simp [memcmp_diff]
    | cons b l2 => simp at h
  | cons a l1 ih =>
    intro l2 h
    cases l2 with
    | nil => simp at h
    | cons b l2 =>
      rw [memcmp_diff]
      by_cases hab : a = b
      · subst hab
        rw [if_neg (by simp), ih l2 (by simpa using h)]
        simp
      · rw [if_pos hab]
        constructor
        · intro h0
          exact absurd (by omega : a = b) hab
        · intro h0
          injection h0 with h1 _
          exact absurd h1 hab

theorem disk_read_zero_tail (d : disk_t) (fs : Int) (L k : Nat) (e : Nat) (r : Int)
    (buf : List Nat) (e1 : Nat)
    (h : disk_read d fs (List.replicate L 0) (k : Int) e = .ret (r, buf, e1)) :
    buf.length = L ∧ buf.drop (k * SECTOR_SIZE) = List.replicate (L - k * SECTOR_SIZE) 0 := by
  have hlen := disk_read_length d fs _ _ e r buf e1 h
  rw [List.length_replicate] at hlen
  refine ⟨hlen, ?_⟩
  unfold disk_read at h
  split at h
  · injection h with h; injection h with _ h2; injection h2 with h2 _
    rw [← h2, List.drop_replicate]
  · split at h
    · injection h with h; injection h with _ h2; injection h2 with h2 _
      rw [← h2, List.drop_replicate]
    · split at h
      · cases h
      · simp only at h
        split at h
        · rename_i hle
          injection h with h; injection h with _ h2; injection h2 with h2 _
          rw [← h2]
          have htk : ((k : Nat) : Int).toNat = k := Int.toNat_ofNat k
          rw [htk] at hle ⊢
          generalize hdata : (d.pFile.drop (fs.toNat * SECTOR_SIZE)).take (SECTOR_SIZE * k)
            = data at hle ⊢
          have hdl : data.length ≤ k * SECTOR_SIZE := by
            rw [← hdata, List.length_take, Nat.mul_comm]
            exact Nat.min_le_left _ _
          rw [List.drop_append_eq_append_drop, List.drop_eq_nil_of_le hdl, List.nil_append,
            List.drop_replicate, List.drop_replicate]
          congr 1
          omega
        · cases h

theorem memcmp_eq_zero (s1 s2 : List Nat) (n : Nat) (c : Int)
    (h : memcmp s1 s2 n = .ret c) (hc : c = 0) (hlen : s1.length = s2.length) :
    s1.take n = s2.take n := by
  unfold memcmp at h
  split at h
  · injection h with h
    rw [hc] at h
    exact (memcmp_diff_eq_zero _ _ (by simp [hlen])).mp h
  · cases h

theorem fat_open_load_equal (pdisk : disk_t) (fs : Nat) (junk : Nat → Nat) (b : fatBootSector)
    (errno : Nat) (v : volume_t) (e : Nat)
    (h : fat_open_load pdisk fs junk b errno = .ret (some v, e)) :
    v.FAT1 = v.FAT2 ∧ v.bootSector = b ∧ v.disk = pdisk ∧
      v.FAT1.length = b.FatSize * b.BytesPerSector := by
  unfold fat_open_load at h
  obtain ⟨⟨r1, FAT1, e1⟩, h1, h⟩ := bind_eq_ret h
  obtain ⟨⟨r2, FAT2, e2⟩, h2, h⟩ := bind_eq_ret h
  obtain ⟨c, hc, h⟩ := bind_eq_ret h
  simp only at h h1 h2 hc
  split at h
  · cases h
  · rename_i hc0
    obtain ⟨⟨r3, root, e3⟩, h3, h⟩ := bind_eq_ret h
    injection h with h
    injection h with h _
    injection h with h
    subst h
    obtain ⟨l1, t1⟩ := disk_read_zero_tail _ _ _ _ _ _ _ _ h1
    obtain ⟨l2, t2⟩ := disk_read_zero_tail _ _ _ _ _ _ _ _ h2
    have htake := memcmp_eq_zero _ _ _ c hc (by simpa using hc0) (by rw [l1, l2])
    refine ⟨?_, rfl, rfl, l1⟩
    simp only
    rw [← List.take_append_drop (b.FatSize * SECTOR_SIZE) FAT1,
      ← List.take_append_drop (b.FatSize * SECTOR_SIZE) FAT2, htake, t1, t2]

theorem fat_open_ret (pdisk : disk_t) (fs : Nat) (junk : Nat → Nat) (errno : Nat)
    (v : volume_t) (e : Nat) (h : fat_open pdisk fs junk errno = .ret (some v, e)) :
    v.FAT1 = v.FAT2 ∧ v.disk = pdisk ∧ v.FAT1.length
        = v.bootSector.FatSize * v.bootSector.BytesPerSector ∧
      v.bootSector.SignatureValue = SIGNATURE_VALUE ∧ v.bootSector.BytesPerSector ≠ 0 ∧
      v.bootSector.MaxNumOfFiles * SIZEOF_SFN % v.bootSector.BytesPerSector = 0 := by
  unfold fat_open at h
  split at h
  · cases h
  · obtain ⟨⟨r0, boot, e0⟩, _, h⟩ := bind_eq_ret h
    simp only at h
    split at h
    · cases h
    · rename_i hsig
      split at h
      · cases h
      · rename_i hbps
        split at h
        · cases h
        · rename_i hdiv
          obtain ⟨g1, g2, g3, g4⟩ := fat_open_load_equal _ _ _ _ _ _ _ h
          rw [g2]
          exact ⟨g1, g3, g4, by simpa using hsig, hbps, by simpa using hdiv⟩

theorem toInt32_add2 (a b : Nat) (h : a + b < 2 ^ 31) :
    toInt32 (toInt32 (a : Int) + (b : Int)) = ((a + b : Nat) : Int) := by
  have h1 : toInt32 (a : Int) = (a : Int) := toInt32_natCast a (by omega)
  rw [h1]
  have h2 := toInt32_natCast (a + b) h
  rw [← h2, Nat.cast_add]

theorem toInt32_add3 (a b c : Nat) (h : a + b + c < 2 ^ 31) :
    toInt32 (toInt32 (a : Int) + (b : Int) + (c : Int)) = ((a + b + c : Nat) : Int) := by
  have h1 : toInt32 (a : Int) = (a : Int) := toInt32_natCast a (by omega)
  rw [h1]
  have h2 := toInt32_natCast (a + b + c) h
  rw [← h2, Nat.cast_add, Nat.cast_add]

theorem sector_block_length (l : List Nat) (X k n : Nat) (hn : n = l.length / 512)
    (h : X + k ≤ n) :
    ((l.drop (X * SECTOR_SIZE)).take (SECTOR_SIZE * k)).length = k * SECTOR_SIZE := by
  rw [List.length_take, List.length_drop]
  simp only [SECTOR_SIZE]
  omega

theorem fat_open_mismatch (pdisk : disk_t) (fs : Nat) (junk : Nat → Nat) (errno : Nat)
    (hd : pdisk.opened) (hbps : (bootSectorOf pdisk fs).BytesPerSector = 512)
    (hin : fs + (bootSectorOf pdisk fs).SizeReservedArea + 2 * (bootSectorOf pdisk fs).FatSize
      ≤ pdisk.numberOfSectors)
    (hdiff : fatCopy pdisk fs 0 ≠ fatCopy pdisk fs 1) :
    fat_open pdisk fs junk errno = .ret (none, EINVAL) := by
  have hn : pdisk.numberOfSectors ≤ 65535 := hd.2
  have hlenP : pdisk.numberOfSectors = pdisk.pFile.length / 512 := hd.1
  obtain ⟨b, hb⟩ : ∃ b, b = bootSectorOf pdisk fs := ⟨_, rfl⟩
  rw [← hb] at hbps hin
  have hF : 1 ≤ b.FatSize := by
    rcases Nat.eq_zero_or_pos b.FatSize with h0 | h0
    · exfalso
      apply hdiff
      unfold fatCopy
      rw [← hb, h0]
    · exact h0
  have hs1 : fs < 2 ^ 31 := by omega
  have hs2 : fs + b.SizeReservedArea < 2 ^ 31 := by omega
  have hs3 : fs + b.SizeReservedArea + b.FatSize < 2 ^ 31 := by omega
  have hs4 : fs + b.SizeReservedArea + b.FatSize ≤ pdisk.numberOfSectors := by omega
  have hs5 : fs + b.SizeReservedArea + b.FatSize + b.FatSize ≤ pdisk.numberOfSectors := by omega
  have hs6 : fs + 1 ≤ pdisk.numberOfSectors := by omega
  have hi4 : ((fs + b.SizeReservedArea : Nat) : Int) + (b.FatSize : Int)
      ≤ (pdisk.numberOfSectors : Int) := by exact_mod_cast hs4
  have hi5 : ((fs + b.SizeReservedArea + b.FatSize : Nat) : Int) + (b.FatSize : Int)
      ≤ (pdisk.numberOfSectors : Int) := by exact_mod_cast hs5
  have hi6 : (fs : Int) + ((1 : Nat) : Int) ≤ (pdisk.numberOfSectors : Int) := by
    exact_mod_cast hs6
  have hfs : toInt32 (fs : Int) = (fs : Int) := toInt32_natCast fs hs1
  have hboot : disk_read pdisk (fs : Int) (List.replicate 512 0) ((1 : Nat) : Int) errno
      = .ret (0, (pdisk.pFile.drop (fs * SECTOR_SIZE)).take (SECTOR_SIZE * 1), errno) := by
    have := disk_read_ok pdisk hd (fs : Int) 1 (List.replicate 512 0) errno
      (Int.ofNat_nonneg fs) hi6 (by simp [SECTOR_SIZE])
    rw [Int.toNat_ofNat] at this
    exact this
  have hparse : parseBootSector ((pdisk.pFile.drop (fs * SECTOR_SIZE)).take (SECTOR_SIZE * 1))
      = b := by
    rw [hb, Nat.mul_one]
    rfl
  unfold fat_open
  rw [hfs, if_neg (not_lt.mpr (Int.ofNat_nonneg fs))]
  have h1 : ((1 : Nat) : Int) = 1 := rfl
  rw [← h1, hboot, ret_bind]
  simp only
  rw [hparse]
  by_cases hsig : b.SignatureValue ≠ SIGNATURE_VALUE
  · rw [if_pos hsig]
    rfl
  · have hb0 : ¬ b.BytesPerSector = 0 := by rw [hbps]; decide
    rw [if_neg hsig, if_neg hb0]
    by_cases hdiv : b.MaxNumOfFiles * SIZEOF_SFN % b.BytesPerSector ≠ 0
    · rw [if_pos hdiv]
      rfl
    · rw [if_neg hdiv]
      unfold fat_open_load
      have ha1 : toInt32 (toInt32 (fs : Int) + (b.SizeReservedArea : Int))
          = ((fs + b.SizeReservedArea : Nat) : Int) :=
        toInt32_add2 fs b.SizeReservedArea hs2
      have ha2 : toInt32 (toInt32 (fs : Int) + (b.SizeReservedArea : Int) + (b.FatSize : Int))
          = ((fs + b.SizeReservedArea + b.FatSize : Nat) : Int) :=
        toInt32_add3 fs b.SizeReservedArea b.FatSize hs3
      have hz : (List.replicate (b.FatSize * b.BytesPerSector) 0).length
          = SECTOR_SIZE * b.FatSize := by
        rw [List.length_replicate, hbps]
        simp only [SECTOR_SIZE]
        omega
      have hr1 := disk_read_ok pdisk hd ((fs + b.SizeReservedArea : Nat) : Int) b.FatSize
        (List.replicate (b.FatSize * b.BytesPerSector) 0) errno (Int.ofNat_nonneg _) hi4 hz
      have hr2 := disk_read_ok pdisk hd ((fs + b.SizeReservedArea + b.FatSize : Nat) : Int)
        b.FatSize (List.replicate (b.FatSize * b.BytesPerSector) 0) errno (Int.ofNat_nonneg _)
        hi5 hz
      rw [Int.toNat_ofNat] at hr1 hr2
      dsimp only
      rw [ha1, ha2, hr1, ret_bind]
      dsimp only
      rw [hr2, ret_bind]
      simp only
      have hc0 : fatCopy pdisk fs 0
          = (pdisk.pFile.drop ((fs + b.SizeReservedArea) * SECTOR_SIZE)).take
              (SECTOR_SIZE * b.FatSize) := by
        unfold fatCopy
        rw [← hb, hbps, Nat.zero_mul, Nat.add_zero, Nat.mul_comm b.FatSize 512]
        simp only [SECTOR_SIZE]
      have hc1 : fatCopy pdisk fs 1
          = (pdisk.pFile.drop ((fs + b.SizeReservedArea + b.FatSize) * SECTOR_SIZE)).take
              (SECTOR_SIZE * b.FatSize) := by
        unfold fatCopy
        rw [← hb, hbps, Nat.one_mul, Nat.mul_comm b.FatSize 512]
        simp only [SECTOR_SIZE]
      rw [← hc0, ← hc1]
      have hl0 : (fatCopy pdisk fs 0).length = b.FatSize * SECTOR_SIZE := by
        rw [hc0]
        exact sector_block_length _ _ _ _ hlenP hs4
      have hl1 : (fatCopy pdisk fs 1).length = b.FatSize * SECTOR_SIZE := by
        rw [hc1]
        exact sector_block_length _ _ _ _ hlenP hs5
      unfold memcmp
      rw [if_pos ⟨hl0.ge, hl1.ge⟩, ret_bind]
      have ht0 : (fatCopy pdisk fs 0).take (b.FatSize * SECTOR_SIZE) = fatCopy pdisk fs 0 :=
        List.take_of_length_le hl0.le
      have ht1 : (fatCopy pdisk fs 1).take (b.FatSize * SECTOR_SIZE) = fatCopy pdisk fs 1 :=
        List.take_of_length_le hl1.le
      rw [ht0, ht1]
      have hne : memcmp_diff (fatCopy pdisk fs 0) (fatCopy pdisk fs 1) ≠ 0 := by
        intro h0
        exact hdiff ((memcmp_diff_eq_zero _ _ (by rw [hl0, hl1])).mp h0)
      rw [if_pos hne]
      rfl

theorem mkBootSector_length (a b c d e f : Nat) : (mkBootSector a b c d e f).length = 512 := by
  simp [mkBootSector, le16]

theorem exampleFAT_length : exampleFAT.length = 512 := by
  simp [exampleFAT]

theorem helloImage_opened : (diskOf helloImage 5).opened := by
  unfold disk_t.opened diskOf helloImage
  simp only [List.length_append, mkBootSector_length, exampleFAT_length, List.length_replicate]
  refine ⟨?_, by decide⟩
  have h1 : helloEntry.toBytes.length = 32 := rfl
  have h2 : helloBytes.length = 13 := rfl
  rw [h1, h2]
  rfl

theorem tamperedImage_opened : (diskOf tamperedImage 4).opened := by
  unfold disk_t.opened diskOf tamperedImage
  simp only [List.length_append, mkBootSector_length, exampleFAT_length, cyclicFAT_length,
    List.length_replicate]
  exact ⟨rfl, by decide⟩

theorem tamperedImage_differs :
    fatCopy (diskOf tamperedImage 4) 0 0 ≠ fatCopy (diskOf tamperedImage 4) 0 1 := by
  intro h
  have h0 : (fatCopy (diskOf tamperedImage 4) 0 0)[4]? = some 0xFF := by rfl
  have h1 : (fatCopy (diskOf tamperedImage 4) 0 1)[4]? = some 2 := by rfl
  rw [h, h1] at h0
  cases h0

theorem fat_open_helloImage :
    fat_open (diskOf helloImage 5) 0 (fun _ => 0) 0 = .ret (some helloVolume, 0) := by
  rfl

/-- C14, counterexample: the boot sector of `wideSectorImage` announces
sectors of 1024 bytes, one reserved sector and FATs of one sector.  The two
FAT copies of 1024 bytes each differ in byte 512 (byte 1536 of the image),
both when a sector is counted as `BytesPerSector` bytes and when it is
counted as 512 bytes, and `fat_open` returns a volume: it reads and compares
`FatSize * 512` bytes of each copy. -/
theorem fat_open_fat_compare_counterexample :
    (bootSectorOf (diskOf wideSectorImage 6) 0).BytesPerSector = 1024 ∧
      (bootSectorOf (diskOf wideSectorImage 6) 0).FatSize = 1 ∧
      (fatCopy (diskOf wideSectorImage 6) 0 0).length = 1024 ∧
      (fatCopy (diskOf wideSectorImage 6) 0 1).length = 1024 ∧
      fatCopy (diskOf wideSectorImage 6) 0 0 ≠ fatCopy (diskOf wideSectorImage 6) 0 1 ∧
      (wideSectorImage.drop (1 * 512)).take 1024 ≠ (wideSectorImage.drop (2 * 512)).take 1024 ∧
      ∃ v e, fat_open (diskOf wideSectorImage 6) 0 (fun _ => 0) 0 = .ret (some v, e) := by
  refine ⟨by rfl, by rfl, by rfl, by rfl, ?_, ?_, ⟨_, _, rfl⟩⟩
  · intro h
    have h0 : (fatCopy (diskOf wideSectorImage 6) 0 0)[512]? = some 1 := by rfl
    have h1 : (fatCopy (diskOf wideSectorImage 6) 0 1)[512]? = some 0 := by rfl
    rw [h, h1] at h0
    cases h0
  · intro h
    have h2 : ((wideSectorImage.drop (1 * 512)).take 1024)[512]? = some 0 := by rfl
    have h3 : ((wideSectorImage.drop (2 * 512)).take 1024)[512]? = some 1 := by rfl
    rw [h, h3] at h2
    cases h2

/-- C14, amended: whenever `fat_open` returns a volume, its two FAT blocks
are equal byte for byte.  And for a device as `disk_open_from_file` leaves it,
holding a volume with `BytesPerSector = 512` both of whose FAT copies lie
inside the device: if the two copies differ in at least one byte, `fat_open`
returns `NULL` with `errno = EINVAL`. -/
theorem fat_open_fat_copies (pdisk : disk_t) (fs : Nat) (junk : Nat → Nat) (errno : Nat) :
    (∀ v e, fat_open pdisk fs junk errno = .ret (some v, e) → v.FAT1 = v.FAT2) ∧
      (pdisk.opened → (bootSectorOf pdisk fs).BytesPerSector = 512 →
        fs + (bootSectorOf pdisk fs).SizeReservedArea + 2 * (bootSectorOf pdisk fs).FatSize
          ≤ pdisk.numberOfSectors →
        fatCopy pdisk fs 0 ≠ fatCopy pdisk fs 1 →
        fat_open pdisk fs junk errno = .ret (none, EINVAL)) :=
  ⟨fun v e h => (fat_open_ret pdisk fs junk errno v e h).1,
    fun hd hbps hin hdiff => fat_open_mismatch pdisk fs junk errno hd hbps hin hdiff⟩

/-- Witness of `fat_open_fat_copies`: `helloImage` is opened with two equal
FAT blocks, and `tamperedImage`, whose second FAT copy differs from the first,
is refused with `EINVAL`. -/
theorem fat_open_fat_copies_witness :
    (fat_open (diskOf helloImage 5) 0 (fun _ => 0) 0 = .ret (some helloVolume, 0) ∧
        helloVolume.FAT1 = helloVolume.FAT2) ∧
      (fatCopy (diskOf tamperedImage 4) 0 0 ≠ fatCopy (diskOf tamperedImage 4) 0 1 ∧
        fat_open (diskOf tamperedImage 4) 0 (fun _ => 0) 0 = .ret (none, EINVAL)) :=
  ⟨⟨fat_open_helloImage,
     (fat_open_fat_copies (diskOf helloImage 5) 0 (fun _ => 0) 0).1 helloVolume 0
       fat_open_helloImage⟩,
   ⟨tamperedImage_differs,
     (fat_open_fat_copies (diskOf tamperedImage 4) 0 (fun _ => 0) 0).2 tamperedImage_opened
       (by rfl) (by decide) tamperedImage_differs⟩⟩

/-- C18, at the failing input: `threeFatImage` announces three FATs of one
sector behind one reserved sector, so its root directory, which holds
`HELLO.TXT`, starts at sector `1 + 3 * 1 = 4`, the sector from which
`file_read` counts.  `fat_open` reads the root directory at `SizeReservedArea
+ FatSize * 2`, sector 3: the array it returns is laid over the third FAT
copy, it is not the root region of the image, and `file_open` does not find
`HELLO.TXT` in it. -/
theorem fat_open_root_three_fats :
    fat_open (diskOf threeFatImage 6) 0 (fun _ => 0) 0 = .ret (some threeFatVolume, 0) ∧
      threeFatVolume.bootSector.NumFATs = 3 ∧
      (threeFatImage.drop ((1 + 2 * 1) * SECTOR_SIZE)).take SECTOR_SIZE = exampleFAT ∧
      threeFatVolume.rootDirectory = rootEntries exampleFAT 16 ∧
      rootEntries (rootRegion (diskOf threeFatImage 6) threeFatVolume.bootSector) 16
        = helloEntry :: List.replicate 15 freeEntry ∧
      threeFatVolume.rootDirectory
        ≠ rootEntries (rootRegion (diskOf threeFatImage 6) threeFatVolume.bootSector) 16 ∧
      file_open 8 threeFatVolume [72, 69, 76, 76, 79, 46, 84, 88, 84] 0 = .ret (none, ENOENT) := by
  have hroot : rootEntries (rootRegion (diskOf threeFatImage 6) threeFatVolume.bootSector) 16
      = helloEntry :: List.replicate 15 freeEntry := by rfl
  refine ⟨by rfl, rfl, by rfl, rfl, hroot, ?_, by rfl⟩
  rw [hroot]
  intro h
  have h0 : (threeFatVolume.rootDirectory.head?.map (fun e => e.fileAttribute)) = some 0 := by
    rfl
  rw [h] at h0
  revert h0
  decide

/-- C19, counterexample: `fat_open` returns a volume for `zeroClusterImage`,
whose boot sector announces 0 sectors per cluster (the cluster size is 0), and
for `oddSectorImage`, which announces sectors of 1000 bytes and clusters of
64000 bytes; for `zeroSectorImage`, which announces sectors of 0 bytes, the
divisibility test of `fat_open` divides by zero. -/
theorem fat_open_geometry_counterexample :
    (∃ v e, fat_open (diskOf zeroClusterImage 4) 0 (fun _ => 0) 0 = .ret (some v, e) ∧
        v.bootSector.SectorPerCluster = 0 ∧
        v.bootSector.BytesPerSector * v.bootSector.SectorPerCluster = 0) ∧
      (∃ v e, fat_open (diskOf oddSectorImage 3) 0 (fun _ => 0) 0 = .ret (some v, e) ∧
        v.bootSector.BytesPerSector = 1000 ∧
        32768 < v.bootSector.BytesPerSector * v.bootSector.SectorPerCluster) ∧
      (bootSectorOf (diskOf zeroSectorImage 1) 0).BytesPerSector = 0 ∧
      fat_open (diskOf zeroSectorImage 1) 0 (fun _ => 0) 0 = .undefined := by
  refine ⟨⟨_, _, rfl, rfl, rfl⟩, ⟨_, _, rfl, rfl, by decide⟩, by rfl, by rfl⟩

/-- C19, amended: every volume that `fat_open` returns carries the boot
sector signature `0xAA55`, a `BytesPerSector` other than zero (with zero the
divisibility test itself is a division by zero) and a `MaxNumOfFiles * 32`
that is a multiple of `BytesPerSector`; its FAT blocks have `FatSize *
BytesPerSector` bytes.  Nothing else of the geometry is checked. -/
theorem fat_open_geometry (pdisk : disk_t) (fs : Nat) (junk : Nat → Nat) (errno : Nat)
    (v : volume_t) (e : Nat) (h : fat_open pdisk fs junk errno = .ret (some v, e)) :
    v.bootSector.SignatureValue = SIGNATURE_VALUE ∧ v.bootSector.BytesPerSector ≠ 0 ∧
      v.bootSector.MaxNumOfFiles * 32 % v.bootSector.BytesPerSector = 0 ∧
      v.disk = pdisk ∧
      v.FAT1.length = v.bootSector.FatSize * v.bootSector.BytesPerSector := by
  obtain ⟨_, g2, g3, g4, g5, g6⟩ := fat_open_ret pdisk fs junk errno v e h
  exact ⟨g4, g5, g6, g2, g3⟩

/-- Witness of `fat_open_geometry`: the volume returned for `helloImage`. -/
theorem fat_open_geometry_witness :
    fat_open (diskOf helloImage 5) 0 (fun _ => 0) 0 = .ret (some helloVolume, 0) ∧
      helloVolume.bootSector.SignatureValue = SIGNATURE_VALUE ∧
      helloVolume.bootSector.BytesPerSector ≠ 0 ∧
      helloVolume.bootSector.MaxNumOfFiles * 32 % helloVolume.bootSector.BytesPerSector = 0 ∧
      helloVolume.disk = diskOf helloImage 5 ∧
      helloVolume.FAT1.length
        = helloVolume.bootSector.FatSize * helloVolume.bootSector.BytesPerSector :=
  ⟨fat_open_helloImage,
    fat_open_geometry (diskOf helloImage 5) 0 (fun _ => 0) 0 helloVolume 0 fat_open_helloImage⟩

/-! ### The order of the states of a directory handle -/

theorem addOffset_order (d : dir_t) (hin : d.inBounds) (hlt : d.offset < d.size) :
    (addOffsetAndChangeDirAttr d).inBounds ∧ (addOffsetAndChangeDirAttr d).size = d.size ∧
      d.notAfter (addOffsetAndChangeDirAttr d) ∧
      (d.readDirs = 1 → (addOffsetAndChangeDirAttr d).readDirs = 1) := by
  obtain ⟨data, size, offset, rd⟩ := d
  obtain ⟨h0, h1, h2⟩ := hin
  simp only at h0 h1 h2 hlt
  unfold addOffsetAndChangeDirAttr dir_t.inBounds dir_t.notAfter
  simp only
  split
  · rename_i hc
    simp only
    obtain ⟨hc1, hc2⟩ := hc
    refine ⟨⟨le_refl _, by omega, Or.inr (by first | rfl | trivial)⟩, by first | rfl | trivial,
      ⟨by omega, fun h => by omega⟩, fun _ => by first | rfl | trivial⟩
  · simp only
    refine ⟨⟨by omega, by omega, h2⟩, by first | rfl | trivial,
      ⟨le_refl _, fun _ => by omega⟩, fun h => h⟩

theorem notAfter_refl (d : dir_t) : d.notAfter d :=
  ⟨le_refl _, fun _ => le_refl _⟩

theorem notAfter_trans (a b c : dir_t) (h1 : a.notAfter b) (h2 : b.notAfter c) :
    a.notAfter c := by
  obtain ⟨p1, q1⟩ := h1
  obtain ⟨p2, q2⟩ := h2
  refine ⟨le_trans p1 p2, fun h => ?_⟩
  have hb : b.readDirs = a.readDirs := le_antisymm (by rw [← h]; exact p2) p1
  have hc : c.readDirs = b.readDirs := by rw [h, hb]
  exact le_trans (q1 hb) (q2 hc)

theorem dir_read_loop_order : ∀ (fuel : Nat) (d : dir_t) (b : Bool) (d1 : dir_t),
    dir_read_loop fuel d = .ret (b, d1) → d.inBounds →
    d1.inBounds ∧ d1.size = d.size ∧ d.notAfter d1 ∧ (d.readDirs = 1 → d1.readDirs = 1) ∧
      (b = false → d1.offset = d1.size) := by
  intro fuel
  induction fuel with
  | zero =>
    intro d b d1 h hin
    rw [dir_read_loop] at h
    split at h
    · cases h
    · rename_i hge
      injection h with h
      injection h with hb hd
      subst hd
      exact ⟨hin, rfl, notAfter_refl d, fun h => h, fun _ => le_antisymm hin.2.1 (not_lt.mp hge)⟩
  | succ f ih =>
    intro d b d1 h hin
    rw [dir_read_loop] at h
    split at h
    · rename_i hlt
      obtain ⟨e, _, h⟩ := bind_eq_ret h
      obtain ⟨skip, _, h⟩ := bind_eq_ret h
      obtain ⟨a1, a2, a3, a4⟩ := addOffset_order d hin hlt
      split at h
      · obtain ⟨g1, g2, g3, g4, g5⟩ := ih _ b d1 h a1
        exact ⟨g1, g2.trans a2, notAfter_trans _ _ _ a3 g3, fun hr => g4 (a4 hr), g5⟩
      · injection h with h
        injection h with hb hd
        subst hd
        subst hb
        exact ⟨a1, a2, a3, a4, fun hc => by cases hc⟩
    · rename_i hge
      injection h with h
      injection h with hb hd
      subst hd
      exact ⟨hin, rfl, notAfter_refl d, fun h => h, fun _ => le_antisymm hin.2.1 (not_lt.mp hge)⟩

theorem dir_read_at_end (fuel : Nat) (d : dir_t) (pentry : dir_entry_t) (errno : Nat)
    (h : d.offset = d.size) : dir_read fuel d pentry errno = .ret (-1, d, pentry, ENXIO) := by
  unfold dir_read
  rw [if_pos h]

theorem dir_read_order (fuel : Nat) (d : dir_t) (pentry : dir_entry_t) (errno : Nat) (r : Int)
    (d1 : dir_t) (pentry1 : dir_entry_t) (errno1 : Nat)
    (h : dir_read fuel d pentry errno = .ret (r, d1, pentry1, errno1)) (hin : d.inBounds) :
    d1.inBounds ∧ d1.size = d.size ∧ d.notAfter d1 ∧ (d.readDirs = 1 → d1.readDirs = 1) ∧
      (r ≠ 0 → d1.offset = d1.size) ∧ (d.offset = d.size → r ≠ 0 ∧ d1 = d) := by
  by_cases hend : d.offset = d.size
  · rw [dir_read_at_end fuel d pentry errno hend] at h
    injection h with h
    injection h with hr h
    injection h with hd _
    subst hd
    subst hr
    exact ⟨hin, rfl, notAfter_refl d, fun h => h, fun _ => hend, fun _ => ⟨by decide, rfl⟩⟩
  · unfold dir_read at h
    rw [if_neg hend] at h
    obtain ⟨⟨found, p1⟩, hloop, h⟩ := bind_eq_ret h
    obtain ⟨g1, g2, g3, g4, g5⟩ := dir_read_loop_order fuel d found p1 hloop hin
    simp only at h
    split at h
    · rename_i hf
      injection h with h
      injection h with hr h
      injection h with hd _
      subst hd
      exact ⟨g1, g2, g3, g4, fun _ => g5 hf, fun hc => absurd hc hend⟩
    · obtain ⟨view, _, h⟩ := bind_eq_ret h
      injection h with h
      injection h with hr h
      injection h with hd _
      subst hd
      subst hr
      exact ⟨g1, g2, g3, g4, fun hc => absurd rfl hc, fun hc => absurd hc hend⟩

theorem dir_read_trace_states (fuel : Nat) :
    ∀ (views : List dir_entry_t) (d : dir_t) (errno : Nat) (tr : List (Int × dir_t)),
      dir_read_trace fuel views d errno = .ret tr → d.inBounds →
      tr.length = views.length ∧
      ∀ (i : Nat) (r : Int) (s : dir_t), tr[i]? = some (r, s) →
        s.inBounds ∧ s.size = d.size ∧ d.notAfter s ∧ (d.readDirs = 1 → s.readDirs = 1) ∧
          (r ≠ 0 → s.offset = s.size) ∧ (d.offset = d.size → r ≠ 0 ∧ s = d) := by
  intro views
  induction views with
  | nil =>
    intro d errno tr h _
    rw [dir_read_trace] at h
    injection h with h
    subst h
    exact ⟨rfl, fun i r s hi => by simp at hi⟩
  | cons pentry views ih =>
    intro d errno tr h hin
    rw [dir_read_trace] at h
    obtain ⟨⟨r0, d1, pe1, e1⟩, hcall, h⟩ := bind_eq_ret h
    obtain ⟨rest, hrest, h⟩ := bind_eq_ret h
    injection h with h
    subst h
    obtain ⟨g1, g2, g3, g4, g5, g6⟩ := dir_read_order fuel d pentry errno r0 d1 pe1 e1 hcall hin
    obtain ⟨hl, hall⟩ := ih d1 e1 rest hrest g1
    refine ⟨by simp [hl], ?_⟩
    intro i r s hi
    cases i with
    | zero =>
      simp only [List.getElem?_cons_zero, Option.some.injEq, Prod.mk.injEq] at hi
      obtain ⟨hr, hs⟩ := hi
      subst hr
      subst hs
      exact ⟨g1, g2, g3, g4, g5, g6⟩
    | succ j =>
      rw [List.getElem?_cons_succ] at hi
      obtain ⟨k1, k2, k3, k4, k5, k6⟩ := hall j r s hi
      refine ⟨k1, k2.trans g2, notAfter_trans _ _ _ g3 k3, fun hr => k4 (g4 hr), k5, ?_⟩
      intro hend
      obtain ⟨_, hd⟩ := g6 hend
      have hend1 : d1.offset = d1.size := by rw [hd]; exact hend
      obtain ⟨m1, m2⟩ := k6 hend1
      exact ⟨m1, m2.trans hd⟩

theorem dir_read_trace_steps (fuel : Nat) :
    ∀ (views : List dir_entry_t) (d : dir_t) (errno : Nat) (tr : List (Int × dir_t)),
      dir_read_trace fuel views d errno = .ret tr → d.inBounds →
      ∀ (i : Nat) (r : Int) (s : dir_t) (r1 : Int) (s1 : dir_t),
        tr[i]? = some (r, s) → tr[i + 1]? = some (r1, s1) →
        s.notAfter s1 ∧ (s.readDirs = 1 → s1.readDirs = 1) ∧ (r ≠ 0 → r1 ≠ 0 ∧ s1 = s) := by
  intro views
  induction views with
  | nil =>
    intro d errno tr h _
    rw [dir_read_trace] at h
    injection h with h
    subst h
    intro i r s r1 s1 hi
    simp at hi
  | cons pentry views ih =>
    intro d errno tr h hin
    rw [dir_read_trace] at h
    obtain ⟨⟨r0, d1, pe1, e1⟩, hcall, h⟩ := bind_eq_ret h
    obtain ⟨rest, hrest, h⟩ := bind_eq_ret h
    injection h with h
    subst h
    obtain ⟨g1, g2, g3, g4, g5, g6⟩ := dir_read_order fuel d pentry errno r0 d1 pe1 e1 hcall hin
    intro i r s r1 s1 hi hi1
    rw [List.getElem?_cons_succ] at hi1
    cases i with
    | zero =>
      simp only [List.getElem?_cons_zero, Option.some.injEq, Prod.mk.injEq] at hi
      obtain ⟨hr, hs⟩ := hi
      subst hr
      subst hs
      obtain ⟨k1, k2, k3, k4, k5, k6⟩ := (dir_read_trace_states fuel views d1 e1 rest hrest g1).2
        0 r1 s1 hi1
      exact ⟨k3, k4, fun hr => k6 (g5 hr)⟩
    | succ j =>
      rw [List.getElem?_cons_succ] at hi
      exact ih d1 e1 rest hrest g1 j r s r1 s1 hi hi1

/-- C21: let `d` be a handle that `dir_open` has returned, and let `dir_read`
be called on it any number of times (each call with its own view), `tr`
listing the value returned and the handle after each call.  After every call
the offset lies in `[0, size]`, the size is the one `dir_open` set, and the
state is not earlier than the state before the call in the order first pass
< second pass, and by offset within a pass; the pass flag, once 1, stays 1.
Once a call has returned non-zero, the offset equals the size, every later
call returns non-zero and leaves the handle as it is, and any further
`dir_read` on that handle returns `-1` at once without touching it. -/
theorem dir_read_state_order (v : volume_t) (dir_path : List Nat) (e0 e1 : Nat) (d : dir_t)
    (fuel : Nat) (views : List dir_entry_t) (tr : List (Int × dir_t))
    (hopen : dir_open v dir_path e0 = (some d, e1))
    (hrun : dir_read_trace fuel views d e1 = .ret tr) :
    d.offset = 0 ∧ d.readDirs = 0 ∧ tr.length = views.length ∧
      (∀ (i : Nat) (r : Int) (s : dir_t), tr[i]? = some (r, s) →
        0 ≤ s.offset ∧ s.offset ≤ s.size ∧ s.size = d.size ∧
          (s.readDirs = 0 ∨ s.readDirs = 1) ∧ d.notAfter s ∧
          (r ≠ 0 → s.offset = s.size ∧
            ∀ (fuel1 : Nat) (pentry : dir_entry_t) (errno : Nat),
              dir_read fuel1 s pentry errno = .ret (-1, s, pentry, ENXIO))) ∧
      (∀ (i : Nat) (r : Int) (s : dir_t) (r1 : Int) (s1 : dir_t),
        tr[i]? = some (r, s) → tr[i + 1]? = some (r1, s1) →
        s.notAfter s1 ∧ (s.readDirs = 1 → s1.readDirs = 1) ∧ (r ≠ 0 → r1 ≠ 0 ∧ s1 = s)) := by
  have hd : d = ⟨v.rootDirectory, v.bootSector.MaxNumOfFiles, 0, 0⟩ := by
    unfold dir_open at hopen
    split at hopen
    · injection hopen with h _
      cases h
    · injection hopen with h _
      injection h with h
      exact h.symm
  have hin : d.inBounds := by
    rw [hd]
    exact ⟨le_refl _, Int.ofNat_nonneg _, Or.inl rfl⟩
  obtain ⟨hl, hall⟩ := dir_read_trace_states fuel views d e1 tr hrun hin
  refine ⟨by rw [hd], by rw [hd], hl, ?_, dir_read_trace_steps fuel views d e1 tr hrun hin⟩
  intro i r s hi
  obtain ⟨k1, k2, k3, _, k5, _⟩ := hall i r s hi
  exact ⟨k1.1, k1.2.1, k2, k1.2.2, k3,
    fun hr => ⟨k5 hr, fun fuel1 pentry errno => dir_read_at_end fuel1 s pentry errno (k5 hr)⟩⟩

/-- Witness of `dir_read_state_order`: four calls on the root directory with
`DOCS` in slot 0 and `HELLO.TXT` in slot 1. -/
theorem dir_read_state_order_witness :
    dir_open (exampleVolume [docsEntry, helloEntry]) [BACKSLASH] 0
        = (some (rootHandle (exampleVolume [docsEntry, helloEntry])), 0) ∧
      dir_read_trace 32 [blankView, blankView, blankView, blankView]
        (rootHandle (exampleVolume [docsEntry, helloEntry])) 0 = .ret exampleTrace ∧
      exampleTrace.length = [blankView, blankView, blankView, blankView].length ∧
      (∀ (i : Nat) (r : Int) (s : dir_t), exampleTrace[i]? = some (r, s) →
        0 ≤ s.offset ∧ s.offset ≤ s.size ∧
          s.size = (rootHandle (exampleVolume [docsEntry, helloEntry])).size ∧
          (s.readDirs = 0 ∨ s.readDirs = 1) ∧
          (rootHandle (exampleVolume [docsEntry, helloEntry])).notAfter s ∧
          (r ≠ 0 → s.offset = s.size ∧
            ∀ (fuel1 : Nat) (pentry : dir_entry_t) (errno : Nat),
              dir_read fuel1 s pentry errno = .ret (-1, s, pentry, ENXIO))) ∧
      (∀ (i : Nat) (r : Int) (s : dir_t) (r1 : Int) (s1 : dir_t),
        exampleTrace[i]? = some (r, s) → exampleTrace[i + 1]? = some (r1, s1) →
        s.notAfter s1 ∧ (s.readDirs = 1 → s1.readDirs = 1) ∧ (r ≠ 0 → r1 ≠ 0 ∧ s1 = s)) :=
  ⟨by rfl, by rfl,
    (dir_read_state_order (exampleVolume [docsEntry, helloEntry]) [BACKSLASH] 0 0
      (rootHandle (exampleVolume [docsEntry, helloEntry])) 32
      [blankView, blankView, blankView, blankView] exampleTrace (by rfl) (by rfl)).2.2⟩

/-- C22: whenever `file_seek` returns `-1`, the handle is exactly as it was
before the call (offset, entry copy, chain and volume), and `errno` is `ENXIO`
(target out of range for `SEEK_SET`, `SEEK_CUR` or `SEEK_END`) or `EINVAL`
(any other `whence`). -/
theorem file_seek_failure (stream : file_t) (offset whence : Int) (errno : Nat)
    (h : (file_seek stream offset whence errno).1 = -1) :
    (file_seek stream offset whence errno).2.1 = stream ∧
      ((file_seek stream offset whence errno).2.2 = ENXIO ∨
        ((file_seek stream offset whence errno).2.2 = EINVAL ∧
          whence ≠ SEEK_SET ∧ whence ≠ SEEK_CUR ∧ whence ≠ SEEK_END)) := by
  unfold file_seek at h ⊢
  split
  · rename_i hw
    rw [if_pos hw] at h
    split
    · exact ⟨rfl, Or.inl rfl⟩
    · rename_i hc
      rw [if_neg hc] at h
      exact absurd (show (0 : Int) = -1 from h) (by decide)
  · rename_i hw
    rw [if_neg hw] at h
    split
    · rename_i hw1
      rw [if_pos hw1] at h
      split
      · exact ⟨rfl, Or.inl rfl⟩
      · rename_i hc
        rw [if_neg hc] at h
        exact absurd (show (0 : Int) = -1 from h) (by decide)
    · rename_i hw1
      rw [if_neg hw1] at h
      split
      · rename_i hw2
        rw [if_pos hw2] at h
        split
        · exact ⟨rfl, Or.inl rfl⟩
        · rename_i hc
          rw [if_neg hc] at h
          exact absurd (show (0 : Int) = -1 from h) (by decide)
      · rename_i hw2
        exact ⟨rfl, Or.inr ⟨rfl, hw, hw1, hw2⟩⟩

/-- Witness of `file_seek_failure`: a seek to offset 100 of the 13-byte file
`HELLO.TXT` is refused and the handle stays at offset 5. -/
theorem file_seek_failure_witness :
    (file_seek (exampleHandle helloEntry 5) 100 SEEK_SET 0).1 = -1 ∧
      (file_seek (exampleHandle helloEntry 5) 100 SEEK_SET 0).2.1 = exampleHandle helloEntry 5 ∧
      ((file_seek (exampleHandle helloEntry 5) 100 SEEK_SET 0).2.2 = ENXIO ∨
        ((file_seek (exampleHandle helloEntry 5) 100 SEEK_SET 0).2.2 = EINVAL ∧
          SEEK_SET ≠ SEEK_SET ∧ SEEK_SET ≠ SEEK_CUR ∧ SEEK_SET ≠ SEEK_END)) :=
  ⟨by rfl, file_seek_failure (exampleHandle helloEntry 5) 100 SEEK_SET 0 (by rfl)⟩

/-! ### `file_open` on the volumes `fat_open` returns -/

theorem file_open_helloName (fuel : Nat) (v : volume_t)
    (hroot : v.rootDirectory = helloEntry :: List.replicate 15 freeEntry)
    (hmax : v.bootSector.MaxNumOfFiles = 16) :
    ∃ e1, file_open fuel v helloName 0 = file_open_finish fuel v (some helloEntry) e1 := by
  obtain ⟨e1, h⟩ := file_open_eq_finish fuel v helloName (helloSfn ++ [32]) 0
    (by rw [hroot, hmax]; rfl) (by rw [hroot]; decide) (by rfl) (by decide) (by decide)
  refine ⟨e1, ?_⟩
  rw [h, hroot]
  rfl

/-- C6, counterexample: the root directory of each of two volumes holds the
non-directory entry `HELLO   TXT` with first cluster 2, whose 11 name bytes
equal the normalized name of `HELLO.TXT`; both volumes are returned by
`fat_open`.  On the first, whose boot sector announces 0 sectors per cluster,
`file_open` divides by the cluster size 0; on the second, whose FAT entry 2
points to cluster 2 itself, the chain traversal of `file_open` is still
running after any number of steps.  On neither does `file_open` succeed. -/
theorem file_open_success_counterexample :
    fixFileName helloName emptyName12 = .ret (helloSfn ++ [32]) ∧
      (helloSfn ++ [32]).take 11 = helloEntry.filename ∧
      helloEntry.isDirectory = false ∧ helloEntry.firstClusterNumberLowBits ≠ 0 ∧
      fat_open (diskOf zeroClusterHelloImage 5) 0 (fun _ => 0) 0
        = .ret (some zeroClusterVolume, 0) ∧
      helloEntry ∈ zeroClusterVolume.rootDirectory ∧
      (∀ fuel, file_open fuel zeroClusterVolume helloName 0 = .undefined) ∧
      fat_open (diskOf cyclicImage 5) 0 (fun _ => 0) 0 = .ret (some cyclicVolume, 0) ∧
      helloEntry ∈ cyclicVolume.rootDirectory ∧
      (∀ fuel, file_open fuel cyclicVolume helloName 0 = .timeout) := by
  refine ⟨by rfl, by rfl, by rfl, by decide, by rfl, by decide, ?_, by rfl, by decide, ?_⟩
  · intro fuel
    obtain ⟨e1, h⟩ := file_open_helloName fuel zeroClusterVolume rfl rfl
    rw [h]
    unfold file_open_finish
    have hsize : fatByteLength zeroClusterVolume.bootSector = exampleFAT.length := by rfl
    have hchain := get_chain_fat16_run exampleFAT 2 0 fuel (by decide)
      (fun i hi => by
        have : i = 0 := by omega
        subst this
        rw [exampleFAT_length]
        decide)
      (fun i h1 hi => by omega) (by decide) (Nat.zero_le _)
    show (get_chain_fat16 fuel exampleFAT (fatByteLength zeroClusterVolume.bootSector) 2).bind _
      = _
    rw [hsize, hchain]
    rfl
  · intro fuel
    obtain ⟨e1, h⟩ := file_open_helloName fuel cyclicVolume rfl rfl
    rw [h]
    unfold file_open_finish
    have hsize : fatByteLength cyclicVolume.bootSector = cyclicFAT.length := by rfl
    have hloop := get_chain_loop_forever cyclicFAT 2
      (fun i => by rw [fatSuccessor_cyclicFAT, cyclicFAT_length]; decide) fuel 0 [2]
    have hchain : get_chain_fat16 fuel cyclicFAT cyclicFAT.length 2 = .timeout := by
      rw [get_chain_fat16_eq_loop cyclicFAT fuel 2 (by decide)
        (by rw [cyclicFAT_length]; decide)]
      have hs : fatEntry cyclicFAT 2 = fatSuccessor cyclicFAT 2 (0 + 1) := rfl
      rw [hs, hloop]
      rfl
    show (get_chain_fat16 fuel cyclicFAT (fatByteLength cyclicVolume.bootSector) 2).bind _ = _
    rw [hsize, hchain]
    rfl

theorem file_open_finish_some_chain (fuel : Nat) (v : volume_t) (f : SFN_t) (e1 : Nat)
    (chain : clusters_chain_t)
    (hchain : get_chain_fat16 fuel v.FAT1 (fatByteLength v.bootSector) f.firstClusterNumberLowBits
      = .ret (some chain))
    (hcs : v.bootSector.BytesPerSector * v.bootSector.SectorPerCluster ≠ 0) :
    ∃ h, file_open_finish fuel v (some f) e1 = .ret (some h, e1) ∧ h.file_info = f ∧
      h.offset = 0 ∧ h.chain.clusters = chain.clusters := by
  unfold file_open_finish
  simp only
  rw [hchain]
  unfold Outcome.bind file_open_chain file_open_handle
  simp only
  rw [if_neg hcs]
  exact ⟨_, rfl, rfl, rfl, rfl⟩

/-- C6, amended: on a volume whose root array holds `MaxNumOfFiles` entries
with 11-byte name fields, and for a name that `fixFileName` normalizes to 11
bytes free of NUL: (1) when no root entry has its 11 name bytes equal to the
normalized name, `file_open` returns `NULL` with `errno == ENOENT`; (2) a
returned handle has offset 0 and its entry copy is the lowest-index
non-directory entry whose 11 name bytes equal the normalized name; (3) when
such an entry exists, `get_chain_fat16` returns a chain for its first cluster
and the cluster size is non-zero, `file_open` returns a handle; (4) that is
the case when the cluster size is non-zero, the first cluster `c0` of the
entry is non-zero, the size passed to `get_chain_fat16` is the length of the
first FAT copy and the successor sequence `c0, FAT[c0], ...` stays at indices
inside the FAT, and below `0xFFF8` after `c0`, up to a first value
`>= 0xFFF8`: the chain of the handle returned is then `c0` with its
successors before that value. -/
theorem file_open_spec (fuel : Nat) (v : volume_t) (file_name changed : List Nat) (errno : Nat)
    (hroot : v.rootDirectory.length = v.bootSector.MaxNumOfFiles)
    (hnames : ∀ f ∈ v.rootDirectory, f.filename.length = 11)
    (hfix : fixFileName file_name emptyName12 = .ret changed)
    (hnul : 0 ∉ changed.take 11) :
    ((∀ f ∈ v.rootDirectory, f.filename ≠ changed.take 11) →
        file_open fuel v file_name errno = .ret (none, ENOENT)) ∧
      (∀ h e, file_open fuel v file_name errno = .ret (some h, e) →
        h.offset = 0 ∧
        v.rootDirectory.find?
          (fun f => decide (f.filename = changed.take 11) && !f.isDirectory)
          = some h.file_info) ∧
      (∀ f chain,
        v.rootDirectory.find?
          (fun f => decide (f.filename = changed.take 11) && !f.isDirectory) = some f →
        get_chain_fat16 fuel v.FAT1 (fatByteLength v.bootSector) f.firstClusterNumberLowBits
          = .ret (some chain) →
        v.bootSector.BytesPerSector * v.bootSector.SectorPerCluster ≠ 0 →
        ∃ h e, file_open fuel v file_name errno = .ret (some h, e) ∧
          h.file_info = f ∧ h.offset = 0) ∧
      (∀ f k,
        v.rootDirectory.find?
          (fun f => decide (f.filename = changed.take 11) && !f.isDirectory) = some f →
        v.bootSector.BytesPerSector * v.bootSector.SectorPerCluster ≠ 0 →
        f.firstClusterNumberLowBits ≠ 0 →
        fatByteLength v.bootSector = v.FAT1.length →
        (∀ i, i ≤ k →
          fatSuccessor v.FAT1 f.firstClusterNumberLowBits i < v.FAT1.length / 2) →
        (∀ i, 1 ≤ i → i ≤ k → fatSuccessor v.FAT1 f.firstClusterNumberLowBits i < 0xFFF8) →
        0xFFF8 ≤ fatSuccessor v.FAT1 f.firstClusterNumberLowBits (k + 1) →
        k ≤ fuel →
        ∃ h e, file_open fuel v file_name errno = .ret (some h, e) ∧
          h.file_info = f ∧ h.offset = 0 ∧
          h.chain.clusters = fatChain v.FAT1 f.firstClusterNumberLowBits k) := by
  have hlen : 11 ≤ changed.length := by
    rw [fixFileName_length hfix]; simp [emptyName12]
  obtain ⟨e1, hopen⟩ := file_open_eq_finish fuel v file_name changed errno hroot hnames hfix
    hlen hnul
  rw [hopen]
  refine ⟨?_, ?_, ?_, ?_⟩
  · intro hno
    have hnone : v.rootDirectory.find?
        (fun f => decide (f.filename = changed.take 11) && !f.isDirectory) = none := by
      rw [List.find?_eq_none]
      intro f hf
      simp [hno f hf]
    rw [hnone]
    rfl
  · intro h e hres
    obtain ⟨h1, h2⟩ := file_open_finish_ret fuel v _ e1 e h hres
    exact ⟨h2, h1⟩
  · intro f chain hfind hchain hcs
    rw [hfind]
    obtain ⟨h, h1, h2, h3⟩ := file_open_finish_some fuel v f e1 chain hchain hcs
    exact ⟨h, e1, h1, h2, h3⟩
  · intro f k hfind hcs hc0 hL hidx hlt hend hk
    rw [hfind]
    have hchain := get_chain_fat16_run v.FAT1 f.firstClusterNumberLowBits k fuel hc0 hidx hlt
      hend hk
    rw [← hL] at hchain
    obtain ⟨h, h1, h2, h3, h4⟩ := file_open_finish_some_chain fuel v f e1 _ hchain hcs
    exact ⟨h, e1, h1, h2, h3, h4⟩

/-- Witness of `file_open_spec`: the volume whose root directory holds
`HELLO.TXT`, opened under that name; the FAT chain of its first cluster 2 is
the single cluster 2. -/
theorem file_open_spec_witness :
    fixFileName helloName emptyName12 = .ret (helloSfn ++ [32]) ∧
      fatChain (exampleVolume [helloEntry]).FAT1 helloEntry.firstClusterNumberLowBits 0 = [2] ∧
      ∃ h e, file_open 8 (exampleVolume [helloEntry]) helloName 0 = .ret (some h, e) ∧
        h.file_info = helloEntry ∧ h.offset = 0 ∧
        h.chain.clusters
          = fatChain (exampleVolume [helloEntry]).FAT1 helloEntry.firstClusterNumberLowBits 0 :=
  ⟨rfl, rfl, (file_open_spec 8 (exampleVolume [helloEntry]) helloName
    (helloSfn ++ [32]) 0 (by decide) (by decide) (by rfl) (by decide)).2.2.2 helloEntry 0
      (by decide) (by decide) (by decide) (by rfl)
      (fun i hi => by
        have : i = 0 := by omega
        subst this
        show fatSuccessor exampleFAT 2 0 < exampleFAT.length / 2
        rw [exampleFAT_length]
        decide)
      (fun i h1 hi => by omega) (by decide) (by decide)⟩

/-! ### Sequential reading of a whole file -/

theorem file_open_finish_chain (fuel : Nat) (v : volume_t) (found : Option SFN_t) (e1 e : Nat)
    (h : file_t) (hres : file_open_finish fuel v found e1 = .ret (some h, e)) :
    ∃ chain, get_chain_fat16 fuel v.FAT1 (fatByteLength v.bootSector)
        h.file_info.firstClusterNumberLowBits = .ret (some chain) ∧
      h.chain.clusters = chain.clusters := by
  cases found with
  | none => simp [file_open_finish] at hres
  | some f =>
    unfold file_open_finish at hres
    simp only at hres
    generalize hr : get_chain_fat16 fuel v.FAT1 (fatByteLength v.bootSector)
      f.firstClusterNumberLowBits = r at hres
    cases r with
    | undefined => cases hres
    | timeout => cases hres
    | ret c =>
      cases c with
      | none => simp [Outcome.bind, file_open_chain] at hres
      | some chain =>
        simp only [Outcome.bind, file_open_chain, file_open_handle] at hres
        split at hres
        · cases hres
        · injection hres with hres
          injection hres with h1 h2
          injection h1 with h1
          subst h1
          exact ⟨chain, hr, rfl⟩

theorem file_open_chain_ret (fuel : Nat) (v : volume_t) (file_name : List Nat) (e0 e : Nat)
    (h : file_t) (hres : file_open fuel v file_name e0 = .ret (some h, e)) :
    ∃ chain, get_chain_fat16 fuel v.FAT1 (fatByteLength v.bootSector)
        h.file_info.firstClusterNumberLowBits = .ret (some chain) ∧
      h.chain.clusters = chain.clusters := by
  unfold file_open at hres
  generalize fixFileName file_name emptyName12 = r at hres
  cases r with
  | undefined => cases hres
  | timeout => cases hres
  | ret changed =>
    simp only at hres
    generalize file_open_scan v.rootDirectory changed v.bootSector.MaxNumOfFiles 0 e0 = r2 at hres
    cases r2 with
    | undefined => cases hres
    | timeout => cases hres
    | ret p =>
      obtain ⟨found, e1⟩ := p
      exact file_open_finish_chain fuel v found e1 e h hres

theorem fatByteLength_eq (b : fatBootSector) (hF : b.FatSize < 2 ^ 16)
    (hbps : b.BytesPerSector = 512) : fatByteLength b = b.FatSize * b.BytesPerSector := by
  unfold fatByteLength toSizeT toInt32
  rw [hbps]
  omega

theorem get_chain_fat16_first_ne_zero (fuel : Nat) (buffer : List Nat) (size c0 : Nat)
    (chain : clusters_chain_t) (h : get_chain_fat16 fuel buffer size c0 = .ret (some chain)) :
    c0 ≠ 0 := by
  intro hc
  unfold get_chain_fat16 at h
  rw [if_pos (Or.inr hc)] at h
  cases h

theorem fatChain_getElem? (buffer : List Nat) (c0 n i c : Nat)
    (h : (fatChain buffer c0 n)[i]? = some c) : i ≤ n ∧ c = fatSuccessor buffer c0 i := by
  unfold fatChain at h
  rw [List.getElem?_map] at h
  rcases Nat.lt_or_ge i (n + 1) with hi | hi
  · rw [List.getElem?_range hi] at h
    injection h with h
    exact ⟨by omega, h.symm⟩
  · rw [List.getElem?_eq_none (by simpa using hi)] at h
    cases h

/-- C3: let `file_open` return the handle `h` for a file of size `S` on the
volume `v` (boot-sector fields in the range of their C types, sector size 512,
block device as `disk_open_from_file` leaves it, first FAT copy `FatSize`
sectors long), and let the FAT chain of the first cluster `c0` of the file's
directory entry be `c0, FAT[c0], ...`, `n + 1` clusters long: its members are
16-bit cluster numbers at indices inside the FAT, the successors are below
`0xFFF8`, the entry of the last one is an end-of-chain marker, the chain has
at least `ceil (S / cluster_size)` clusters and those lie inside the device.
Then the chain of the handle is that FAT chain, and calling
`file_read(buf, 1, k, h)` with a chunk size `1 <= k` again and again until a
call returns 0 comes to an end within `S + 1` calls; the values returned sum
to `S` and the bytes delivered, put together in the order of the calls, are
the canonical content of the file: the first `S` bytes of the data of the
clusters of the FAT chain, in chain order. -/
theorem file_read_all_spec (fuelO fuel k n calls : Nat) (v : volume_t) (file_name : List Nat)
    (e0 e1 : Nat) (h : file_t)
    (hres : file_open fuelO v file_name e0 = .ret (some h, e1))
    (hrange : v.bootSector.inRange) (hdisk : v.disk.opened)
    (hbps : v.bootSector.BytesPerSector = 512)
    (hfat : v.FAT1.length = v.bootSector.FatSize * v.bootSector.BytesPerSector)
    (hsize : h.file_info.fileSize < 2 ^ 32)
    (hc0 : h.file_info.firstClusterNumberLowBits < 2 ^ 16)
    (hidx : ∀ i, i ≤ n →
      fatSuccessor v.FAT1 h.file_info.firstClusterNumberLowBits i < v.FAT1.length / 2)
    (hlt : ∀ i, 1 ≤ i → i ≤ n →
      fatSuccessor v.FAT1 h.file_info.firstClusterNumberLowBits i < 0xFFF8)
    (hend : 0xFFF8 ≤ fatSuccessor v.FAT1 h.file_info.firstClusterNumberLowBits (n + 1))
    (hlen : h.file_info.fileSize
      ≤ (n + 1) * (v.bootSector.BytesPerSector * v.bootSector.SectorPerCluster))
    (hdev : ∀ i, i ≤ n →
      i * (v.bootSector.BytesPerSector * v.bootSector.SectorPerCluster) < h.file_info.fileSize →
      clusterInDevice v (fatSuccessor v.FAT1 h.file_info.firstClusterNumberLowBits i))
    (hfuelO : n ≤ fuelO) (hk1 : 1 ≤ k) (hk : k < 2 ^ 64)
    (hfuel : min k h.file_info.fileSize ≤ fuel) (hcalls : h.file_info.fileSize < calls) :
    h.chain.clusters = fatChain v.FAT1 h.file_info.firstClusterNumberLowBits n ∧
      ∃ results, file_read_all fuel k calls h = .ret results ∧
        (results.map Prod.fst).sum = h.file_info.fileSize ∧
        results.flatMap Prod.snd = canonicalContent v h.file_info n ∧
        results.getLast? = some (0, []) := by
  obtain ⟨h0, hvol, hop⟩ := file_open_opened fuelO v file_name e0 e1 h hres
  obtain ⟨chain, hchain, hcl⟩ := file_open_chain_ret fuelO v file_name e0 e1 h hres
  have hne := get_chain_fat16_first_ne_zero _ _ _ _ _ hchain
  have hL : fatByteLength v.bootSector = v.FAT1.length := by
    rw [fatByteLength_eq v.bootSector hrange.2.2.2.2.2 hbps, hfat]
  rw [hL, get_chain_fat16_run v.FAT1 h.file_info.firstClusterNumberLowBits n fuelO hne hidx hlt
    hend hfuelO] at hchain
  injection hchain with hchain
  injection hchain with hchain
  have hclusters : h.chain.clusters
      = fatChain v.FAT1 h.file_info.firstClusterNumberLowBits n := by
    rw [hcl, ← hchain]
    rfl
  have hflen : (fatChain v.FAT1 h.file_info.firstClusterNumberLowBits n).length = n + 1 := by
    simp [fatChain]
  have hread : h.readable := by
    refine ⟨by rw [hvol]; exact hrange, by rw [hvol]; exact hdisk, by rw [hvol]; exact hbps,
      hsize, ?_, ?_⟩
    · rw [hclusters, hflen]
      unfold file_t.clusterSize
      rw [hvol]
      exact hlen
    · intro i c hi hlt2
      rw [hclusters] at hi
      obtain ⟨hin, rfl⟩ := fatChain_getElem? _ _ _ _ _ hi
      unfold file_t.clusterSize at hlt2
      rw [hvol] at hlt2 ⊢
      refine ⟨?_, hdev i hin hlt2⟩
      rcases Nat.eq_zero_or_pos i with rfl | hpos
      · exact hc0
      · exact Nat.lt_trans (hlt i hpos hin) (by decide)
  obtain ⟨results, r1, r2, r3, r4⟩ := file_read_all_run k fuel hk1 hk
    (h.file_info.fileSize - h.offset) h calls hop hread (by omega) rfl (by rw [h0]; exact hfuel)
    (by omega)
  rw [h0] at r2 r3
  refine ⟨hclusters, results, r1, r2, ?_, r4⟩
  rw [r3]
  unfold fileContent canonicalContent
  rw [hclusters, hvol]
  rfl

theorem twoClusterFAT_length : twoClusterFAT.length = 512 := by
  unfold twoClusterFAT
  simp

theorem twoClusterImage_opened : (diskOf twoClusterImage 6).opened := by
  unfold disk_t.opened diskOf twoClusterImage
  simp only [List.length_append, mkBootSector_length, twoClusterFAT_length,
    List.length_replicate]
  refine ⟨?_, by decide⟩
  have h1 : bigEntry.toBytes.length = 32 := rfl
  rw [h1]
  rfl

theorem twoClusterVolume_inRange : twoClusterVolume.bootSector.inRange := by
  unfold fatBootSector.inRange
  simp [twoClusterVolume]

theorem twoClusterFAT_succ (i : Nat) (hi : i ≤ 2) :
    fatSuccessor twoClusterFAT 3 i = [3, 2, 0xFFFF].getD i 0 := by
  have h1 : fatEntry twoClusterFAT 3 = 2 := by
    simp [fatEntry, twoClusterFAT]
  have h2 : fatEntry twoClusterFAT 2 = 0xFFFF := by
    simp [fatEntry, twoClusterFAT]
  rcases i with _ | _ | _ | i
  · rfl
  · exact h1
  · show fatEntry twoClusterFAT (fatEntry twoClusterFAT 3) = 0xFFFF
    rw [h1, h2]
  · omega

theorem twoClusterVolume_inDevice (c : Nat) (hc : c = 2 ∨ c = 3) :
    clusterInDevice twoClusterVolume c := by
  unfold clusterInDevice clusterSector data_start_sector
  rcases hc with rfl | rfl <;> simp [twoClusterVolume, diskOf]

/-- Witness of `file_read_all_spec`: the 600-byte file `BIG.BIN` of the
two-cluster volume, whose FAT chain is `3, 2`, read in chunks of 250 bytes;
its canonical content is the 512 bytes of cluster 3 followed by the first 88
bytes of cluster 2. -/
theorem file_read_all_spec_witness :
    fat_open (diskOf twoClusterImage 6) 0 (fun _ => 0) 0 = .ret (some twoClusterVolume, 0) ∧
      file_open 8 twoClusterVolume bigName 0 = .ret (some bigHandle, 0) ∧
      fatChain twoClusterVolume.FAT1 bigHandle.file_info.firstClusterNumberLowBits 1 = [3, 2] ∧
      canonicalContent twoClusterVolume bigHandle.file_info 1
        = List.replicate 512 0xAA ++ List.replicate 88 0xBB ∧
      (bigHandle.chain.clusters
          = fatChain twoClusterVolume.FAT1 bigHandle.file_info.firstClusterNumberLowBits 1 ∧
        ∃ results, file_read_all 250 250 601 bigHandle = .ret results ∧
          (results.map Prod.fst).sum = bigHandle.file_info.fileSize ∧
          results.flatMap Prod.snd = canonicalContent twoClusterVolume bigHandle.file_info 1 ∧
          results.getLast? = some (0, [])) :=
  ⟨by rfl, by rfl, by
    show [fatSuccessor twoClusterFAT 3 0, fatSuccessor twoClusterFAT 3 1] = [3, 2]
    rw [twoClusterFAT_succ 0 (by decide), twoClusterFAT_succ 1 (by decide)]
    rfl,
   by rfl,
   file_read_all_spec 8 250 250 1 601 twoClusterVolume bigName 0 0 bigHandle (by rfl)
    twoClusterVolume_inRange twoClusterImage_opened (by rfl)
    (by rw [show twoClusterVolume.FAT1 = twoClusterFAT from rfl, twoClusterFAT_length]; rfl)
    (by decide) (by decide)
    (by
      intro i hi
      rw [show twoClusterVolume.FAT1 = twoClusterFAT from rfl, twoClusterFAT_length,
        show bigHandle.file_info.firstClusterNumberLowBits = 3 from rfl,
        twoClusterFAT_succ i (by omega)]
      rcases i with _ | _ | i
      · decide
      · decide
      · omega)
    (by
      intro i _ hi
      rw [show twoClusterVolume.FAT1 = twoClusterFAT from rfl,
        show bigHandle.file_info.firstClusterNumberLowBits = 3 from rfl,
        twoClusterFAT_succ i (by omega)]
      rcases i with _ | _ | i
      · decide
      · decide
      · omega)
    (by
      rw [show twoClusterVolume.FAT1 = twoClusterFAT from rfl,
        show bigHandle.file_info.firstClusterNumberLowBits = 3 from rfl,
        twoClusterFAT_succ 2 (by decide)]
      decide)
    (by decide)
    (by
      intro i hi _
      rw [show twoClusterVolume.FAT1 = twoClusterFAT from rfl,
        show bigHandle.file_info.firstClusterNumberLowBits = 3 from rfl,
        twoClusterFAT_succ i (by omega)]
      rcases i with _ | _ | i
      · exact twoClusterVolume_inDevice 3 (Or.inr rfl)
      · exact twoClusterVolume_inDevice 2 (Or.inl rfl)
      · omega)
    (by decide) (by decide) (by decide) (by decide) (by decide)⟩

end Fat16
